import Mathlib

/-!
# api-proxy: rule matching, sampling, routing, pinning, throttling, AZ failover

A shallow embedding of `HailoOSS/api-proxy`: the `controlplane` package
(`rules.go`, `router.go`, `regions.go`, `types.go`), the pinning and throttling
code of the `handler` package (`handler.go`, `throttling.go`,
`throttlesync.go`), `session/session.go`, the error body of `errors/errors.go`
and the failover of `statusmonitor/types.go`, together with the theorems that
settle the behavioural statements made about them.

Conventions of the embedding.

* A Go `string` is a sequence of bytes: `GoString := List UInt8`. The literal
  `str "H1"` is the UTF-8 encoding of the text.
* A Go pointer that may be nil is an `Option`; a Go map is an association list
  whose order is the (unspecified) iteration order and whose lookup returns
  the first binding of a key.
* Go `int` / `int64` values are `Int`; the 64-bit hash state is a `Nat` reduced
  modulo `2^64` after every multiplication.
* A `float32` is a finite dyadic rational with an explicit rounding function
  for multiplication (round to nearest, ties to even, 24 significant bits).
* The process-wide random source of `math/rand` is an explicit stream of rolls
  that is threaded through every function that may draw from it.
* Calls that leave the process (the throttling service, the coordinator) are
  parameters: the function is given what the call returns.
* Library functions (`strings`, `sort`, `net/http`, `encoding/json`) are
  modelled by the part of their behaviour that the code relies on.
-/

namespace controlplane

/-! ## Strings -/

/-- A Go string: an immutable sequence of bytes. -/
abbrev GoString := List UInt8

/-- The bytes (UTF-8) of a string literal. -/
def str (s : String) : GoString := s.data.flatMap String.utf8EncodeChar

/-- Go `strings.HasPrefix(s, pre)`: `len(s) >= len(pre) && s[:len(pre)] == pre`. -/
def HasPrefix (s pre : GoString) : Bool :=
  decide (s.length ≥ pre.length) && (s.take pre.length == pre)

/-- The byte `','`. -/
def comma : UInt8 := 44

/-- Go `strings.Split(s, sep)` for a one-byte separator: the substrings between
the separators, in order; a string without separator (also the empty string)
yields the one-element list holding the string itself. -/
def Split (s : GoString) (sep : UInt8) : List GoString :=
  match s with
  | [] => [[]]
  | b :: rest =>
    if b = sep then [] :: Split rest sep
    else
      match Split rest sep with
      | [] => [[b]]
      | x :: xs => (b :: x) :: xs

/-- Upper-casing of one byte of the ASCII range (`'a'..'z'` to `'A'..'Z'`). -/
def upperByte (b : UInt8) : UInt8 :=
  if 97 ≤ b ∧ b ≤ 122 then b - 32 else b

/-- Go `strings.ToUpper` on the ASCII letters; every other byte is kept. (Go
maps no character outside ASCII to one of the letters of `H1`, `H2`,
`DEPRECATE`, `THROTTLE`, so the comparison made by `forceRoute` is the same.) -/
def ToUpper (s : GoString) : GoString := s.map upperByte

/-- The decimal digits of `n`, most significant first (`fuel` bounds their
number). -/
def decimalAux : Nat → Nat → GoString
  | 0, _ => []
  | fuel + 1, n =>
    if n < 10 then [UInt8.ofNat (48 + n)]
    else decimalAux fuel (n / 10) ++ [UInt8.ofNat (48 + n % 10)]

/-- The text of `fmt.Sprintf("%v", n)` for a natural number `n`. -/
def decimal (n : Nat) : GoString := decimalAux (n + 1) n

/-! ## float32 -/

/-- A finite `float32` value `(-1)^neg * mant * 2^exp`. A binary32 number has
`mant < 2^24` and `-149 ≤ exp ≤ 104`; infinities and NaN (which JSON decoding
never produces) are left out. -/
structure Float32 where
  neg : Bool
  mant : Nat
  exp : Int
deriving Repr, DecidableEq

/-- The real (rational) value of a `float32`. -/
def Float32.toRat (x : Float32) : ℚ :=
  (if x.neg then -(x.mant : ℚ) else (x.mant : ℚ)) * (2 : ℚ) ^ x.exp

/-- The range of binary32: 24 bits of significand, exponent of the last place
between `-149` and `104`. -/
def Float32.IsBinary32 (x : Float32) : Prop :=
  x.mant < 2 ^ 24 ∧ -149 ≤ x.exp ∧ x.exp ≤ 104

/-- Number of significant bits of `m`, counted by halving (at most `fuel`
times). -/
def bitLengthAux : Nat → Nat → Nat
  | 0, _ => 0
  | fuel + 1, m => if m = 0 then 0 else bitLengthAux fuel (m / 2) + 1

/-- Number of significant bits of a natural number (`m` halvings are enough). -/
def bitLength (m : Nat) : Nat := bitLengthAux m m

/-- Rounding of `m * 2^e` to at most 24 significant bits, to nearest, ties to
even (the IEEE-754 default mode used by the float32 multiplication). -/
def round24 (m : Nat) (e : Int) : Nat × Int :=
  if bitLength m ≤ 24 then (m, e)
  else
    let s := bitLength m - 24
    let q := m / 2 ^ s
    let r := m % 2 ^ s
    let half := 2 ^ (s - 1)
    let q1 := if r > half ∨ (r = half ∧ q % 2 = 1) then q + 1 else q
    (q1, e + (s : Int))

/-- Conversion of an integer constant to `float32`. -/
def Float32.ofNat (n : Nat) : Float32 :=
  let p := round24 n 0
  ⟨false, p.1, p.2⟩

/-- The float32 product `x * y`: the exact product rounded to 24 bits.
(The exponent range is not modelled: the products `prop * 1000000` taken by
the code neither underflow nor overflow for a proportion up to `10^32`.) -/
def Float32.mul (x y : Float32) : Float32 :=
  let p := round24 (x.mant * y.mant) (x.exp + y.exp)
  ⟨x.neg != y.neg, p.1, p.2⟩

/-- Go `uint64(x)` for a `float32` `x`: the fraction is discarded. (Go leaves
the conversion of a value outside the range of `uint64` to the
implementation; here the truncated value is kept as it is, and a negative
value gives 0.) -/
def Float32.toUint64 (x : Float32) : Nat :=
  if x.neg then 0
  else if 0 ≤ x.exp then x.mant * 2 ^ x.exp.toNat
  else x.mant / 2 ^ (-x.exp).toNat

/-! ## Random source -/

/-- A value returned by `rand.Float32()`: a float32 in `[0.0, 1.0)`. -/
structure Roll where
  val : Float32
  nonneg : 0 ≤ val.toRat
  lt_one : val.toRat < 1

/-- The state of the process-wide random source: the stream of values it will
return and the number of values drawn so far. -/
structure Rand where
  stream : Nat → Roll
  pos : Nat

/-- Go `rand.Float32()`: returns the next roll and advances the source. -/
def Rand.Float32 (g : Rand) : Roll × Rand :=
  (g.stream g.pos, { g with pos := g.pos + 1 })

/-! ## Types (`types.go`) -/

/-- Sampler defines how requests are sampled for matching (a Go `int`). -/
abbrev Sampler := Int

def RandomSampler : Sampler := 0
def CustomerSampler : Sampler := 1
def DriverSampler : Sampler := 2
def DeviceSampler : Sampler := 3
def SessionSampler : Sampler := 4

/-- Action is the outcome attached to a route (a Go `int`). -/
abbrev Action := Int

def ActionProxyToH1 : Action := 1
def ActionSendToH2 : Action := 2
def ActionThrottle : Action := 3
def ActionDeprecate : Action := 4

/-- Payload used when serving throttled calls. -/
structure Payload where
  Body : GoString
  HttpStatus : Int
  Headers : List (GoString × GoString)
deriving DecidableEq

/-- Match: criteria to match an HTTP request against. -/
structure Match where
  Hob : GoString
  Path : GoString
  Source : GoString
  Proportion : Float32
  Sampler : Sampler
deriving DecidableEq

/-- Rule: matching criteria plus an action. `Match` and `Payload` are
pointers and may be nil. -/
structure Rule where
  Match : Option Match
  Action : Action
  Payload : Option Payload
  Weight : Int
deriving DecidableEq

/-- SortedRules: a slice of `*Rule`. -/
abbrev SortedRules := List (Option Rule)

/-- Rules: a map from rule id to `*Rule`. -/
abbrev Rules := List (GoString × Option Rule)

/-- Urls: URLs for named purposes. -/
abbrev Urls := List (GoString × GoString)

/-- Region: config of a single region. -/
structure Region where
  Id : GoString
  Status : GoString
  Failover : List GoString
  Apps : List (GoString × Urls)
deriving DecidableEq

/-- Regions: map from region id to `*Region`. -/
abbrev Regions := List (GoString × Option Region)

/-- HobRegions: map from HOB to region id. -/
abbrev HobRegions := List (GoString × GoString)

/-- HobModes: map from HOB to mode. -/
abbrev HobModes := List (GoString × GoString)

/-- The read methods of the `Extractor` interface: the feature view of one
request. -/
structure Extractor where
  Hob : GoString
  Value : GoString → GoString
  Path : GoString
  Source : GoString
  Host : GoString
  Header : GoString → GoString

/-! ## Sampling (`rules.go`) -/

/-- FNV offset basis, 64 bit. -/
def offset64 : Nat := 14695981039346656037

/-- FNV prime, 64 bit. -/
def prime64 : Nat := 1099511628211

/-- The hash computed by `h := fnv.New64(); io.WriteString(h, v); h.Sum64()`:
Go's `fnv.New64` is FNV-1, which for every byte first multiplies the state by
the prime (modulo `2^64`) and then xors the byte in. -/
def fnv64 (v : GoString) : Nat :=
  v.foldl (fun h b => ((h * prime64) % 2 ^ 64) ^^^ b.toNat) offset64

/-- The bucket limit `uint64(prop*1000000)` of `hashSample`. -/
def bucketLimit (prop : Float32) : Nat :=
  (prop.mul (Float32.ofNat 1000000)).toUint64

/-- `hashSample` hashes `v` into a number, takes a remainder and thus decides
whether to sample. -/
def hashSample (v : GoString) (prop : Float32) : Bool :=
  if v = [] then true
  else if prop.toRat ≤ 0 then false
  else
    let i := fnv64 v
    let bucket := i % 1000000
    if bucket > bucketLimit prop then false else true

/-- `withinCsv` tests whether `test` is one of the values of a CSV. -/
def withinCsv (csv test : GoString) : Bool :=
  (Split csv comma).any (fun v => v == test)

/-- `Match.sample`: whether the request passes the sampling of the match.
The default (random) sampler draws one roll from the random source. -/
def Match.sample (m : Match) (ext : Extractor) (g : Rand) : Bool × Rand :=
  if m.Sampler = CustomerSampler then
    (hashSample (ext.Value (str "customer")) m.Proportion, g)
  else if m.Sampler = DriverSampler then
    (hashSample (ext.Value (str "driver")) m.Proportion, g)
  else if m.Sampler = DeviceSampler then
    (hashSample (ext.Value (str "device")) m.Proportion, g)
  else if m.Sampler = SessionSampler then
    (hashSample (ext.Value (str "session_id")) m.Proportion, g)
  else
    let (roll, g1) := g.Float32
    if roll.val.toRat > m.Proportion.toRat then (false, g1) else (true, g1)

/-- `Match.matches`: tests whether a match matches a request. -/
def Match.matches (m : Match) (ext : Extractor) (g : Rand) : Bool × Rand :=
  if m.Path.length > 0 ∧ ¬ ( HasPrefix ext.Path m.Path) then (false, g)
  else if m.Source.length > 0 ∧ ext.Source ≠ m.Source then (false, g)
  else if m.Hob.length > 0 ∧ ¬ (withinCsv m.Hob ext.Hob) then (false, g)
  else
    let (ok, g1) := m.sample ext g
    if !ok then (false, g1) else (true, g1)

/-- `Rule.Matches`: `r != nil && r.Match != nil && r.Match.matches(ext)`. -/
def Rule.Matches (r : Option Rule) (ext : Extractor) (g : Rand) : Bool × Rand :=
  match r with
  | none => (false, g)
  | some rule =>
    match rule.Match with
    | none => (false, g)
    | some m => m.matches ext g

/-- `Rule.Specificity`: how specific a rule is. -/
def Rule.Specificity (r : Option Rule) : Int :=
  match r with
  | none => 0
  | some rule =>
    match rule.Match with
    | none => 0
    | some m =>
      let s := 0
      let s := if m.Hob.length > 0 then s + 5 else s
      let s := if m.Source.length > 0 then s + 5 else s
      let s := if m.Path.length > 0 then s + 10 else s
      s

/-- The comparison made by `SortedRules.Less` on the two rules it is given:
greater weight first, then greater specificity. -/
def ruleLess (a b : Rule) : Bool :=
  if a.Weight ≠ b.Weight then decide (a.Weight > b.Weight)
  else decide (Rule.Specificity (some a) > Rule.Specificity (some b))

/-- `SortedRules.Less(i, j)`. The result is `none` when the call panics: an
index out of range, or a nil rule whose `Weight` is read. -/
def SortedRules.Less (s : SortedRules) (i j : Nat) : Option Bool :=
  match s[i]?, s[j]? with
  | some (some a), some (some b) => some (ruleLess a b)
  | _, _ => none

/-- The rules of a slice when none of them is nil. -/
def nonNil : SortedRules → Option (List Rule)
  | [] => some []
  | none :: _ => none
  | some r :: rest =>
    match nonNil rest with
    | none => none
    | some l => some (r :: l)

/-- `Rules.Sort`: copies the values of the map into a slice (in the iteration
order of the map, which is the order of the association list) and sorts it
with `sort.Sort`. The library function `sort.Sort` is the parameter `sortFn`,
given the comparison and the elements. With fewer than two elements
`sort.Sort` never calls `Less`; with two or more every element is compared,
so a nil rule makes `Less` panic: the result is then `none`. -/
def Rules.Sort (sortFn : (Rule → Rule → Bool) → List Rule → List Rule)
    (rs : Rules) : Option SortedRules :=
  let ret := rs.map Prod.snd
  if ret.length < 2 then some ret
  else
    match nonNil ret with
    | none => none
    | some l => some ((sortFn ruleLess l).map some)

/-! ## Regions (`regions.go`) -/

/-- `HobRegions.Find`: the region id of a HOB, else that of `"default"`, else
`""`. -/
def HobRegions.Find (hr : HobRegions) (hob : GoString) : GoString :=
  match hr.lookup hob with
  | some r => r
  | none =>
    match hr.lookup (str "default") with
    | some r => r
    | none => []

/-- `HobModes.Find`: the mode of a HOB, else that of `"default"`, else `""`. -/
def HobModes.Find (hm : HobModes) (hob : GoString) : GoString :=
  match hm.lookup hob with
  | some m => m
  | none =>
    match hm.lookup (str "default") with
    | some m => m
    | none => []

/-- `Region.IsOnline`: `r != nil && r.Status != "OFFLINE"`. -/
def Region.IsOnline (r : Option Region) : Bool :=
  match r with
  | none => false
  | some reg => reg.Status != str "OFFLINE"

/-- `Region.Urls`: the URLs of an app of the region, else those of the app
`"default"`, else nil. -/
def Region.Urls (r : Region) (app : GoString) : Option Urls :=
  match r.Apps.lookup app with
  | some u => some u
  | none =>
    match r.Apps.lookup (str "default") with
    | some u => some u
    | none => none

/-! ## Router (`router.go`, `controlplane.go`) -/

/-- The configuration that is loaded and published as a whole. -/
structure loadedCpConfig where
  rules : SortedRules
  regions : Regions
  hobRegions : HobRegions
  hobModes : HobModes
  rConfigVersion : Int
  configHash : GoString

/-- A router: the extractor of one request and the configuration snapshot read
through `control.loadedConfig()`. -/
structure RuleRouter where
  extractor : Extractor
  control : loadedCpConfig

/-- The map index expression `regions[id]`: nil when the key is absent. -/
def Regions.index (rs : Regions) (id : GoString) : Option Region :=
  match rs.lookup id with
  | some r => r
  | none => none

/-- Go's `<` on strings: bytewise lexicographic order. -/
def strLess : GoString → GoString → Bool
  | [], [] => false
  | [], _ :: _ => true
  | _ :: _, [] => false
  | a :: as, b :: bs => if a < b then true else if b < a then false else strLess as bs

/-- Go `sort.Strings`: the strings in increasing order (the result of sorting
strings is the same for every correct sort). -/
def sortStrings (keys : List GoString) : List GoString :=
  keys.insertionSort (fun a b => strLess b a = false)

/-- The failover loop of `Region`: the first failover id whose region is online,
else the region given. -/
def tryFailovers (rs : Regions) (region : Option Region) : List GoString → Option Region
  | [] => region
  | foId :: rest =>
    if Region.IsOnline (Regions.index rs foId) then Regions.index rs foId
    else tryFailovers rs region rest

/-- `RuleRouter.Region`: the region (and the config version) that API requests
are to be sent to for the request. -/
def RuleRouter.Region (r : RuleRouter) : Option Region × Int :=
  let loadedCfg := r.control
  let regionId := HobRegions.Find loadedCfg.hobRegions r.extractor.Hob
  let region := Regions.index loadedCfg.regions regionId
  let version := loadedCfg.rConfigVersion
  let region :=
    if region.isNone ∧ loadedCfg.regions.length > 0 then
      let keys := loadedCfg.regions.map Prod.fst
      match sortStrings keys with
      | k :: _ => Regions.index loadedCfg.regions k
      | [] => none
    else region
  match region with
  | none => (none, version)
  | some reg =>
    if Region.IsOnline (some reg) then (some reg, version)
    else (tryFailovers loadedCfg.regions (some reg) reg.Failover, version)

/-- `RuleRouter.forceRoute`: the rule synthesised for a forced route. -/
def RuleRouter.forceRoute (_r : RuleRouter) (routeStr : GoString) : Option Rule :=
  let u := ToUpper routeStr
  if u = str "H2" then some ⟨none, ActionSendToH2, none, 0⟩
  else if u = str "H1" then some ⟨none, ActionProxyToH1, none, 0⟩
  else if u = str "DEPRECATE" then some ⟨none, ActionDeprecate, none, 0⟩
  else if u = str "THROTTLE" then some ⟨none, ActionThrottle, none, 0⟩
  else none

/-- The loop of `Route` over the rules: the first rule that matches. -/
def routeLoop (ext : Extractor) : SortedRules → Rand → Option Rule × Rand
  | [], g => (none, g)
  | rule :: rest, g =>
    let res := Rule.Matches rule ext g
    if res.1 then (rule, res.2) else routeLoop ext rest res.2

/-- `RuleRouter.Route`: routes a request according to the forced route of its
`X-Hailo-Route` header, else to the first matching rule. -/
def RuleRouter.Route (r : RuleRouter) (g : Rand) : Option Rule × Rand :=
  let routeStr := r.extractor.Header (str "X-Hailo-Route")
  let forced := if routeStr.length > 0 then r.forceRoute routeStr else none
  match forced with
  | some rule => (some rule, g)
  | none => routeLoop r.extractor r.control.rules g

/-- `RuleRouter.GetHobMode`: the mode of the request HOB, overridden by a
forced route of exactly `H1` or `H2`. -/
def RuleRouter.GetHobMode (r : RuleRouter) : GoString :=
  let routeStr := r.extractor.Header (str "X-Hailo-Route")
  let found := HobModes.Find r.control.hobModes r.extractor.Hob
  if routeStr.length > 0 then
    if routeStr = str "H1" then str "h1"
    else if routeStr = str "H2" then str "h2"
    else found
  else found

/-! ## HTTP headers (`net/http`) -/

/-- Go `http.Header`: a map from canonical header name to the list of values. -/
abbrev Header := List (GoString × List GoString)

/-- The bytes allowed in a header field name (the token characters of
RFC 7230): letters, digits and ``!#$%&'*+-.^_`|~``. -/
def validHeaderFieldByte (b : UInt8) : Bool :=
  (48 ≤ b && b ≤ 57) || (65 ≤ b && b ≤ 90) || (97 ≤ b && b ≤ 122) ||
  b == 33 || b == 35 || b == 36 || b == 37 || b == 38 || b == 39 || b == 42 ||
  b == 43 || b == 45 || b == 46 || b == 94 || b == 95 || b == 96 || b == 124 || b == 126

/-- The casing loop of `textproto.CanonicalMIMEHeaderKey`: upper case for the
first letter and for a letter after a hyphen, lower case for the others. -/
def canonicalCase (upper : Bool) : GoString → GoString
  | [] => []
  | c :: rest =>
    let c1 :=
      if upper ∧ 97 ≤ c ∧ c ≤ 122 then c - 32
      else if ¬ upper ∧ 65 ≤ c ∧ c ≤ 90 then c + 32
      else c
    c1 :: canonicalCase (c1 == 45) rest

/-- Go `textproto.CanonicalMIMEHeaderKey`: a name holding a byte that is not
allowed in a field name is returned unchanged. -/
def CanonicalMIMEHeaderKey (s : GoString) : GoString :=
  if s.all validHeaderFieldByte then canonicalCase true s else s

/-- The assignment `m[k] = v` of a Go map. -/
def mapSet {V : Type} (m : List (GoString × V)) (k : GoString) (v : V) :
    List (GoString × V) :=
  (k, v) :: m.filter (fun p => p.1 != k)

/-- Go `Header.Get`: the first value under the canonical form of the name, or
`""`. -/
def Header.Get (h : Header) (key : GoString) : GoString :=
  match h.lookup (CanonicalMIMEHeaderKey key) with
  | some (v :: _) => v
  | _ => []

/-- Go `Header.Set`: the canonical form of the name is given the single value. -/
def Header.Set (h : Header) (key value : GoString) : Header :=
  mapSet h (CanonicalMIMEHeaderKey key) [value]

/-! ## Hostname correction (`router.go`) and pinning (`handler/handler.go`) -/

/-- The name under which the thin API is referenced in the URLs of an app. -/
def urlName : GoString := str "api"

/-- The map index expression `urls[name]` on a map that may be nil: `""` when
the map is nil or the key is absent. -/
def Urls.index (urls : Option Urls) (name : GoString) : GoString :=
  match urls with
  | none => []
  | some m => (m.lookup name).getD []

/-- The results of `CorrectHostname`; `err` is the message of the error, if
any. -/
structure HostnameCheck where
  err : Option GoString
  isCorrect : Bool
  urls : Option Urls
  version : Int
deriving DecidableEq

/-- `RuleRouter.CorrectHostname`: tests whether the request hostname is the one
expected for the active region; `rw` is the header of the response. -/
def RuleRouter.CorrectHostname (r : RuleRouter) (rw : Header) : HostnameCheck :=
  let hob := r.extractor.Hob
  let hob := if hob.length = 0 then rw.Get (str "X-H-HOB") else hob
  if hob.length = 0 then
    ⟨some (str "[RuleRouter] No HOB available, unable to check region pinning"),
      false, none, 0⟩
  else
    let res := r.Region
    match res.1 with
    | none =>
      ⟨some (str "[RuleRouter] No Region available, unable to check region pinning"),
        false, none, res.2⟩
    | some region =>
      let host := r.extractor.Host
      let urls := region.Urls r.extractor.Source
      ⟨none, host == Urls.index urls urlName, urls, res.2⟩

/-- The decimal text of an integer, as printed by `fmt.Sprintf("%d", n)`. -/
def decimalInt (n : Int) : GoString :=
  match n with
  | Int.ofNat k => decimal k
  | Int.negSucc k => 45 :: decimal (k + 1)

/-- Go `strings.Replace(s, "_", "-", -1)`: every underscore becomes a hyphen. -/
def replaceUnderscore (s : GoString) : GoString :=
  s.map (fun b => if b = 95 then 45 else b)

/-- The name of the header that carries the URL of purpose `k`:
`"X-H-ENDPOINT-" + strings.ToUpper(strings.Replace(k, "_", "-", -1))`. The
library function `strings.ToUpper`, which maps the letters of every script, is
the parameter `toUpper`; on ASCII strings it is `ToUpper`. -/
def endpointHeader (toUpper : GoString → GoString) (k : GoString) : GoString :=
  str "X-H-ENDPOINT-" ++ toUpper (replaceUnderscore k)

/-- `pinRequestToHostname`: sends the `X-H-ENDPOINT-*` headers; the URLs are
set in the iteration order of the map. -/
def pinRequestToHostname (toUpper : GoString → GoString) (rw : Header) (version : Int)
    (urls : Option Urls) : Header :=
  let rw1 := rw.Set (str "X-H-ENDPOINT-TIMESTAMP") (decimalInt version)
  (urls.getD []).foldl (fun h kv => h.Set (endpointHeader toUpper kv.1) kv.2) rw1

/-- `maybePinRequestToHostname`: adds the pinning headers when the hostname of
the request is not the expected one. -/
def maybePinRequestToHostname (toUpper : GoString → GoString) (router : RuleRouter)
    (rw : Header) : Header :=
  let c := router.CorrectHostname rw
  if c.err.isNone ∧ ¬ c.isCorrect then pinRequestToHostname toUpper rw c.version c.urls
  else rw

/-- Whether a header map has an entry for the name (`_, ok := h[canonical]`). -/
def Header.has (h : Header) (key : GoString) : Bool :=
  (h.lookup (CanonicalMIMEHeaderKey key)).isSome

/-! ## Sessions (`session/session.go`) -/

/-- Go `url.Values`: a map from parameter name to the list of its values. -/
abbrev Values := List (GoString × List GoString)

/-- Go `Values.Get`: the first value of the name, or `""`. -/
def Values.Get (v : Values) (key : GoString) : GoString :=
  match v.lookup key with
  | some (x :: _) => x
  | _ => []

/-- The body of a request, given by what the library makes of it: whether
reading it fails (`drainBody` returns an error), the values that
`parsePostForm` decodes from it (none when the content type is not that of a
form), and whether `parsePostForm` reports an error (a malformed media type, an
oversized body or a malformed pair). -/
structure Body where
  readErr : Bool
  form : Values
  formErr : Bool

/-- The parts of an `http.Request` that the session, throttling and extractor
code reads: `Query` is `r.URL.Query()`, `Form` is `r.Form` (empty until the
form is parsed), `PostForm` is `r.PostForm` (nil until the form is parsed),
`Body` is `r.Body`. Two verdicts of the library belong to the request:
`queryErr`, whether `url.ParseQuery` reports an error for the raw query (the
pairs it cannot decode are left out of `Query`), and `mediaTypeOk`, whether
`mime.ParseMediaType` finds a media type in the `Content-Type` header. -/
structure Request where
  Method : GoString
  Host : GoString
  Path : GoString
  Query : Values
  Form : Values
  Header : Header
  PostForm : Option Values := none
  Body : Option Body := none
  queryErr : Bool := false
  mediaTypeOk : Bool := true

/-- The authorization scheme that is recognised. -/
def authorizationScheme : GoString := str "token"

/-- `extractXApiTokenHeader`: the header holds the token itself. -/
def extractXApiTokenHeader (_key value : GoString) : GoString := value

/-- `extractAuthorizationHeader`: the second space-separated part of a value
whose first part is the scheme `token`. -/
def extractAuthorizationHeader (_key value : GoString) : GoString :=
  let parts := Split value 32
  match parts with
  | p0 :: p1 :: _ => if p0 ≠ authorizationScheme then [] else p1
  | _ => []

/-- The map `headerExtractors` in the order in which a `range` loop visits it;
Go leaves that order open, so either header may come first. -/
def headerExtractors (xApiTokenFirst : Bool) :
    List (GoString × (GoString → GoString → GoString)) :=
  if xApiTokenFirst then
    [(str "X-Api-Token", extractXApiTokenHeader),
     (str "Authorization", extractAuthorizationHeader)]
  else
    [(str "Authorization", extractAuthorizationHeader),
     (str "X-Api-Token", extractXApiTokenHeader)]

/-- The inner loop of `SessionId` over the values of one header: the first
non-empty extraction. -/
def sessionFromValues (hdr : GoString) (extractor : GoString → GoString → GoString) :
    List GoString → GoString
  | [] => []
  | v :: rest =>
    let sessId := extractor hdr v
    if sessId ≠ [] then sessId else sessionFromValues hdr extractor rest

/-- The outer loop of `SessionId` over the header extractors; `r.Header[hdr]`
is a plain map index. -/
def sessionFromHeaders (h : Header) :
    List (GoString × (GoString → GoString → GoString)) → GoString
  | [] => []
  | (hdr, extractor) :: rest =>
    let sessId := sessionFromValues hdr extractor ((h.lookup hdr).getD [])
    if sessId ≠ [] then sessId else sessionFromHeaders h rest

/-- `session.SessionId`: the session id of a request, from the query string,
the form, or the headers. -/
def SessionId (xApiTokenFirst : Bool) (r : Option Request) : GoString :=
  match r with
  | none => []
  | some req =>
    if req.Query.Get (str "session_id") ≠ [] then req.Query.Get (str "session_id")
    else if req.Query.Get (str "api_token") ≠ [] then req.Query.Get (str "api_token")
    else if req.Form.Get (str "session_id") ≠ [] then req.Form.Get (str "session_id")
    else if req.Form.Get (str "api_token") ≠ [] then req.Form.Get (str "api_token")
    else sessionFromHeaders req.Header (headerExtractors xApiTokenFirst)

/-! ## Error bodies (`errors/errors.go`) and their JSON encoding -/

/-- The JSON body of an error. `Context` is a slice that may be nil. -/
structure ErrorBody where
  Status : Bool
  Payload : GoString
  Number : Int
  DottedCode : GoString
  Context : Option (List GoString)

/-- The lower-case hexadecimal digit of a value below 16. -/
def hexDigit (n : Nat) : UInt8 :=
  if n < 10 then UInt8.ofNat (48 + n) else UInt8.ofNat (87 + n)

/-- The encoding of one byte of a JSON string by `encoding/json`: the quote and
the backslash are escaped with a backslash, newline, carriage return and tab
by their letter, the other control characters and `<`, `>`, `&` as `\u00XX`;
every other byte is copied (bytes of the non-ASCII range are taken to be
valid UTF-8 other than U+2028 and U+2029). This is the encoding of the Go
releases before 1.22; later releases write backspace and form feed as `\b`
and `\f`. -/
def jsonEscapeByte (b : UInt8) : GoString :=
  if b = 34 ∨ b = 92 then [92, b]
  else if b = 10 then [92, 110]
  else if b = 13 then [92, 114]
  else if b = 9 then [92, 116]
  else if b < 32 ∨ b = 60 ∨ b = 62 ∨ b = 38 then
    [92, 117, 48, 48, hexDigit (b.toNat / 16), hexDigit (b.toNat % 16)]
  else [b]

/-- The JSON encoding of a string. -/
def jsonString (s : GoString) : GoString :=
  [34] ++ s.flatMap jsonEscapeByte ++ [34]

/-- The JSON encoding of a slice of strings: `null` for a nil slice. -/
def jsonStrings (l : Option (List GoString)) : GoString :=
  match l with
  | none => str "null"
  | some xs => [91] ++ [comma].intercalate (xs.map jsonString) ++ [93]

/-- The JSON encoding of a boolean. -/
def jsonBool (b : Bool) : GoString := if b then str "true" else str "false"

/-- Go `json.Marshal` of an `ErrorBody`: the fields in the order of the
declaration under the names of their tags `status`, `payload`, `code`,
`dotted_code`, `context`; no field is omitted. -/
def ErrorBody.Marshal (e : ErrorBody) : GoString :=
  [123] ++ jsonString (str "status") ++ [58] ++ jsonBool e.Status ++ [comma]
    ++ jsonString (str "payload") ++ [58] ++ jsonString e.Payload ++ [comma]
    ++ jsonString (str "code") ++ [58] ++ decimalInt e.Number ++ [comma]
    ++ jsonString (str "dotted_code") ++ [58] ++ jsonString e.DottedCode ++ [comma]
    ++ jsonString (str "context") ++ [58] ++ jsonStrings e.Context ++ [125]

/-! ## Throttling (`handler/throttling.go`, `handler/throttlesync.go`) -/

/-- The buckets to throttle: `map[string]bool`. -/
abbrev throttledBucketsT := List (GoString × Bool)

/-- The per-bucket request counters: `map[string]*uint64`, each pointer
modelled by the counter it points to. -/
abbrev bucketBufferT := List (GoString × Nat)

/-- The capacity of the ingestion channel. -/
def ingesterChanCap : Nat := 500000

/-- The state of a `ThrottlingHandler`: the published set of throttled buckets
(a pointer that may be nil), the published counter buffer, and the content of
the ingestion channel, oldest first. -/
structure ThrottlingHandler where
  throttledBuckets : Option throttledBucketsT
  bucketBuffer : bucketBufferT
  ingesterChan : List GoString

/-- An `http.ResponseWriter`: the header map, the status once written, and the
body written so far. -/
structure ResponseWriter where
  header : Header
  status : Option Int
  body : GoString

/-- Go `ResponseWriter.WriteHeader`: the first status written is the status of
the response. -/
def ResponseWriter.WriteHeader (rw : ResponseWriter) (code : Int) : ResponseWriter :=
  if rw.status.isSome then rw else { rw with status := some code }

/-- Go `ResponseWriter.Write`: writes the status 200 if none was written, then
the bytes. -/
def ResponseWriter.Write (rw : ResponseWriter) (b : GoString) : ResponseWriter :=
  let rw1 := rw.WriteHeader 200
  { rw1 with body := rw1.body ++ b }

/-- `ThrottlingHandler.buckets`: the buckets that the request falls into. -/
def ThrottlingHandler.buckets (xApiTokenFirst : Bool) (r : Request) : List GoString :=
  let result : List GoString := []
  let sessId := SessionId xApiTokenFirst (some r)
  if sessId ≠ [] then result ++ [str "sessId:" ++ sessId] else result

/-- `ThrottlingHandler.anyThrottled`: whether any of the buckets is a key of
the throttled set. -/
def ThrottlingHandler.anyThrottled (t : ThrottlingHandler) (bucks : List GoString) : Bool :=
  match t.throttledBuckets with
  | none => false
  | some throttled => bucks.any (fun b => (throttled.lookup b).isSome)

/-- The non-blocking send `select { case ch <- b: default: }` on the buffered
channel: the value is dropped when the channel is full. -/
def trySend (ch : List GoString) (b : GoString) : List GoString :=
  if ch.length < ingesterChanCap then ch ++ [b] else ch

/-- What `ServeHTTP` has done: the state of the handler, the response, and the
calls made to the wrapped handler (each with the response it was given). -/
structure Served where
  handler : ThrottlingHandler
  rw : ResponseWriter
  forwarded : List (ResponseWriter × Request)

/-- The body of the response to a throttled request. -/
def throttledBody : ErrorBody :=
  { Status := false, Payload := str "Client error: rate limit exceeded", Number := 429,
    DottedCode := str "com.HailoOSS.api.throttled", Context := none }

/-- `ThrottlingHandler.ServeHTTP`; `next` is the wrapped handler. -/
def ThrottlingHandler.ServeHTTP (t : ThrottlingHandler)
    (next : ResponseWriter → Request → ResponseWriter) (xApiTokenFirst : Bool)
    (rw : ResponseWriter) (r : Request) : Served :=
  let bucks := ThrottlingHandler.buckets xApiTokenFirst r
  let t1 := { t with ingesterChan := bucks.foldl trySend t.ingesterChan }
  if t1.anyThrottled bucks then
    let rw1 := { rw with
      header := rw.header.Set (str "Content-Type") (str "application/json; charset=utf-8") }
    let rw2 := rw1.WriteHeader 429
    let b := throttledBody.Marshal
    ⟨t1, rw2.Write b, []⟩
  else
    ⟨t1, next rw r, [(rw, r)]⟩

/-- The addition `atomic.AddUint64(valPtr, 1)` to the counter of a key. -/
def addOne (buf : bucketBufferT) (bucketKey : GoString) : bucketBufferT :=
  buf.map (fun p => if p.1 = bucketKey then (p.1, (p.2 + 1) % 2 ^ 64) else p)

/-- One round of `ingesterWorker` on a key received from the channel, when the
buffer is not swapped meanwhile (the compare-and-swap then succeeds at the
first attempt): a key that is absent is added to a copy of the map with the
counter 1, the counter of a key that is there is incremented. -/
def ingesterStep (buf : bucketBufferT) (bucketKey : GoString) : bucketBufferT :=
  match buf.lookup bucketKey with
  | none => mapSet buf bucketKey 1
  | some _ => addOne buf bucketKey

/-- The rounds of `ingesterWorker` on the keys received, in order. -/
def ingesterWorker (keys : List GoString) (buf : bucketBufferT) : bucketBufferT :=
  keys.foldl ingesterStep buf

/-- `reportIncrements`: `enabled` is the configuration flag
`hailo.service.api.throttling.reportIncrements`, `checkin` the call to the
throttling service, which fails (`none`) or returns the buckets to throttle.
The result is `none` when an error is returned. -/
def reportIncrements (enabled : Bool) (checkin : bucketBufferT → Option (List GoString))
    (buf : bucketBufferT) : Option throttledBucketsT :=
  let result : throttledBucketsT := []
  if !enabled then some result
  else
    match checkin buf with
    | none => none
    | some keys => some (keys.foldl (fun m k => mapSet m k true) result)

/-- One tick of `synchroniser`: the buffer is swapped for a new one, the old
one reported, and the throttled set replaced. -/
def ThrottlingHandler.synchroniserTick (t : ThrottlingHandler) (enabled : Bool)
    (checkin : bucketBufferT → Option (List GoString)) : ThrottlingHandler :=
  let newBuf : bucketBufferT := []
  let buf := t.bucketBuffer
  let tb : throttledBucketsT :=
    match reportIncrements enabled checkin buf with
    | none => []
    | some tb => tb
  { t with bucketBuffer := newBuf, throttledBuckets := some tb }

/-! ## AZ status monitor (`statusmonitor/types.go`, `statusmonitor/zk.go`) -/

/-- The kind of a failure (a Go `int`). -/
abbrev Failure := Int

def NoFailure : Failure := 0
def ConnectivityFailure : Failure := 1
def MonitoringFailure : Failure := 2

/-- The path of the lock node in the coordinator. -/
def lockPath : GoString := str "/hailo-2-api-az-failover"

/-- The AZ health status of this instance; `LastChanged` is a time stamp. -/
structure StatusMonitor where
  IsHealthy : Bool
  LastChanged : Int
  AZName : GoString
  FailureType : Failure
  lockHandle : GoString
deriving DecidableEq

/-- What a call to the coordinator returns: a string and an error (`none` is
the nil error). -/
structure ZkResult where
  value : GoString
  err : Option GoString
deriving DecidableEq

/-- `StatusMonitor.failoverAZ`: `locked` is what `lock(s.AZName)` (the `Create`
of the lock node) returns, `read` what `readLock()` (the `Get` of the node)
returns when it is called, `now` the time. -/
def StatusMonitor.failoverAZ (s : StatusMonitor) (failure : Failure) (now : Int)
    (locked read : ZkResult) : StatusMonitor :=
  let s1 := { s with lockHandle := locked.value }
  let failed := { s1 with IsHealthy := false, LastChanged := now, FailureType := failure }
  match locked.err with
  | some _ =>
    match read.err with
    | some _ => s1
    | none => if read.value ≠ s1.AZName then s1 else failed
  | none => failed

/-! ## Form parsing (`net/http`, `net/url`) -/

/-- Go `url.Values.Add`: appends the value to the values of the key. -/
def Values.Add (v : Values) (key value : GoString) : Values :=
  mapSet v key ((v.lookup key).getD [] ++ [value])

/-- The helper `copyValues` of `net/http`: appends the values of every key of
`src` to those of the key in `dst`. -/
def copyValues (dst src : Values) : Values :=
  src.foldr (fun p acc => mapSet acc p.1 ((acc.lookup p.1).getD [] ++ p.2)) dst

/-- The helper `parsePostForm` of `net/http`: a request without body is an
error; else the values decoded from the body. -/
def parsePostForm (r : Request) : Values × Bool :=
  match r.Body with
  | none => ([], true)
  | some b => (b.form, b.formErr)

/-- Go `Request.ParseForm`: fills `r.PostForm` from the body of a POST, PUT or
PATCH request unless it is set, and `r.Form` from `r.PostForm` and the query
unless it is set; the result says whether an error is returned. -/
def Request.ParseForm (r : Request) : Request × Bool :=
  let post : Values × Bool :=
    match r.PostForm with
    | some pf => (pf, false)
    | none =>
      if r.Method = str "POST" ∨ r.Method = str "PUT" ∨ r.Method = str "PATCH" then
        parsePostForm r
      else ([], false)
  let form : Values × Bool :=
    if r.Form = [] then (copyValues post.1 r.Query, r.queryErr) else (r.Form, false)
  ({ r with PostForm := some post.1, Form := form.1 }, post.2 || form.2)

/-! ## Extractor (`controlplane/extractor.go`, `controlplane/citymapping.go`) -/

/-- The key added by a client to specify a city. -/
def cityCodeKey : GoString := str "city"

/-- The key added by a client to specify a HOB. -/
def hobCodeKey : GoString := str "hob"

/-- The static table `hostMap` from host name to HOB code. -/
def hostMap : List (GoString × GoString) :=
  [(str "api-driver-london.elasticride.com", str "LON"),
   (str "api-driver-london-test.elasticride.com", str "LON"),
   (str "api-driver-london-staging.elasticride.com", str "LON"),
   (str "api-driver.elasticride.com", str "LON"),
   (str "api-driver-test.elasticride.com", str "LON"),
   (str "api-driver-staging.elasticride.com", str "LON"),
   (str "api-driver-dublin.elasticride.com", str "DUB"),
   (str "api-driver-dublin-test.elasticride.com", str "DUB"),
   (str "api-driver-dublin-staging.elasticride.com", str "DUB"),
   (str "api-driver-boston.elasticride.com", str "BOS"),
   (str "api-driver-boston-test.elasticride.com", str "BOS"),
   (str "api-driver-boston-staging.elasticride.com", str "BOS"),
   (str "api-driver-chicago.elasticride.com", str "CHI"),
   (str "api-driver-chicago-test.elasticride.com", str "CHI"),
   (str "api-driver-chicago-staging.elasticride.com", str "CHI"),
   (str "api-driver-nyc.elasticride.com", str "NYC"),
   (str "api-driver-nyc-test.elasticride.com", str "NYC"),
   (str "api-driver-nyc-staging.elasticride.com", str "NYC"),
   (str "api-driver-toronto.elasticride.com", str "TOR"),
   (str "api-driver-toronto-test.elasticride.com", str "TOR"),
   (str "api-driver-toronto-staging.elasticride.com", str "TOR"),
   (str "api-driver-montreal.elasticride.com", str "MTR"),
   (str "api-driver-montreal-test.elasticride.com", str "MTR"),
   (str "api-driver-montreal-staging.elasticride.com", str "MTR"),
   (str "api-driver-madrid.elasticride.com", str "MAD"),
   (str "api-driver-madrid-test.elasticride.com", str "MAD"),
   (str "api-driver-madrid-staging.elasticride.com", str "MAD"),
   (str "api-driver-barcelona.elasticride.com", str "BCN"),
   (str "api-driver-barcelona-test.elasticride.com", str "BCN"),
   (str "api-driver-barcelona-staging.elasticride.com", str "BCN"),
   (str "api-driver-dc.elasticride.com", str "WAS"),
   (str "api-driver-dc-test.elasticride.com", str "WAS"),
   (str "api-driver-dc-staging.elasticride.com", str "WAS"),
   (str "api-driver-washington.elasticride.com", str "WAS"),
   (str "api-driver-washington-test.elasticride.com", str "WAS"),
   (str "api-driver-washington-staging.elasticride.com", str "WAS"),
   (str "api-driver-osaka.elasticride.com", str "OSA"),
   (str "api-driver-osaka-test.elasticride.com", str "OSA"),
   (str "api-driver-osaka-staging.elasticride.com", str "OSA"),
   (str "api-driver-tokyo.elasticride.com", str "TYO"),
   (str "api-driver-tokyo-test.elasticride.com", str "TYO"),
   (str "api-driver-tokyo-staging.elasticride.com", str "TYO")]

/-- The concrete extractor: the request (a pointer, nil is `none`) and the
values extracted from it (a map, nil until the extraction). -/
structure extractor where
  req : Option Request
  extractedValues : Option (List (GoString × GoString))

/-- `newExtractor`: an extractor that loads the values lazily. -/
def newExtractor (req : Option Request) : extractor := ⟨req, none⟩

/-- The loop `for k, vs := range values { extracted[k] = vs[0] }`; the result
is `none` when a key has no value, where the index `vs[0]` panics. -/
def setFirstValues (extracted : List (GoString × GoString)) :
    Values → Option (List (GoString × GoString))
  | [] => some extracted
  | (_, []) :: _ => none
  | (k, v :: _) :: rest =>
    match setFirstValues extracted rest with
    | some acc => some (mapSet acc k v)
    | none => none

/-- The call of `drainBody` in `doExtraction`: whether copying the body of the
request fails; a request without body is not read. -/
def Request.drainFails (r : Request) : Bool :=
  match r.Body with
  | some b => b.readErr
  | none => false

/-- The block of `doExtraction` for clients that send no valid content type:
a POST or PUT request whose `Content-Type` header holds no media type gets the
content type of a form. -/
def setFormContentType (r : Request) : Request :=
  if (r.Method = str "POST" ∨ r.Method = str "PUT") ∧ r.mediaTypeOk = false then
    { r with
      Header := r.Header.Set (str "Content-Type") (str "application/x-www-form-urlencoded"),
      mediaTypeOk := true }
  else r

/-- `extractor.doExtraction`: parses the request. The query values come first,
the values of the body override them, and `session_id` is the session id of
the request. The result is `none` when the code panics (a nil request, a key
without value). `xApiTokenFirst` is the order in which `session.SessionId`
visits its header extractors. -/
def extractor.doExtraction (xApiTokenFirst : Bool) (e : extractor) : Option extractor :=
  match e.req with
  | none => none
  | some r =>
    match setFirstValues [] r.Query with
    | none => none
    | some ev =>
      if r.drainFails then some ⟨some { r with Body := none }, some ev⟩
      else
        let parsed := (setFormContentType r).ParseForm
        if parsed.2 then some ⟨some parsed.1, some ev⟩
        else
          match setFirstValues ev (parsed.1.PostForm.getD []) with
          | none => none
          | some ev2 =>
            some ⟨some parsed.1,
              some (mapSet ev2 (str "session_id") (SessionId xApiTokenFirst (some parsed.1)))⟩

/-- `extractor.Value`: the value of a parameter of the request; the extraction
is done on the first call. -/
def extractor.Value (xApiTokenFirst : Bool) (e : extractor) (name : GoString) :
    Option (GoString × extractor) :=
  let extracted :=
    match e.extractedValues with
    | none => e.doExtraction xApiTokenFirst
    | some _ => some e
  match extracted with
  | none => none
  | some e1 => some (((e1.extractedValues.getD []).lookup name).getD [], e1)

/-- `extractor.SetHob`: adds the code to the query string under `city`, and to
the extracted values if the extraction was done; it starts the extraction
otherwise. The query string is encoded anew, so it decodes without error. -/
def extractor.SetHob (xApiTokenFirst : Bool) (e : extractor) (code : GoString) :
    Option extractor :=
  match e.req with
  | none => none
  | some r =>
    let q := r.Query.Add cityCodeKey code
    let e1 : extractor := { e with req := some { r with Query := q, queryErr := false } }
    match e1.extractedValues with
    | none => e1.doExtraction xApiTokenFirst
    | some ev => some { e1 with extractedValues := some (mapSet ev cityCodeKey code) }

/-- `extractor.CityOrHob`: the parameter `city`, else the parameter `hob`. -/
def extractor.CityOrHob (xApiTokenFirst : Bool) (e : extractor) :
    Option (GoString × extractor) :=
  match e.Value xApiTokenFirst cityCodeKey with
  | none => none
  | some (hob, e1) =>
    if hob.length > 0 then some (hob, e1) else e1.Value xApiTokenFirst hobCodeKey

/-- `extractor.Hob`: the city code of the request, from a parameter or from
the host name. -/
def extractor.Hob (xApiTokenFirst : Bool) (e : extractor) : Option (GoString × extractor) :=
  match e.req with
  | none => some ([], e)
  | some _ =>
    match e.CityOrHob xApiTokenFirst with
    | none => none
    | some (hob, e1) =>
      if hob.length ≠ 0 then some (hob, e1)
      else
        match e1.req with
        | none => none
        | some r1 =>
          match hostMap.lookup r1.Host with
          | some code => (e1.SetHob xApiTokenFirst code).map (fun e2 => (code, e2))
          | none => some ([], e1)

/-! ## Loading the configuration (`controlplane/controlplane.go`) -/

/-- The control plane part of the configuration document; `ConfigVersion` is a
`float64`, a rational number here. -/
structure parsedControlPlane where
  Rules : Rules
  Regions : Regions
  HobRegions : HobRegions
  ConfigVersion : ℚ
  HobModes : HobModes

/-- The configuration document. -/
structure parsedConfig where
  Cp : parsedControlPlane

/-- The control plane: the pointer `_loadedConfig` to the published snapshot,
nil until the first successful load. -/
structure ControlPlane where
  _loadedConfig : Option loadedCpConfig

/-- `ControlPlane.loadedConfig`: the snapshot, or an empty one when none was
published. -/
def ControlPlane.loadedConfig (cp : ControlPlane) : loadedCpConfig :=
  match cp._loadedConfig with
  | some cfg => cfg
  | none =>
    { rules := [], regions := [], hobRegions := [], hobModes := [], rConfigVersion := 0,
      configHash := [] }

/-- `ControlPlane.currentHash`: the hash of the current configuration. -/
def ControlPlane.currentHash (cp : ControlPlane) : GoString :=
  cp.loadedConfig.configHash

/-- `SortedRules.Validate`: the error of an empty sequence of rules. -/
def SortedRules.Validate (s : SortedRules) : Option GoString :=
  if s.length = 0 then some (str "Must have at least one routing rule defined") else none

/-- `Regions.Validate`: the error of an empty region map. -/
def Regions.Validate (rs : Regions) : Option GoString :=
  if rs.length = 0 then some (str "Must have at least one region defined") else none

/-- The conversion `int64(f)` of a `float64`: the fraction is discarded. For a
value out of the range of `int64` Go leaves the result to the implementation;
it is the least `int64` on amd64, as here. -/
def int64OfFloat (f : ℚ) : Int :=
  let t : Int := if 0 ≤ f then ⌊f⌋ else ⌈f⌉
  if -(2 : Int) ^ 63 ≤ t ∧ t < (2 : Int) ^ 63 then t else -(2 : Int) ^ 63

/-- What a call of `tryLoad` leaves: the error returned (`none` is the nil
error), the control plane, and the raw configuration handed to
`saveConfigToFile` if that was called. -/
structure LoadResult where
  err : Option GoString
  cp : ControlPlane
  saved : Option GoString

/-- `ControlPlane.tryLoad`: parses the raw configuration and checks it,
returning an error if it is invalid, and publishes it if it has changed.
`rawConfig` is what `config.Raw()` returns; `json.Unmarshal`, `sort.Sort` and
`deephash.Hash` (with its `%x` formatting) are the parameters `unmarshal`,
`sortFn` and `hashHex`. The result is `none` when the call panics, which it does
when `Rules.Sort` does. A failure to write the file is only logged. -/
def ControlPlane.tryLoad (unmarshal : GoString → Except GoString parsedConfig)
    (sortFn : (Rule → Rule → Bool) → List Rule → List Rule)
    (hashHex : SortedRules → Regions → HobRegions → Int → HobModes → GoString)
    (cp : ControlPlane) (rawConfig : GoString) : Option LoadResult :=
  if rawConfig.length = 0 then
    some ⟨some (str "error loading config -- zero length"), cp, none⟩
  else
    match unmarshal rawConfig with
    | .error e => some ⟨some (str "JSON unmarshal error: " ++ e), cp, none⟩
    | .ok parsed =>
      match Rules.Sort sortFn parsed.Cp.Rules with
      | none => none
      | some sorted =>
        let regions := parsed.Cp.Regions
        let hobRegions := parsed.Cp.HobRegions
        let hobModes := parsed.Cp.HobModes
        let configVersion := int64OfFloat parsed.Cp.ConfigVersion
        match SortedRules.Validate sorted with
        | some err => some ⟨some err, cp, none⟩
        | none =>
          match Regions.Validate regions with
          | some err => some ⟨some err, cp, none⟩
          | none =>
            let newHash := hashHex sorted regions hobRegions configVersion hobModes
            let currHash := cp.currentHash
            if newHash = currHash then some ⟨none, cp, none⟩
            else
              some ⟨none,
                ⟨some { rules := sorted, regions := regions, hobRegions := hobRegions,
                        rConfigVersion := configVersion, hobModes := hobModes,
                        configHash := newHash }⟩,
                some rawConfig⟩

/-! ## The coordinator and the AZ arbiter (`statusmonitor/zk.go`, `statusmonitor/types.go`) -/

/-- The coordinator as the monitor uses it: the data of the node at `lockPath`
if the node exists, and the paths that `Delete` was called with (the latest
first). -/
structure Coordinator where
  node : Option GoString
  deleted : List GoString
deriving DecidableEq

/-- `lock`: creates the ephemeral node with the AZ name as data. `Create`
succeeds, returning the path, if and only if the node does not exist; it
returns the empty string with the error otherwise. -/
def lock (zk : Coordinator) (az : GoString) : ZkResult × Coordinator :=
  match zk.node with
  | none => (⟨lockPath, none⟩, { zk with node := some az })
  | some _ => (⟨[], some (str "zk: node already exists")⟩, zk)

/-- `unlock`: deletes the node at the path; `Delete` returns an error when
there is no node at the path. -/
def unlock (zk : Coordinator) (path : GoString) : Option GoString × Coordinator :=
  if path = lockPath ∧ zk.node.isSome then
    (none, { node := none, deleted := path :: zk.deleted })
  else (some (str "zk: node does not exist"), { zk with deleted := path :: zk.deleted })

/-- `readLock`: the data of the node. -/
def readLock (zk : Coordinator) : ZkResult :=
  match zk.node with
  | some data => ⟨data, none⟩
  | none => ⟨[], some (str "zk: node does not exist")⟩

/-- `failoverAZ` against the coordinator: `lock`, then `readLock` if `lock`
fails. -/
def StatusMonitor.failoverAZOn (s : StatusMonitor) (failure : Failure) (now : Int)
    (zk : Coordinator) : StatusMonitor × Coordinator :=
  let locked := lock zk s.AZName
  (s.failoverAZ failure now locked.1 (readLock locked.2), locked.2)

/-- `StatusMonitor.recoverAZ`: recovers a failed AZ; the lock is removed if a
handle is held. -/
def StatusMonitor.recoverAZ (s : StatusMonitor) (now : Int) (zk : Coordinator) :
    StatusMonitor × Coordinator :=
  let held := s.lockHandle ≠ []
  let zk1 := if held then (unlock zk s.lockHandle).2 else zk
  let s1 := if held then { s with lockHandle := [] } else s
  ({ s1 with LastChanged := now, IsHealthy := true, FailureType := NoFailure }, zk1)

/-- `StatusMonitor.interpretRavenStatus`: the failover logic for the message
bus connection. -/
def StatusMonitor.interpretRavenStatus (s : StatusMonitor) (isConnected : Bool) (now : Int)
    (zk : Coordinator) : StatusMonitor × Coordinator :=
  if !isConnected then s.failoverAZOn ConnectivityFailure now zk
  else if isConnected ∧ ¬ s.IsHealthy ∧ s.FailureType = ConnectivityFailure then
    s.recoverAZ now zk
  else (s, zk)

/-- `StatusMonitor.interpretAZStatus`: the failover logic for the status that
the monitoring service reports. -/
def StatusMonitor.interpretAZStatus (s : StatusMonitor) (azStatus : Bool) (now : Int)
    (zk : Coordinator) : StatusMonitor × Coordinator :=
  let st1 := if !azStatus ∧ s.IsHealthy then s.failoverAZOn MonitoringFailure now zk else (s, zk)
  if azStatus ∧ ¬ st1.1.IsHealthy then st1.1.recoverAZ now st1.2 else st1

/-! ## Vocabulary of the statements and test data -/

/-- The float32 `0.0`. -/
def zero32 : Float32 := ⟨false, 0, 0⟩

/-- The float32 `0.5`. -/
def half32 : Float32 := ⟨false, 1, -1⟩

/-- The float32 `1.0`. -/
def one32 : Float32 := ⟨false, 1, 0⟩

/-- The float32 nearest to `0.00125`, which is `5368709 * 2^-32`. -/
def permille32 : Float32 := ⟨false, 5368709, -32⟩

/-- The keys `"foobarbaz0"`, ..., `"foobarbaz999"` of the sampling test. -/
def sampleKeys : List GoString :=
  (List.range 1000).map (fun i => str "foobarbaz" ++ decimal i)

/-- Equality of two strings ignoring the case of the ASCII letters. -/
def EqFold (a b : GoString) : Prop := ToUpper a = ToUpper b

/-- The values of the `X-Hailo-Route` header that force a route. -/
def RecognisedRoute (s : GoString) : Prop :=
  EqFold s (str "H1") ∨ EqFold s (str "H2") ∨ EqFold s (str "DEPRECATE") ∨
    EqFold s (str "THROTTLE")

/-- The state of the random source when `Route` comes to evaluate the rule at
index `i`: the state left by the evaluation of the rules before it. -/
def rngBefore (ext : Extractor) (rules : SortedRules) (g : Rand) (i : Nat) : Rand :=
  (rules.take i).foldl (fun g1 rule => (Rule.Matches rule ext g1).2) g

/-- The samplers that hash a value of the request. -/
def HashSampler (s : Sampler) : Prop :=
  s = CustomerSampler ∨ s = DriverSampler ∨ s = DeviceSampler ∨ s = SessionSampler

/-- The sort key of a rule, under the lexicographic order of pairs. -/
def ruleKey (r : Rule) : Lex (Int × Int) :=
  toLex (r.Weight, Rule.Specificity (some r))

/-- The contract of `sort.Sort` for a comparison `less` that is a strict weak
order (no two elements are each less than the other, and "not less" is
transitive): the result is a rearrangement of the elements in which no element
is less than an element before it. -/
def SortContract (sortFn : (Rule → Rule → Bool) → List Rule → List Rule) : Prop :=
  ∀ (less : Rule → Rule → Bool) (l : List Rule),
    (∀ a b, less a b = false ∨ less b a = false) →
    (∀ a b c, less b a = false → less c b = false → less c a = false) →
    List.Perm (sortFn less l) l ∧
      List.Pairwise (fun a b => less b a = false) (sortFn less l)

/-- A sort that meets the contract: insertion sort. -/
def insertionSortFn (less : Rule → Rule → Bool) (l : List Rule) : List Rule :=
  l.insertionSort (fun a b => less b a = false)

/-- The region id of a HOB as the statements describe it: `hobRegions[h]` if
`h` is a key, else `hobRegions["default"]` if that key exists, else `""`. -/
def hobRegionId (hr : HobRegions) (h : GoString) : GoString :=
  (hr.lookup h).getD ((hr.lookup (str "default")).getD [])

/-- A roll of `0.0`. -/
def zeroRoll : Roll := ⟨zero32, by decide!, by decide!⟩

/-- A random source that returns `0.0` for ever. -/
def zeroRand : Rand := ⟨fun _ => zeroRoll, 0⟩

/-- The request of `TestHobMatch`: HOB `LON`, source `customer`, path
`/v1/foo/bar`, no parameters and no headers. -/
def lonRequest : Extractor :=
  { Hob := str "LON", Value := fun _ => [], Path := str "/v1/foo/bar",
    Source := str "customer", Host := str "api.example.com", Header := fun _ => [] }

/-- The same request with the header `X-Hailo-Route: Deprecate`. -/
def deprecateRequest : Extractor :=
  { lonRequest with
    Header := fun name => if name = str "X-Hailo-Route" then str "Deprecate" else [] }

/-- The match `{Hob: "DUB,FOO,LON,BAR", Proportion: 1.0}` of `TestHobMatch`. -/
def csvMatch : Match :=
  { Hob := str "DUB,FOO,LON,BAR", Path := [], Source := [], Proportion := one32,
    Sampler := RandomSampler }

/-- The rule `{Hob: "DUB", Proportion: 1.0}`, action Throttle. -/
def dubRule : Rule :=
  { Match := some { Hob := str "DUB", Path := [], Source := [], Proportion := one32,
                    Sampler := RandomSampler },
    Action := ActionThrottle, Payload := none, Weight := 0 }

/-- The rule `{Hob: "LON", Proportion: 1.0}`, action ProxyToH1. -/
def lonRule : Rule :=
  { Match := some { Hob := str "LON", Path := [], Source := [], Proportion := one32,
                    Sampler := RandomSampler },
    Action := ActionProxyToH1, Payload := none, Weight := 0 }

/-- The rule `{Path: "/v1", Proportion: 1.0}`, action SendToH2, weight 1. -/
def pathRule : Rule :=
  { Match := some { Hob := [], Path := str "/v1", Source := [], Proportion := one32,
                    Sampler := RandomSampler },
    Action := ActionSendToH2, Payload := none, Weight := 1 }

/-- The region `eu-west-1`, online, failing over to `us-east-1`. -/
def euWest : Region :=
  { Id := str "eu-west-1", Status := str "ONLINE", Failover := [str "us-east-1"],
    Apps := [(str "default", [(str "api", str "api-driver-london.elasticride.com")])] }

/-- The region `us-east-1`, online. -/
def usEast : Region :=
  { Id := str "us-east-1", Status := str "ONLINE", Failover := [],
    Apps := [(str "default", [(str "api", str "api-driver-newyork.elasticride.com")])] }

/-- A configuration snapshot: three rules, two regions, version 1404710310. -/
def testConfig : loadedCpConfig :=
  { rules := [some dubRule, none, some lonRule, some pathRule],
    regions := [(str "us-east-1", some usEast), (str "eu-west-1", some euWest)],
    hobRegions := [(str "LON", str "eu-west-1"), (str "BOS", str "us-east-1")],
    hobModes := [(str "LON", str "h1"), (str "default", str "h2")],
    rConfigVersion := 1404710310,
    configHash := [] }

/-- A rule map with two rules of equal weight and equal specificity. -/
def tieRules : Rules := [(str "a", some dubRule), (str "b", some lonRule)]

/-- A rule map with three rules of different keys. -/
def threeRules : Rules :=
  [(str "a", some dubRule), (str "b", some pathRule), (str "c", some lonRule)]

/-- The router of the request `lonRequest` over `testConfig`. -/
def lonRouter : RuleRouter := ⟨lonRequest, testConfig⟩

/-- The router of the request `deprecateRequest` over `testConfig`. -/
def deprecateRouter : RuleRouter := ⟨deprecateRequest, testConfig⟩

/-- `k` is the lexicographically smallest key of the region map: a key that no
key precedes in the lexicographic order of byte strings. -/
def IsSmallestKey (rs : Regions) (k : GoString) : Prop :=
  k ∈ rs.map Prod.fst ∧ ∀ k1 ∈ rs.map Prod.fst, ¬ List.Lex (fun x y : UInt8 => x < y) k1 k

/-- The region map holds under `id` a region that is online (its status is not
`OFFLINE`). -/
def OnlineRegionAt (rs : Regions) (id : GoString) (reg : Region) : Prop :=
  Regions.index rs id = some reg ∧ reg.Status ≠ str "OFFLINE"

/-- The region chosen for a request before failover: the region stored under
the region id of the request HOB, else (when there is none) the region stored
under the lexicographically smallest key of the region map. -/
def ChosenRegion (r : RuleRouter) (reg : Region) : Prop :=
  Regions.index r.control.regions
      (hobRegionId r.control.hobRegions r.extractor.Hob) = some reg ∨
  (Regions.index r.control.regions
      (hobRegionId r.control.hobRegions r.extractor.Hob) = none ∧
    ∃ k, IsSmallestKey r.control.regions k ∧ Regions.index r.control.regions k = some reg)

/-- The region `eu-west-1`, offline, failing over to `us-east-1`. -/
def euWestOffline : Region := { euWest with Status := str "OFFLINE" }

/-- The region `eu-west-1`, offline, failing over to a region that is not
defined and then to `us-east-1`. -/
def euWestOfflineTwo : Region :=
  { euWest with Status := str "OFFLINE", Failover := [str "ap-south-1", str "us-east-1"] }

/-- A snapshot without HOB regions whose first region is offline. -/
def outageConfig : loadedCpConfig :=
  { testConfig with
    regions := [(str "us-east-1", some usEast), (str "eu-west-1", some euWestOffline)],
    hobRegions := [] }

/-- A snapshot without HOB regions and with both regions online. -/
def noHobConfig : loadedCpConfig := { testConfig with hobRegions := [] }

/-- A snapshot in which the region of `LON` is offline and fails over first to
an undefined region, then to `us-east-1`. -/
def failoverConfig : loadedCpConfig :=
  { testConfig with
    regions := [(str "us-east-1", some usEast), (str "eu-west-1", some euWestOfflineTwo)] }

/-- The request of `TestRegionDefault`: a HOB `ZZZ` that has no region. -/
def zzzRequest : Extractor := { lonRequest with Hob := str "ZZZ" }

/-- The request `lonRequest` with the header `X-Hailo-Route: H2`. -/
def forcedH2Request : Extractor :=
  { lonRequest with
    Header := fun name => if name = str "X-Hailo-Route" then str "H2" else [] }

/-- The hostname expected for a request source in a region: the `api` URL of
the app named by the source, falling back to the app `default`; `""` when
there is none. -/
def expectedHostname (reg : Region) (source : GoString) : GoString :=
  match (reg.Apps.lookup source).orElse (fun _ => reg.Apps.lookup (str "default")) with
  | none => []
  | some urls => (urls.lookup (str "api")).getD []

/-- The condition under which a request is pinned: it has a HOB, a region
resolves for it, and its host is not the hostname expected in that region. -/
def MustPin (r : RuleRouter) : Prop :=
  r.extractor.Hob ≠ [] ∧
  ∃ reg, r.Region.1 = some reg ∧ r.extractor.Host ≠ expectedHostname reg r.extractor.Source

/-- The snapshot of `TestRegionPinning`: one region, version 10001. -/
def pinConfig : loadedCpConfig :=
  { rules := [], regions := [(str "eu-west-1", some euWest)],
    hobRegions := [(str "LON", str "eu-west-1")], hobModes := [],
    rConfigVersion := 10001, configHash := [] }

/-- The region `eu-west-1` with a URL of purpose `timestamp` in its default
app. -/
def euWestStamp : Region :=
  { euWest with
    Apps := [(str "default", [(str "api", str "api-driver-london.elasticride.com"),
                              (str "timestamp", str "yesterday")])] }

/-- The snapshot `pinConfig` with the region `euWestStamp`. -/
def stampConfig : loadedCpConfig :=
  { pinConfig with regions := [(str "eu-west-1", some euWestStamp)] }

/-- The request `GET /throttle?city=LON` made to the host `127.0.0.1`. -/
def wrongHostRequest : Extractor :=
  { lonRequest with Host := str "127.0.0.1", Path := str "/throttle", Source := [] }

/-- A string of ASCII bytes. -/
def IsASCII (s : GoString) : Prop := ∀ b ∈ s, b < 128

/-- The request `GET /throttle?session_id=abc` of `TestRecording`. -/
def sessionRequest : Request :=
  { Method := str "GET", Host := str "127.0.0.1", Path := str "/throttle",
    Query := [(str "session_id", [str "abc"])], Form := [], Header := [] }

/-- The request `GET /throttle` of `TestRecording_NoSessionId`. -/
def plainRequest : Request := { sessionRequest with Query := [] }

/-- A response that has not been started. -/
def freshResponse : ResponseWriter := { header := [], status := none, body := [] }

/-- A wrapped handler that answers `200 ok`. -/
def okHandler (rw : ResponseWriter) (_r : Request) : ResponseWriter :=
  (rw.WriteHeader 200).Write (str "ok")

/-- A throttling handler whose throttled set is `sessId:abc`. -/
def abcThrottled : ThrottlingHandler :=
  { throttledBuckets := some [(str "sessId:abc", true)], bucketBuffer := [],
    ingesterChan := [] }

/-- The body that the specification gives for a throttled request. -/
def specThrottledBody : GoString :=
  str ("\x7b\"status\":false,\"payload\":\"Client error: rate limit exceeded\"," ++
    "\"code\":429,\"dotted_code\":\"com.HailoOSS.api.throttled\"\x7d")

/-- The body that is written for a throttled request. -/
def writtenThrottledBody : GoString :=
  str ("\x7b\"status\":false,\"payload\":\"Client error: rate limit exceeded\"," ++
    "\"code\":429,\"dotted_code\":\"com.HailoOSS.api.throttled\",\"context\":null\x7d")

/-- The ten keys consumed in `TestSynchronisation`, with another key among
them. -/
def tenKeys : List GoString :=
  List.replicate 4 (str "sessId:abc") ++ [str "sessId:xyz"] ++
    List.replicate 6 (str "sessId:abc")

/-- A check-in that succeeds and returns the bucket `sessId:abc`. -/
def checkinAbc (_buf : bucketBufferT) : Option (List GoString) := some [str "sessId:abc"]

/-- A check-in that fails. -/
def checkinFails (_buf : bucketBufferT) : Option (List GoString) := none

/-- The monitor of the tests: healthy, AZ `test`. -/
def testMonitor : StatusMonitor :=
  { IsHealthy := true, LastChanged := 0, AZName := str "test", FailureType := NoFailure,
    lockHandle := [] }

/-- The counter after `n` further occurrences of its key. -/
def addCount (o : Option Nat) (n : Nat) : Option Nat :=
  if n = 0 then o else some ((o.getD 0 + n) % 2 ^ 64)

/-- The request of HOB `BOS` (whose mode is the default `h2`) with the header
`X-Hailo-Route: h1`. -/
def lowerH1Request : Extractor :=
  { lonRequest with
    Hob := str "BOS",
    Header := fun name => if name = str "X-Hailo-Route" then str "h1" else [] }

/-- The router of the request `lowerH1Request` over `testConfig`. -/
def lowerH1Router : RuleRouter := ⟨lowerH1Request, testConfig⟩

/-- The first non-empty string of a list, `""` when there is none. -/
def firstNonEmpty : List GoString → GoString
  | [] => []
  | x :: rest => if x ≠ [] then x else firstNonEmpty rest

/-- The parameter candidates of the session id in the order in which
`SessionId` reads them: query `session_id`, query `api_token`, then
`session_id` and `api_token` of the form `r.Form`. The form is what
`ParseForm` has stored; it is empty on a request whose form was not parsed. -/
def paramCandidates (req : Request) : List GoString :=
  [req.Query.Get (str "session_id"), req.Query.Get (str "api_token"),
   req.Form.Get (str "session_id"), req.Form.Get (str "api_token")]

/-- The candidate of the header `X-Api-Token`: its first non-empty value. -/
def xApiTokenCandidate (req : Request) : GoString :=
  firstNonEmpty ((req.Header.lookup (str "X-Api-Token")).getD [])

/-- The candidate of the header `Authorization`: the first non-empty token that
one of its values yields. -/
def authorizationCandidate (req : Request) : GoString :=
  firstNonEmpty (((req.Header.lookup (str "Authorization")).getD []).map
    (extractAuthorizationHeader (str "Authorization")))

/-- A request without parameters that carries both `X-Api-Token: abc` and
`Authorization: token def`. -/
def bothHeadersRequest : Request :=
  { plainRequest with
    Header := [(str "X-Api-Token", [str "abc"]), (str "Authorization", [str "token def"])] }

/-- The space-separated parts of a string: the one non-empty list of space-free
pieces whose join by single spaces is the string. -/
def SpaceParts (v : GoString) (parts : List GoString) : Prop :=
  parts ≠ [] ∧ (∀ e ∈ parts, (32 : UInt8) ∉ e) ∧ [(32 : UInt8)].intercalate parts = v

/-- The header value `v` has the scheme `token` and the credential `cred`: its
space-separated parts are `token`, `cred`, and possibly more. -/
def TokenCredential (v cred : GoString) : Prop :=
  ∃ more : List GoString, SpaceParts v (str "token" :: cred :: more)

/-- A request without parameters whose `Authorization` values are
`token  abc` (two spaces) and `token def`. -/
def twoSpacesRequest : Request :=
  { plainRequest with
    Header := [(str "Authorization", [str "token  abc", str "token def"])] }

/-- The sampling of a rule does not depend on the random source: each match
uses a hashing sampler or has a proportion of at least 1. -/
def DeterministicRule (r : Option Rule) : Prop :=
  ∀ rule m, r = some rule → rule.Match = some m →
    HashSampler m.Sampler ∨ 1 ≤ m.Proportion.toRat

/-- The rule `{Path: "/v1", Proportion: 1.0, Sampler: customer}`, action
ProxyToH1, weight 0. -/
def v1Rule : Rule :=
  { Match := some { Hob := [], Path := str "/v1", Source := [], Proportion := one32,
                    Sampler := CustomerSampler },
    Action := ActionProxyToH1, Payload := none, Weight := 0 }

/-- The rule `{Path: "/v1/foo", Proportion: 1.0, Sampler: customer}`, action
SendToH2, weight 0. -/
def v1FooRule : Rule :=
  { Match := some { Hob := [], Path := str "/v1/foo", Source := [], Proportion := one32,
                    Sampler := CustomerSampler },
    Action := ActionSendToH2, Payload := none, Weight := 0 }

/-- A rule map with the two path rules of equal weight and specificity. -/
def pathTieRules : Rules := [(str "a", some v1Rule), (str "b", some v1FooRule)]


/-- The rule `{Path: "/v1/foo", Proportion: 1.0, Sampler: customer}`, action
ProxyToH1, weight 0. -/
def v1FooH1Rule : Rule := { v1FooRule with Action := ActionProxyToH1 }

/-- A rule map with two path rules of equal weight, specificity and action. -/
def sameActionRules : Rules := [(str "a", some v1Rule), (str "b", some v1FooH1Rule)]

/-- Every key of the values has at least one value, as in every map that
`url.ParseQuery` returns. -/
def NoEmptyValues (v : Values) : Prop := ∀ p ∈ v, p.2 ≠ []

/-- A request as the library hands it over: no key of the query, of the parsed
form or of the form of the body is without value. -/
def Request.Parsed (r : Request) : Prop :=
  NoEmptyValues r.Query ∧ (∀ pf, r.PostForm = some pf → NoEmptyValues pf) ∧
    (∀ b, r.Body = some b → NoEmptyValues b.form)

/-- The request `GET /` to the host `api-driver-london.elasticride.com`, with
no parameters. -/
def londonHostRequest : Request :=
  { Method := str "GET", Host := str "api-driver-london.elasticride.com", Path := str "/",
    Query := [], Form := [], Header := [] }

/-- The request `GET /?city=DUB` to the host `localhost`. -/
def dubCityRequest : Request :=
  { Method := str "GET", Host := str "localhost", Path := str "/",
    Query := [(str "city", [str "DUB"])], Form := [], Header := [] }

/-- The request `POST /?session_id=q&city=DUB` with the form body
`session_id=b&city=LON`. -/
def postBothRequest : Request :=
  { Method := str "POST", Host := str "localhost", Path := str "/",
    Query := [(str "session_id", [str "q"]), (str "city", [str "DUB"])], Form := [],
    Header := [(str "Content-Type", [str "application/x-www-form-urlencoded"])],
    Body := some { readErr := false,
                   form := [(str "session_id", [str "b"]), (str "city", [str "LON"])],
                   formErr := false } }

/-- The request `POST /?city=DUB` whose form body `city=LON&x=%zz` ends in a
pair that cannot be decoded: the form holds `city=LON` and parsing reports an
error. -/
def malformedBodyRequest : Request :=
  { Method := str "POST", Host := str "localhost", Path := str "/",
    Query := [(str "city", [str "DUB"])], Form := [],
    Header := [(str "Content-Type", [str "application/x-www-form-urlencoded"])],
    Body := some { readErr := false, form := [(str "city", [str "LON"])], formErr := true } }

/-- A configuration document whose rule map holds two nil rules and whose
region map is empty. -/
def nilRulesConfig : parsedConfig :=
  { Cp := { Rules := [(str "a", none), (str "b", none)], Regions := [], HobRegions := [],
            ConfigVersion := 1, HobModes := [] } }

/-- The raw configuration that decodes to `nilRulesConfig`. -/
def nilRulesRaw : GoString :=
  str ("\x7b\"controlPlane\":\x7b\"rules\":\x7b\"a\":null,\"b\":null\x7d," ++
    "\"configVersion\":1\x7d\x7d")

/-- A decoder that returns `nilRulesConfig`. -/
def unmarshalNilRules (_raw : GoString) : Except GoString parsedConfig := .ok nilRulesConfig

/-- A configuration document with one rule and an empty region map. -/
def noRegionsConfig : parsedConfig :=
  { Cp := { Rules := [(str "a", some lonRule)], Regions := [], HobRegions := [],
            ConfigVersion := 1, HobModes := [] } }

/-- A decoder that returns `noRegionsConfig`. -/
def unmarshalNoRegions (_raw : GoString) : Except GoString parsedConfig := .ok noRegionsConfig

/-- A hash that is the same for every configuration. -/
def constHash (_s : SortedRules) (_r : Regions) (_hr : HobRegions) (_v : Int)
    (_hm : HobModes) : GoString := str "0"

/-- A control plane that has published `testConfig`. -/
def loadedControlPlane : ControlPlane := ⟨some testConfig⟩

/-- A coordinator without node, on which `Delete` was never called. -/
def emptyCoordinator : Coordinator := { node := none, deleted := [] }

/-- A call of one of the two interpreting functions of the monitor, with the
time of the call. -/
inductive Signal where
  | raven (isConnected : Bool) (now : Int)
  | az (azStatus : Bool) (now : Int)

/-- The monitor and the coordinator after one call. -/
def interpret (st : StatusMonitor × Coordinator) : Signal → StatusMonitor × Coordinator
  | .raven isConnected now => st.1.interpretRavenStatus isConnected now st.2
  | .az azStatus now => st.1.interpretAZStatus azStatus now st.2

/-- The monitor and the coordinator after a sequence of calls. -/
def interpretAll (st : StatusMonitor × Coordinator) (calls : List Signal) :
    StatusMonitor × Coordinator :=
  calls.foldl interpret st

/-- A system of instances that share one coordinator. -/
structure Cluster where
  instances : List StatusMonitor
  zk : Coordinator

/-- A step of the system: the instance at index `i` runs `failoverAZ` or
`recoverAZ`. -/
inductive ClusterStep where
  | failover (i : Nat) (failure : Failure) (now : Int)
  | recover (i : Nat) (now : Int)

/-- The system after a step (a step of an instance that does not exist changes
nothing). -/
def Cluster.step (c : Cluster) : ClusterStep → Cluster
  | .failover i failure now =>
    match c.instances[i]? with
    | none => c
    | some s =>
      let res := s.failoverAZOn failure now c.zk
      ⟨c.instances.set i res.1, res.2⟩
  | .recover i now =>
    match c.instances[i]? with
    | none => c
    | some s =>
      let res := s.recoverAZ now c.zk
      ⟨c.instances.set i res.1, res.2⟩

/-- The system after a sequence of steps. -/
def Cluster.run (c : Cluster) (steps : List ClusterStep) : Cluster :=
  steps.foldl Cluster.step c

/-- All instances that are not healthy have the same AZ name. -/
def Cluster.OneAZFailed (c : Cluster) : Prop :=
  ∀ s ∈ c.instances, ∀ t ∈ c.instances,
    s.IsHealthy = false → t.IsHealthy = false → s.AZName = t.AZName

/-- Every instance that is not healthy has the AZ that the node of the
coordinator names. -/
def Cluster.NodeNamesFailed (c : Cluster) : Prop :=
  ∀ s ∈ c.instances, s.IsHealthy = false → c.zk.node = some s.AZName

/-- The restriction on a step: an instance that holds a lock handle recovers
only when every other instance is healthy. -/
def Cluster.Allowed (c : Cluster) : ClusterStep → Prop
  | .failover _ _ _ => True
  | .recover i _ =>
    ∀ s, c.instances[i]? = some s → s.lockHandle ≠ [] →
      ∀ t ∈ c.instances.eraseIdx i, t.IsHealthy = true

/-- Every step of the sequence is allowed in the state in which it is taken. -/
def Cluster.AllowedRun (c : Cluster) : List ClusterStep → Prop
  | [] => True
  | st :: rest => c.Allowed st ∧ (c.step st).AllowedRun rest

/-- Three healthy instances: two of the AZ `a`, one of the AZ `b`. -/
def threeInstances : Cluster :=
  { instances := [{ testMonitor with AZName := str "a" }, { testMonitor with AZName := str "a" },
                  { testMonitor with AZName := str "b" }],
    zk := emptyCoordinator }

/-- The form values of the body of a request: the values decoded from the
body of a POST, PUT or PATCH request; none for another method or without a
body. When the form of the request was parsed before, they are what
`r.PostForm` holds. -/
def Request.bodyValues (r : Request) : Values :=
  match r.PostForm with
  | some pf => pf
  | none =>
    if r.Method = str "POST" ∨ r.Method = str "PUT" ∨ r.Method = str "PATCH" then
      match r.Body with
      | some b => b.form
      | none => []
    else []

/-- The body of the request cannot be used: reading it fails, or `ParseForm`
returns an error. -/
def Request.extractionStops (r : Request) : Bool :=
  r.drainFails || r.ParseForm.2

/-- The parameter `name` of a request: the first value of the name in the
body, if the body can be used and holds the name; else the first value of the
name in the query string; `""` when there is none. -/
def Request.param (r : Request) (name : GoString) : GoString :=
  if r.extractionStops = false ∧ (r.bodyValues.lookup name).isSome then r.bodyValues.Get name
  else r.Query.Get name

/-- The keys of the values are distinct, as the keys of a map are. -/
def DistinctKeys (v : Values) : Prop := (v.map Prod.fst).Nodup

/-- The request `POST /` with the form body `session_id=b`, whose form has not
been parsed. -/
def postBodyOnlyRequest : Request :=
  { Method := str "POST", Host := str "localhost", Path := str "/", Query := [], Form := [],
    Header := [(str "Content-Type", [str "application/x-www-form-urlencoded"])],
    Body := some { readErr := false, form := [(str "session_id", [str "b"])],
                   formErr := false } }

/-- The request `GET /v1/point/batch?hob=LON` of `TestHobExtraction`. -/
def hobQueryRequest : Request :=
  { Method := str "GET", Host := str "", Path := str "/v1/point/batch",
    Query := [(str "hob", [str "LON"])], Form := [], Header := [] }

/-- The request `POST /v1/point/batch?city=DUB` with the body `city=LON` and no
content type (as the body request of `TestHobExtraction`, with a `city` in the
query string too). -/
def cityBodyRequest : Request :=
  { Method := str "POST", Host := str "", Path := str "/v1/point/batch",
    Query := [(str "city", [str "DUB"])], Form := [], Header := [],
    Body := some { readErr := false, form := [(str "city", [str "LON"])], formErr := false },
    mediaTypeOk := false }

/-! ## Theorems -/

/-! ### Sampling -/

/-- C4: the specificity of a rule with a match is 10 for a non-empty path plus
5 for a non-empty hob plus 5 for a non-empty source; it is 0 for a nil rule and
for a rule with a nil match. -/
theorem C4_specificity :
    (∀ (m : Match) (a : Action) (p : Option Payload) (w : Int),
      Rule.Specificity (some ⟨some m, a, p, w⟩) =
        (if m.Path ≠ [] then 10 else 0) + (if m.Hob ≠ [] then 5 else 0)
          + (if m.Source ≠ [] then 5 else 0)) ∧
    Rule.Specificity none = 0 ∧
    (∀ (a : Action) (p : Option Payload) (w : Int),
      Rule.Specificity (some ⟨none, a, p, w⟩) = 0) := by
  refine ⟨?_, rfl, fun _ _ _ => rfl⟩
  intro m a p w
  simp only [Rule.Specificity, gt_iff_lt, List.length_pos, ne_eq]
  by_cases hp : m.Path = [] <;> by_cases hh : m.Hob = [] <;> by_cases hs : m.Source = [] <;>
    simp [hp, hh, hs]

/-- C6: of the 1000 keys `"foobarbaz0"` ... `"foobarbaz999"`, exactly 480 pass
`hashSample` with proportion 0.5. -/
theorem C6_known_sequence_count :
    sampleKeys = (List.range 1000).map (fun i => str ("foobarbaz" ++ toString i)) ∧
    half32.toRat = 1 / 2 ∧
    (sampleKeys.filter (fun k => hashSample k half32)).length = 480 := by
  decide!

/-- The limit of `hashSample` is the integer part of the float32 product, which
is rounded: for the float32 nearest to 0.00125 the limit is 1250 although
`floor(p * 1000000)` is 1249, and the key `"key265793"`, whose FNV-1 bucket is
1250, passes. -/
theorem bucketLimit_rounds_up :
    bucketLimit permille32 = 1250 ∧ ⌊permille32.toRat * 1000000⌋ = 1249 ∧
    fnv64 (str "key265793") % 1000000 = 1250 ∧
    hashSample (str "key265793") permille32 = true := by
  decide!

/-- C8: an empty sampling key passes for every proportion. -/
theorem C8_hashSample_empty_key (p : Float32) : hashSample (str "") p = true := by
  simp [hashSample, str]

/-- C9 fails for the empty key: `hashSample("", 0)` is true. -/
theorem C9_counterexample :
    zero32.toRat = 0 ∧ hashSample (str "") zero32 = true := by
  decide!

/-- C9 (amended): for every non-empty key, a proportion of 0 or less fails the
sample. -/
theorem C9_hashSample_zero (k : GoString) (p : Float32) (hk : k ≠ [])
    (hp : p.toRat ≤ 0) : hashSample k p = false := by
  simp [hashSample, hk, hp]

/-- C9 (amended) at the key `"foobar"` with proportion 0, as in the test. -/
theorem C9_hashSample_zero_witness :
    str "foobar" ≠ [] ∧ zero32.toRat ≤ 0 ∧ hashSample (str "foobar") zero32 = false :=
  ⟨by decide, by decide!, C9_hashSample_zero (str "foobar") zero32 (by decide) (by decide!)⟩

/-! ### Routing -/

/-- A rule that matches is not nil. -/
theorem matches_ne_none {rule : Option Rule} {ext : Extractor} {g : Rand}
    (h : (Rule.Matches rule ext g).1 = true) : rule ≠ none := by
  intro hn
  subst hn
  simp [Rule.Matches] at h

/-- The loop of `Route` returns the first rule that matches, each rule being
evaluated in the state of the random source left by the rules before it. -/
theorem routeLoop_first (ext : Extractor) :
    ∀ (rules : SortedRules) (g : Rand),
      (∀ (i : Nat) (hi : i < rules.length),
        (Rule.Matches rules[i] ext (rngBefore ext rules g i)).1 = true →
        (∀ (j : Nat) (hj : j < i),
          (Rule.Matches (rules[j]) ext (rngBefore ext rules g j)).1 = false) →
        (routeLoop ext rules g).1 = rules[i]) ∧
      ((routeLoop ext rules g).1 = none ↔
        ∀ (i : Nat) (hi : i < rules.length),
          (Rule.Matches rules[i] ext (rngBefore ext rules g i)).1 = false) := by
  intro rules
  induction rules with
  | nil =>
    intro g
    refine ⟨fun i hi => absurd hi (by simp), ?_⟩
    simp [routeLoop]
  | cons rule rest ih =>
    intro g
    have hstep : ∀ k, rngBefore ext (rule :: rest) g (k + 1)
        = rngBefore ext rest (Rule.Matches rule ext g).2 k := fun k => by
      simp [rngBefore]
    have hzero : rngBefore ext (rule :: rest) g 0 = g := by simp [rngBefore]
    obtain ⟨ih1, ih2⟩ := ih (Rule.Matches rule ext g).2
    by_cases hm : (Rule.Matches rule ext g).1 = true
    · have hloop : routeLoop ext (rule :: rest) g = (rule, (Rule.Matches rule ext g).2) := by
        simp [routeLoop, hm]
      constructor
      · intro i hi hmi hlt
        cases i with
        | zero => simp [hloop]
        | succ k =>
          have h0 := hlt 0 (Nat.succ_pos k)
          simp only [hzero, List.getElem_cons_zero] at h0
          rw [hm] at h0
          exact absurd h0 (by decide)
      · rw [hloop]
        constructor
        · intro hnone
          exact absurd hnone (matches_ne_none hm)
        · intro hall
          have h0 := hall 0 (by simp)
          simp only [hzero, List.getElem_cons_zero] at h0
          rw [hm] at h0
          exact absurd h0 (by decide)
    · have hm' : (Rule.Matches rule ext g).1 = false := by simpa using hm
      have hloop : routeLoop ext (rule :: rest) g
          = routeLoop ext rest (Rule.Matches rule ext g).2 := by
        simp [routeLoop, hm']
      constructor
      · intro i hi hmi hlt
        cases i with
        | zero =>
          simp only [hzero, List.getElem_cons_zero] at hmi
          exact absurd hmi hm
        | succ k =>
          rw [hloop]
          simp only [List.getElem_cons_succ, hstep] at hmi ⊢
          have hk : k < rest.length := by simpa using hi
          refine ih1 k hk hmi ?_
          intro j hj
          have := hlt (j + 1) (Nat.succ_lt_succ hj)
          simpa only [List.getElem_cons_succ, hstep] using this
      · rw [hloop, ih2]
        constructor
        · intro hall i hi
          cases i with
          | zero => simpa only [hzero, List.getElem_cons_zero] using hm'
          | succ k =>
            have hk : k < rest.length := by simpa using hi
            simpa only [List.getElem_cons_succ, hstep] using hall k hk
        · intro hall i hi
          have := hall (i + 1) (by simpa using hi)
          simpa only [List.getElem_cons_succ, hstep] using this

/-- A header value that is not recognised forces no route. -/
theorem forceRoute_eq_none (r : RuleRouter) (s : GoString) (h : ¬ RecognisedRoute s) :
    r.forceRoute s = none := by
  have e1 : ToUpper (str "H1") = str "H1" := by decide
  have e2 : ToUpper (str "H2") = str "H2" := by decide
  have e3 : ToUpper (str "DEPRECATE") = str "DEPRECATE" := by decide
  have e4 : ToUpper (str "THROTTLE") = str "THROTTLE" := by decide
  simp only [RecognisedRoute, EqFold, e1, e2, e3, e4, not_or] at h
  obtain ⟨h1, h2, h3, h4⟩ := h
  simp [RuleRouter.forceRoute, h1, h2, h3, h4]

/-- C1: when the `X-Hailo-Route` header is absent or not a recognised value,
`Route` returns the rule at the smallest index whose `Matches` holds (each rule
evaluated in the state of the random source left by the rules before it), and
returns nil exactly when no rule matches. -/
theorem C1_route_first_match (r : RuleRouter) (g : Rand)
    (hdr : ¬ RecognisedRoute (r.extractor.Header (str "X-Hailo-Route"))) :
    (∀ (i : Nat) (hi : i < r.control.rules.length),
      (Rule.Matches r.control.rules[i] r.extractor
        (rngBefore r.extractor r.control.rules g i)).1 = true →
      (∀ (j : Nat) (hj : j < i),
        (Rule.Matches (r.control.rules[j]) r.extractor
          (rngBefore r.extractor r.control.rules g j)).1 = false) →
      (r.Route g).1 = r.control.rules[i]) ∧
    ((r.Route g).1 = none ↔
      ∀ (i : Nat) (hi : i < r.control.rules.length),
        (Rule.Matches r.control.rules[i] r.extractor
          (rngBefore r.extractor r.control.rules g i)).1 = false) := by
  have hroute : r.Route g = routeLoop r.extractor r.control.rules g := by
    simp [RuleRouter.Route, forceRoute_eq_none r _ hdr]
  rw [hroute]
  exact routeLoop_first r.extractor r.control.rules g

/-- C1 on the request of `TestHobMatch`: the rule for `DUB` and the nil rule
do not match, the rule for `LON` at index 2 is returned. -/
theorem C1_route_first_match_witness :
    ¬ RecognisedRoute (lonRouter.extractor.Header (str "X-Hailo-Route")) ∧
    (lonRouter.Route zeroRand).1 = some lonRule :=
  ⟨by simp only [RecognisedRoute, EqFold]; decide,
   (C1_route_first_match lonRouter zeroRand (by simp only [RecognisedRoute, EqFold]; decide)).1
     2 (by decide) (by decide!) (by decide!)⟩

/-- C5: when the value of the `X-Hailo-Route` header is `H1`, `H2`, `DEPRECATE`
or `THROTTLE` up to the case of its letters, `Route` returns a synthesised rule
(no match, no payload, weight 0) whose action is ProxyToH1, SendToH2, Deprecate
or Throttle respectively, whatever the configured rules are, and draws nothing
from the random source: no configured rule is evaluated. -/
theorem C5_forced_route (r : RuleRouter) (g : Rand) :
    (EqFold (r.extractor.Header (str "X-Hailo-Route")) (str "H1") →
      r.Route g = (some ⟨none, ActionProxyToH1, none, 0⟩, g)) ∧
    (EqFold (r.extractor.Header (str "X-Hailo-Route")) (str "H2") →
      r.Route g = (some ⟨none, ActionSendToH2, none, 0⟩, g)) ∧
    (EqFold (r.extractor.Header (str "X-Hailo-Route")) (str "DEPRECATE") →
      r.Route g = (some ⟨none, ActionDeprecate, none, 0⟩, g)) ∧
    (EqFold (r.extractor.Header (str "X-Hailo-Route")) (str "THROTTLE") →
      r.Route g = (some ⟨none, ActionThrottle, none, 0⟩, g)) := by
  have e1 : ToUpper (str "H1") = str "H1" := by decide
  have e2 : ToUpper (str "H2") = str "H2" := by decide
  have e3 : ToUpper (str "DEPRECATE") = str "DEPRECATE" := by decide
  have e4 : ToUpper (str "THROTTLE") = str "THROTTLE" := by decide
  have hlen : ∀ s t : GoString, ToUpper s = t → t ≠ [] → s.length > 0 := by
    intro s t hs ht
    cases s with
    | nil => exact absurd (by simpa [ToUpper] using hs.symm) ht
    | cons b bs => simp
  refine ⟨?_, ?_, ?_, ?_⟩ <;> intro h <;> simp only [EqFold, e1, e2, e3, e4] at h
  · have hl := hlen _ _ h (by decide)
    simp only [RuleRouter.Route, hl, if_true, RuleRouter.forceRoute, h]
    simp [show str "H1" ≠ str "H2" by decide]
  · have hl := hlen _ _ h (by decide)
    simp only [RuleRouter.Route, hl, if_true, RuleRouter.forceRoute, h]
  · have hl := hlen _ _ h (by decide)
    simp only [RuleRouter.Route, hl, if_true, RuleRouter.forceRoute, h]
    simp [show str "DEPRECATE" ≠ str "H2" by decide, show str "DEPRECATE" ≠ str "H1" by decide]
  · have hl := hlen _ _ h (by decide)
    simp only [RuleRouter.Route, hl, if_true, RuleRouter.forceRoute, h]
    simp [show str "THROTTLE" ≠ str "H2" by decide, show str "THROTTLE" ≠ str "H1" by decide,
      show str "THROTTLE" ≠ str "DEPRECATE" by decide]

/-- C5 on a request with the header `X-Hailo-Route: Deprecate` (as in
`TestXHailoRoute`) over a configuration whose rules match the request. -/
theorem C5_forced_route_witness :
    EqFold (deprecateRouter.extractor.Header (str "X-Hailo-Route")) (str "DEPRECATE") ∧
    deprecateRouter.Route zeroRand = (some ⟨none, ActionDeprecate, none, 0⟩, zeroRand) :=
  ⟨by unfold EqFold; decide,
   (C5_forced_route deprecateRouter zeroRand).2.2.1 (by unfold EqFold; decide)⟩

/-! ### Matching -/

/-- `strings.HasPrefix` decides the prefix relation. -/
theorem HasPrefix_iff (s pre : GoString) : ( HasPrefix s pre) = true ↔ pre <+: s := by
  unfold HasPrefix
  rw [List.prefix_iff_eq_take]
  simp only [ge_iff_le, Bool.and_eq_true, decide_eq_true_eq, beq_iff_eq]
  constructor
  · rintro ⟨_, h⟩
    exact h.symm
  · intro h
    refine ⟨?_, h.symm⟩
    have := congrArg List.length h
    simp only [List.length_take] at this
    omega

/-- `strings.Split` never returns an empty list. -/
theorem Split_ne_nil (s : GoString) (c : UInt8) : Split s c ≠ [] := by
  cases s with
  | nil => simp [Split]
  | cons b rest =>
    unfold Split
    split
    · simp
    · split <;> simp

/-- Joining with a separator, one more byte in front of the first piece. -/
theorem intercalate_cons_head (c b : UInt8) (x : GoString) (xs : List GoString) :
    [c].intercalate ((b :: x) :: xs) = b :: [c].intercalate (x :: xs) := by
  cases xs <;> simp [List.intercalate, List.intersperse]

/-- Joining with a separator, one more piece in front. -/
theorem intercalate_cons_cons (c : UInt8) (e x : GoString) (xs : List GoString) :
    [c].intercalate (e :: x :: xs) = e ++ c :: [c].intercalate (x :: xs) := by
  simp [List.intercalate, List.intersperse]

/-- Joining the pieces of `strings.Split` with the separator gives the string
back. -/
theorem intercalate_Split (c : UInt8) (s : GoString) :
    [c].intercalate (Split s c) = s := by
  induction s with
  | nil => simp [Split, List.intercalate, List.intersperse]
  | cons b rest ih =>
    unfold Split
    split
    · rename_i hb
      obtain ⟨x, xs, hx⟩ := List.exists_cons_of_ne_nil (Split_ne_nil rest c)
      rw [hx, intercalate_cons_cons, ← hx, ih, hb]
      rfl
    · split
      · rename_i hnil
        exact absurd hnil (Split_ne_nil rest c)
      · rename_i x xs hx
        rw [intercalate_cons_head, ← hx, ih]

/-- No piece of `strings.Split` holds the separator. -/
theorem not_mem_of_mem_Split (c : UInt8) (s : GoString) :
    ∀ e ∈ Split s c, c ∉ e := by
  induction s with
  | nil => simp [Split]
  | cons b rest ih =>
    unfold Split
    split
    · intro e he
      rcases List.mem_cons.mp he with h | h
      · simp [h]
      · exact ih e h
    · rename_i hb
      split
      · intro e he
        simp only [List.mem_singleton] at he
        rcases he with rfl
        simpa using fun h => hb h.symm
      · rename_i x xs hx
        intro e he
        rcases List.mem_cons.mp he with h | h
        · subst h
          have hx' : c ∉ x := ih x (by rw [hx]; simp)
          simp only [List.mem_cons, not_or]
          exact ⟨fun h => hb h.symm, hx'⟩
        · exact ih e (by rw [hx]; exact List.mem_cons_of_mem _ h)

/-- One step of `strings.Split` on a byte that is not the separator. -/
theorem Split_cons_of_ne {c b : UInt8} {rest x : GoString} {xs : List GoString}
    (hb : b ≠ c) (hx : Split rest c = x :: xs) :
    Split (b :: rest) c = (b :: x) :: xs := by
  rw [Split, if_neg hb, hx]

/-- One step of `strings.Split` on the separator. -/
theorem Split_cons_sep (c : UInt8) (rest : GoString) :
    Split (c :: rest) c = [] :: Split rest c := by
  rw [Split, if_pos rfl]

/-- A string without separator is its own single piece. -/
theorem Split_of_not_mem (c : UInt8) (e : GoString) (h : c ∉ e) : Split e c = [e] := by
  induction e with
  | nil => simp [Split]
  | cons b rest ih =>
    simp only [List.mem_cons, not_or] at h
    exact Split_cons_of_ne (fun hb => h.1 hb.symm) (ih h.2)

/-- The first separator ends the first piece. -/
theorem Split_append_sep (c : UInt8) (e t : GoString) (h : c ∉ e) :
    Split (e ++ c :: t) c = e :: Split t c := by
  induction e with
  | nil => exact Split_cons_sep c t
  | cons b rest ih =>
    simp only [List.mem_cons, not_or] at h
    exact Split_cons_of_ne (fun hb => h.1 hb.symm) (ih h.2)

/-- `strings.Split` recovers the pieces that were joined, when none of them
holds the separator. -/
theorem Split_intercalate (c : UInt8) :
    ∀ (es : List GoString), es ≠ [] → (∀ e ∈ es, c ∉ e) →
      Split ([c].intercalate es) c = es := by
  intro es
  induction es with
  | nil => intro h; exact absurd rfl h
  | cons e rest ih =>
    intro _ hall
    cases rest with
    | nil =>
      have : [c].intercalate [e] = e := by simp [List.intercalate, List.intersperse]
      rw [this]
      exact Split_of_not_mem c e (hall e (by simp))
    | cons x xs =>
      rw [intercalate_cons_cons, Split_append_sep c e _ (hall e (by simp))]
      rw [ih (by simp) (fun e' he' => hall e' (List.mem_cons_of_mem _ he'))]

/-- `withinCsv` holds exactly for the comma-separated entries of the CSV: the
members of the one list of comma-free strings whose join by commas is the
CSV. -/
theorem withinCsv_iff (csv test : GoString) :
    withinCsv csv test = true ↔
      ∃ es : List GoString, (∀ e ∈ es, comma ∉ e) ∧ [comma].intercalate es = csv ∧
        test ∈ es := by
  have hmem : withinCsv csv test = true ↔ test ∈ Split csv comma := by
    simp only [withinCsv, List.any_eq_true, beq_iff_eq]
    constructor
    · rintro ⟨v, hv, rfl⟩
      exact hv
    · intro h
      exact ⟨test, h, rfl⟩
  rw [hmem]
  constructor
  · intro h
    exact ⟨Split csv comma, not_mem_of_mem_Split comma csv, intercalate_Split comma csv, h⟩
  · rintro ⟨es, hfree, hjoin, hin⟩
    have hne : es ≠ [] := List.ne_nil_of_mem hin
    rw [← hjoin, Split_intercalate comma es hne hfree]
    exact hin

/-- Sampling with a hash sampler, or with a proportion of at least 1, has the
same outcome in every state of the random source. -/
theorem sample_deterministic (m : Match) (f : Extractor)
    (hdet : HashSampler m.Sampler ∨ 1 ≤ m.Proportion.toRat) (g g1 : Rand) :
    (m.sample f g).1 = (m.sample f g1).1 := by
  unfold Match.sample
  by_cases h1 : m.Sampler = CustomerSampler
  · simp only [if_pos h1]
  by_cases h2 : m.Sampler = DriverSampler
  · simp only [if_neg h1, if_pos h2]
  by_cases h3 : m.Sampler = DeviceSampler
  · simp only [if_neg h1, if_neg h2, if_pos h3]
  by_cases h4 : m.Sampler = SessionSampler
  · simp only [if_neg h1, if_neg h2, if_neg h3, if_pos h4]
  have hp : 1 ≤ m.Proportion.toRat := by
    rcases hdet with h | h
    · rcases h with h | h | h | h
      · exact absurd h h1
      · exact absurd h h2
      · exact absurd h h3
      · exact absurd h h4
    · exact h
  have hroll : ∀ r : Roll, ¬ (r.val.toRat > m.Proportion.toRat) := fun r =>
    not_lt.mpr (le_trans r.lt_one.le hp)
  simp only [if_neg h1, if_neg h2, if_neg h3, if_neg h4, Rand.Float32, hroll, if_false]

/-- The outcome of `Match.matches` is the conjunction of its four checks. -/
theorem matches_fst (m : Match) (f : Extractor) (g : Rand) :
    (m.matches f g).1 = true ↔
      (m.Path = [] ∨ ( HasPrefix f.Path m.Path) = true) ∧
      (m.Source = [] ∨ f.Source = m.Source) ∧
      (m.Hob = [] ∨ withinCsv m.Hob f.Hob = true) ∧
      (m.sample f g).1 = true := by
  unfold Match.matches
  by_cases hp : m.Path = [] <;> by_cases hpre : ( HasPrefix f.Path m.Path) = true <;>
    by_cases hs : m.Source = [] <;> by_cases hse : f.Source = m.Source <;>
    by_cases hh : m.Hob = [] <;> by_cases hcsv : withinCsv m.Hob f.Hob = true <;>
    cases hres : (m.sample f g).1 <;>
    simp [hp, hpre, hs, hse, hh, hcsv, hres, List.length_pos]

/-- C2: when the sampling of a match is deterministic (a hash sampler, or a
proportion of at least 1), the match matches a request exactly when its path
is empty or a prefix of the request path, its source is empty or equal to the
request source, its hob is empty or the request hob is one of the
comma-separated entries of the hob, and the sampling (whose outcome is the
same in every state of the random source) passes. -/
theorem C2_matches_iff (m : Match) (f : Extractor) (g g1 : Rand)
    (hdet : HashSampler m.Sampler ∨ 1 ≤ m.Proportion.toRat) :
    (m.matches f g).1 = true ↔
      (m.Path = [] ∨ m.Path <+: f.Path) ∧
      (m.Source = [] ∨ f.Source = m.Source) ∧
      (m.Hob = [] ∨ ∃ es : List GoString, (∀ e ∈ es, comma ∉ e) ∧
        [comma].intercalate es = m.Hob ∧ f.Hob ∈ es) ∧
      (m.sample f g1).1 = true := by
  rw [matches_fst, HasPrefix_iff, withinCsv_iff, sample_deterministic m f hdet g g1]

/-- C2 on the match `{Hob: "DUB,FOO,LON,BAR", Proportion: 1.0}` and the request
with HOB `LON` of `TestHobMatch`: the match matches, `LON` being the third of
the four entries. -/
theorem C2_matches_iff_witness :
    (HashSampler csvMatch.Sampler ∨ 1 ≤ csvMatch.Proportion.toRat) ∧
    (csvMatch.matches lonRequest zeroRand).1 = true ∧
    ((csvMatch.matches lonRequest zeroRand).1 = true ↔
      (csvMatch.Path = [] ∨ csvMatch.Path <+: lonRequest.Path) ∧
      (csvMatch.Source = [] ∨ lonRequest.Source = csvMatch.Source) ∧
      (csvMatch.Hob = [] ∨ ∃ es : List GoString, (∀ e ∈ es, comma ∉ e) ∧
        [comma].intercalate es = csvMatch.Hob ∧ lonRequest.Hob ∈ es) ∧
      (csvMatch.sample lonRequest zeroRand).1 = true) :=
  ⟨Or.inr (by decide!), by decide!,
   C2_matches_iff csvMatch lonRequest zeroRand zeroRand (Or.inr (by decide!))⟩

/-! ### Region resolution -/

/-- `HobRegions.Find` is the lookup with the two fallbacks. -/
theorem Find_eq_hobRegionId (hr : HobRegions) (h : GoString) :
    HobRegions.Find hr h = hobRegionId hr h := by
  unfold HobRegions.Find hobRegionId
  cases List.lookup h hr with
  | some x => rfl
  | none =>
    cases List.lookup (str "default") hr with
    | some y => rfl
    | none => rfl

/-- C10: let `id` be `hobRegions[h]` if the request HOB `h` is a key, else
`hobRegions["default"]` if that key exists, else `""`. If `regions[id]` exists
and its status is not `OFFLINE`, `Region` returns exactly `regions[id]` together
with the config version of the snapshot. -/
theorem C10_region_found (r : RuleRouter) (reg : Region)
    (hreg : r.control.regions.lookup (hobRegionId r.control.hobRegions r.extractor.Hob)
      = some (some reg))
    (honline : reg.Status ≠ str "OFFLINE") :
    r.Region = (some reg, r.control.rConfigVersion) := by
  have hidx : Regions.index r.control.regions
      (HobRegions.Find r.control.hobRegions r.extractor.Hob) = some reg := by
    rw [Find_eq_hobRegionId]
    simp [Regions.index, hreg]
  have hon : Region.IsOnline (some reg) = true := by
    simp [Region.IsOnline, honline]
  simp [RuleRouter.Region, hidx, hon]

/-- C10 on the request with HOB `LON` of `TestRegionFound`: the region is
`eu-west-1` and the version 1404710310. -/
theorem C10_region_found_witness :
    lonRouter.control.regions.lookup
        (hobRegionId lonRouter.control.hobRegions lonRouter.extractor.Hob)
      = some (some euWest) ∧
    euWest.Status ≠ str "OFFLINE" ∧
    lonRouter.Region = (some euWest, 1404710310) :=
  ⟨by decide!, by decide!, C10_region_found lonRouter euWest (by decide!) (by decide!)⟩

/-! ### Rule order -/

/-- `Less` holds exactly when the key of the first rule is the greater one. -/
theorem ruleLess_iff (a b : Rule) : ruleLess a b = true ↔ ruleKey b < ruleKey a := by
  unfold ruleLess ruleKey
  rw [Prod.Lex.lt_iff]
  by_cases hw : a.Weight = b.Weight
  · simp [hw]
  · have hw' : ¬ b.Weight = a.Weight := fun h => hw h.symm
    simp [hw, hw']

/-- `Less` fails exactly when the key of the first rule is at most the other. -/
theorem ruleLess_eq_false_iff (a b : Rule) : ruleLess a b = false ↔ ruleKey a ≤ ruleKey b := by
  rw [← not_lt, ← ruleLess_iff]
  simp

/-- No two rules are each `Less` than the other. -/
theorem ruleLess_asymm (a b : Rule) : ruleLess a b = false ∨ ruleLess b a = false := by
  rw [ruleLess_eq_false_iff, ruleLess_eq_false_iff]
  exact le_total _ _

/-- "Not `Less`" is transitive. -/
theorem ruleLess_false_trans (a b c : Rule) (h1 : ruleLess b a = false)
    (h2 : ruleLess c b = false) : ruleLess c a = false := by
  rw [ruleLess_eq_false_iff] at *
  exact le_trans h2 h1

/-- A slice without nil rule is the image of its rules. -/
theorem nonNil_eq_some : ∀ (s : SortedRules) (l : List Rule),
    nonNil s = some l → s = l.map some := by
  intro s
  induction s with
  | nil =>
    intro l h
    simp only [nonNil, Option.some.injEq] at h
    subst h
    rfl
  | cons x rest ih =>
    intro l h
    cases x with
    | none => simp [nonNil] at h
    | some r =>
      cases hrest : nonNil rest with
      | none => simp [nonNil, hrest] at h
      | some l' =>
        simp only [nonNil, hrest, Option.some.injEq] at h
        subst h
        simp [ih l' hrest]

/-- A slice in which no rule is nil has its rules extracted. -/
theorem nonNil_isSome : ∀ (s : SortedRules), (∀ x ∈ s, x ≠ none) →
    ∃ l, nonNil s = some l := by
  intro s
  induction s with
  | nil => intro _; exact ⟨[], rfl⟩
  | cons x rest ih =>
    intro h
    obtain ⟨l, hl⟩ := ih (fun y hy => h y (List.mem_cons_of_mem _ hy))
    cases x with
    | none => exact absurd rfl (h none (by simp))
    | some r => exact ⟨r :: l, by simp [nonNil, hl]⟩

/-- On two rules that are not nil, `SortedRules.Less` is the comparison of the
two rules. -/
theorem Less_eq_ruleLess (s : SortedRules) (i j : Nat) (a b : Rule)
    (hi : s[i]? = some (some a)) (hj : s[j]? = some (some b)) :
    SortedRules.Less s i j = some (ruleLess a b) := by
  simp only [SortedRules.Less, List.get?_eq_getElem?, hi, hj]

/-- Insertion sort meets the contract of `sort.Sort`. -/
theorem insertionSortFn_contract : SortContract insertionSortFn := by
  intro less l htot htrans
  haveI : IsTotal Rule (fun a b => less b a = false) := ⟨fun a b => htot b a⟩
  haveI : IsTrans Rule (fun a b => less b a = false) := ⟨fun a b c => htrans a b c⟩
  exact ⟨List.perm_insertionSort _ l, List.sorted_insertionSort _ l⟩

/-- C3 fails on rules of equal key: of the two rules of `tieRules`, which have
the same weight and the same specificity, one precedes the other in the sorted
sequence although its key is not the greater one (whatever the sort does with
them, the rule it puts first has a key equal to that of the second). -/
theorem C3_counterexample :
    Rules.Sort insertionSortFn tieRules = some [some dubRule, some lonRule] ∧
    ¬ (ruleKey lonRule < ruleKey dubRule) ∧ ¬ (ruleKey dubRule < ruleKey lonRule) := by
  refine ⟨by decide!, ?_, ?_⟩ <;>
    · rw [← ruleLess_iff]
      decide!

/-- C3 (amended): `Rules.Sort` returns a rearrangement of the rules of the map
(it returns whenever the map has fewer than two rules or no nil rule); in the
sequence a rule precedes another only if its key `(Weight, Specificity)` is
greater or equal in lexicographic order, and it does precede it whenever its
key is greater. The relative order of rules of equal key is not determined. -/
theorem C3_sorted_order (sortFn : (Rule → Rule → Bool) → List Rule → List Rule)
    (hsort : SortContract sortFn) (rs : Rules) :
    ((rs.length < 2 ∨ ∀ p ∈ rs, p.2 ≠ none) → ∃ out, Rules.Sort sortFn rs = some out) ∧
    (∀ out, Rules.Sort sortFn rs = some out →
      List.Perm out (rs.map Prod.snd) ∧
      ∀ (i j : Nat) (a b : Rule), out[i]? = some (some a) → out[j]? = some (some b) →
        (i < j → ruleKey b ≤ ruleKey a) ∧ (ruleKey b < ruleKey a → i < j)) := by
  constructor
  · intro h
    unfold Rules.Sort
    by_cases hlen : (rs.map Prod.snd).length < 2
    · exact ⟨rs.map Prod.snd, by simp only [hlen, if_true]⟩
    · have hnn : ∀ x ∈ rs.map Prod.snd, x ≠ none := by
        rcases h with h | h
        · exact absurd (by simpa using h) hlen
        · intro x hx
          obtain ⟨p, hp, rfl⟩ := List.mem_map.mp hx
          exact h p hp
      obtain ⟨l, hl⟩ := nonNil_isSome _ hnn
      exact ⟨(sortFn ruleLess l).map some, by simp only [hlen, if_false, hl]⟩
  · intro out hout
    unfold Rules.Sort at hout
    by_cases hlen : (rs.map Prod.snd).length < 2
    · simp only [hlen, if_true, Option.some.injEq] at hout
      subst hout
      refine ⟨List.Perm.refl _, ?_⟩
      intro i j a b hi hj
      have hi' : i < (rs.map Prod.snd).length := (List.getElem?_eq_some_iff.mp hi).1
      have hj' : j < (rs.map Prod.snd).length := (List.getElem?_eq_some_iff.mp hj).1
      have hij : i = j := by omega
      subst hij
      have hab : a = b := by
        rw [hi] at hj
        simpa using hj
      subst hab
      exact ⟨fun h => absurd h (lt_irrefl _), fun h => absurd h (lt_irrefl _)⟩
    · simp only [hlen, if_false] at hout
      cases hl : nonNil (rs.map Prod.snd) with
      | none => simp [hl] at hout
      | some l =>
        simp only [hl, Option.some.injEq] at hout
        subst hout
        obtain ⟨hperm, hpw⟩ := hsort ruleLess l ruleLess_asymm ruleLess_false_trans
        refine ⟨?_, ?_⟩
        · rw [nonNil_eq_some _ l hl]
          exact hperm.map some
        · rw [List.pairwise_iff_getElem] at hpw
          have hget : ∀ (k : Nat) (c : Rule),
              ((sortFn ruleLess l).map some)[k]? = some (some c) →
              ∃ hk : k < (sortFn ruleLess l).length, (sortFn ruleLess l)[k] = c := by
            intro k c hk
            rw [List.getElem?_map] at hk
            cases hk' : (sortFn ruleLess l)[k]? with
            | none => simp [hk'] at hk
            | some d =>
              simp only [hk', Option.map_some', Option.some.injEq] at hk
              obtain ⟨hlt, hd⟩ := List.getElem?_eq_some_iff.mp hk'
              exact ⟨hlt, hd.trans hk⟩
          intro i j a b hi hj
          obtain ⟨hi', rfl⟩ := hget i a hi
          obtain ⟨hj', rfl⟩ := hget j b hj
          constructor
          · intro hij
            exact (ruleLess_eq_false_iff _ _).mp (hpw i j hi' hj' hij)
          · intro hkey
            by_contra hnot
            rcases Nat.lt_or_ge j i with hji | hji
            · have := (ruleLess_eq_false_iff _ _).mp (hpw j i hj' hi' hji)
              exact absurd hkey (not_lt.mpr this)
            · have hij : i = j := by omega
              subst hij
              exact absurd hkey (lt_irrefl _)

/-- C3 (amended) on a map of three rules, sorted by insertion: the rule of
weight 1 comes first. -/
theorem C3_sorted_order_witness :
    SortContract insertionSortFn ∧
    Rules.Sort insertionSortFn threeRules = some [some pathRule, some dubRule, some lonRule] ∧
    ((threeRules.length < 2 ∨ ∀ p ∈ threeRules, p.2 ≠ none) →
      ∃ out, Rules.Sort insertionSortFn threeRules = some out) ∧
    (∀ out, Rules.Sort insertionSortFn threeRules = some out →
      List.Perm out (threeRules.map Prod.snd) ∧
      ∀ (i j : Nat) (a b : Rule), out[i]? = some (some a) → out[j]? = some (some b) →
        (i < j → ruleKey b ≤ ruleKey a) ∧ (ruleKey b < ruleKey a → i < j)) :=
  ⟨insertionSortFn_contract, by decide!,
   C3_sorted_order insertionSortFn insertionSortFn_contract threeRules⟩

/-! ### Order of strings -/

/-- One step of the comparison of two non-empty strings. -/
theorem strLess_cons (x y : UInt8) (a b : GoString) :
    strLess (x :: a) (y :: b)
      = if x < y then true else if y < x then false else strLess a b := by
  rw [strLess]

/-- Go's `<` on strings is the lexicographic order of the bytes. -/
theorem strLess_iff_lex : ∀ (a b : GoString),
    strLess a b = true ↔ List.Lex (fun x y : UInt8 => x < y) a b := by
  intro a
  induction a with
  | nil =>
    intro b
    cases b with
    | nil => simp [strLess]
    | cons y b => simp [strLess, List.Lex.nil]
  | cons x a ih =>
    intro b
    cases b with
    | nil => simp [strLess]
    | cons y b =>
      rw [strLess_cons]
      by_cases hxy : x < y
      · simp only [hxy, if_true, true_iff]
        exact List.Lex.rel hxy
      · by_cases hyx : y < x
        · simp only [hxy, hyx, if_false, if_true]
          constructor
          · intro h; exact absurd h (by decide)
          · intro h
            cases h with
            | cons h' => exact absurd hyx (UInt8.lt_irrefl _)
            | rel h' => exact absurd h' hxy
        · simp only [hxy, hyx, if_false]
          have hEq : x = y := by
            apply UInt8.ext
            have h1 : ¬ x.toNat < y.toNat := hxy
            have h2 : ¬ y.toNat < x.toNat := hyx
            omega
          subst hEq
          rw [ih b]
          constructor
          · intro h; exact List.Lex.cons h
          · intro h
            cases h with
            | cons h' => exact h'
            | rel h' => exact absurd h' hxy

/-- No string is less than itself. -/
theorem strLess_irrefl : ∀ a : GoString, strLess a a = false := by
  intro a
  induction a with
  | nil => rfl
  | cons x a ih => rw [strLess_cons]; simp [UInt8.lt_irrefl, ih]

/-- Of two strings, one is not less than the other. -/
theorem strLess_total : ∀ a b : GoString, strLess b a = false ∨ strLess a b = false := by
  intro a
  induction a with
  | nil => intro b; left; cases b <;> rfl
  | cons x a ih =>
    intro b
    cases b with
    | nil => right; rfl
    | cons y b =>
      rw [strLess_cons, strLess_cons]
      by_cases hxy : x < y <;> by_cases hyx : y < x
      · exact absurd (UInt8.lt_trans hxy hyx) (UInt8.lt_irrefl _)
      · simp [hxy, hyx]
      · simp [hxy, hyx]
      · simpa [hxy, hyx] using ih b

/-- "Not less" is transitive. -/
theorem strLess_false_trans : ∀ a b c : GoString,
    strLess b a = false → strLess c b = false → strLess c a = false := by
  intro a
  induction a with
  | nil =>
    intro b c _ _
    cases c <;> rfl
  | cons x a ih =>
    intro b c h1 h2
    cases c with
    | nil =>
      cases b with
      | nil => simp [strLess] at h1
      | cons y b => simp [strLess] at h2
    | cons z c =>
      cases b with
      | nil => simp [strLess] at h1
      | cons y b =>
        rw [strLess_cons] at h1 h2 ⊢
        have hxy : x < y ↔ x.toNat < y.toNat := Iff.rfl
        have hyx : y < x ↔ y.toNat < x.toNat := Iff.rfl
        have hyz : y < z ↔ y.toNat < z.toNat := Iff.rfl
        have hzy : z < y ↔ z.toNat < y.toNat := Iff.rfl
        have hxz : x < z ↔ x.toNat < z.toNat := Iff.rfl
        have hzx : z < x ↔ z.toNat < x.toNat := Iff.rfl
        by_cases c1 : y.toNat < x.toNat
        · simp [hyx.mpr c1] at h1
        · by_cases c2 : z.toNat < y.toNat
          · simp [hzy.mpr c2] at h2
          · by_cases c3 : x.toNat < y.toNat
            · have c4 : ¬ z.toNat < x.toNat := by omega
              have c5 : x.toNat < z.toNat := by omega
              simp [hzx, hxz, c4, c5]
            · by_cases c6 : y.toNat < z.toNat
              · have c4 : ¬ z.toNat < x.toNat := by omega
                have c5 : x.toNat < z.toNat := by omega
                simp [hzx, hxz, c4, c5]
              · have c4 : ¬ z.toNat < x.toNat := by omega
                have c5 : ¬ x.toNat < z.toNat := by omega
                simp only [hyx, hxy, hzy, hyz, c1, c2, c3, c6, if_false] at h1 h2
                simp only [hzx, hxz, c4, c5, if_false]
                exact ih b c h1 h2

/-- Two strings neither of which is less than the other are equal. -/
theorem strLess_antisymm : ∀ a b : GoString,
    strLess a b = false → strLess b a = false → a = b := by
  intro a
  induction a with
  | nil =>
    intro b h1 _
    cases b with
    | nil => rfl
    | cons y b => simp [strLess] at h1
  | cons x a ih =>
    intro b h1 h2
    cases b with
    | nil => simp [strLess] at h2
    | cons y b =>
      rw [strLess_cons] at h1 h2
      by_cases hxy : x < y
      · simp [hxy] at h1
      · by_cases hyx : y < x
        · simp [hyx] at h2
        · simp only [hxy, hyx, if_false] at h1 h2
          have hEq : x = y := by
            apply UInt8.ext
            have h3 : ¬ x.toNat < y.toNat := hxy
            have h4 : ¬ y.toNat < x.toNat := hyx
            omega
          rw [hEq, ih b h1 h2]

/-- The first string of `sort.Strings` is a string of the list that no string
of the list is less than. -/
theorem sortStrings_head (keys : List GoString) (k : GoString) (rest : List GoString)
    (h : sortStrings keys = k :: rest) :
    k ∈ keys ∧ ∀ k1 ∈ keys, strLess k1 k = false := by
  haveI : IsTotal GoString (fun a b => strLess b a = false) := ⟨fun a b => strLess_total a b⟩
  haveI : IsTrans GoString (fun a b => strLess b a = false) :=
    ⟨fun a b c => strLess_false_trans a b c⟩
  have hperm : List.Perm (sortStrings keys) keys := List.perm_insertionSort _ keys
  have hsorted : List.Sorted (fun a b => strLess b a = false) (sortStrings keys) :=
    List.sorted_insertionSort _ keys
  rw [h] at hperm hsorted
  refine ⟨hperm.subset (List.mem_cons_self _ _), ?_⟩
  intro k1 hk1
  have hk1' : k1 ∈ k :: rest := hperm.symm.subset hk1
  rcases List.mem_cons.mp hk1' with rfl | hin
  · exact strLess_irrefl _
  · exact List.rel_of_sorted_cons hsorted k1 hin

/-- `sort.Strings` returns a string for a list that is not empty. -/
theorem sortStrings_ne_nil (keys : List GoString) (h : keys ≠ []) :
    ∃ k rest, sortStrings keys = k :: rest := by
  have hperm : List.Perm (sortStrings keys) keys := List.perm_insertionSort _ keys
  cases hs : sortStrings keys with
  | nil =>
    rw [hs] at hperm
    exact absurd (List.Perm.nil_eq hperm).symm h
  | cons k rest => exact ⟨k, rest, rfl⟩

/-! ### Region fallback and failover -/

/-- A key that no key is `<` than is the lexicographically smallest key. -/
theorem isSmallestKey_of_strLess (rs : Regions) (k : GoString)
    (hk : k ∈ rs.map Prod.fst) (hmin : ∀ k1 ∈ rs.map Prod.fst, strLess k1 k = false) :
    IsSmallestKey rs k := by
  refine ⟨hk, fun k1 hk1 hlex => ?_⟩
  have := (strLess_iff_lex k1 k).mpr hlex
  rw [hmin k1 hk1] at this
  exact absurd this (by decide)

/-- The lexicographically smallest key of a region map is unique. -/
theorem isSmallestKey_unique (rs : Regions) (k k1 : GoString)
    (h : IsSmallestKey rs k) (h1 : IsSmallestKey rs k1) : k = k1 := by
  have a : strLess k k1 = false := by
    cases hs : strLess k k1 with
    | false => rfl
    | true => exact absurd ((strLess_iff_lex k k1).mp hs) (h1.2 k h.1)
  have b : strLess k1 k = false := by
    cases hs : strLess k1 k with
    | false => rfl
    | true => exact absurd ((strLess_iff_lex k1 k).mp hs) (h.2 k1 h1.1)
  exact strLess_antisymm k k1 a b

/-- A region is online exactly when it is there and its status is not
`OFFLINE`. -/
theorem isOnline_iff (rs : Regions) (id : GoString) :
    Region.IsOnline (Regions.index rs id) = true ↔ ∃ reg, OnlineRegionAt rs id reg := by
  unfold OnlineRegionAt
  cases h : Regions.index rs id with
  | none => simp [Region.IsOnline]
  | some reg => simp [Region.IsOnline]

/-- The failover loop returns the region of the first failover id that is
online. -/
theorem tryFailovers_first (rs : Regions) (region : Option Region) :
    ∀ (fo : List GoString) (i : Nat) (hi : i < fo.length),
      Region.IsOnline (Regions.index rs fo[i]) = true →
      (∀ (j : Nat) (hj : j < i), Region.IsOnline (Regions.index rs (fo[j])) = false) →
      tryFailovers rs region fo = Regions.index rs fo[i] := by
  intro fo
  induction fo with
  | nil => intro i hi; exact absurd hi (by simp)
  | cons id rest ih =>
    intro i hi hon hoff
    cases i with
    | zero =>
      simp only [List.getElem_cons_zero] at hon ⊢
      simp [tryFailovers, hon]
    | succ n =>
      have h0 := hoff 0 (Nat.succ_pos n)
      simp only [List.getElem_cons_zero] at h0
      simp only [List.getElem_cons_succ] at hon ⊢
      have hn : n < rest.length := by simpa using hi
      rw [tryFailovers, if_neg (by simp [h0])]
      refine ih n hn hon ?_
      intro j hj
      have := hoff (j + 1) (Nat.succ_lt_succ hj)
      simpa only [List.getElem_cons_succ] using this

/-- The failover loop returns the region it was given when no failover id is
online. -/
theorem tryFailovers_none (rs : Regions) (region : Option Region) :
    ∀ (fo : List GoString), (∀ id ∈ fo, Region.IsOnline (Regions.index rs id) = false) →
      tryFailovers rs region fo = region := by
  intro fo
  induction fo with
  | nil => intro _; rfl
  | cons id rest ih =>
    intro h
    rw [tryFailovers, if_neg (by simp [h id (by simp)])]
    exact ih (fun id1 h1 => h id1 (List.mem_cons_of_mem _ h1))

/-- `Region` when the region id of the HOB names a region. -/
theorem region_of_hit (r : RuleRouter) (reg : Region)
    (h : Regions.index r.control.regions
      (hobRegionId r.control.hobRegions r.extractor.Hob) = some reg) :
    r.Region = (if Region.IsOnline (some reg) then some reg
      else tryFailovers r.control.regions (some reg) reg.Failover, r.control.rConfigVersion) := by
  rw [← Find_eq_hobRegionId] at h
  unfold RuleRouter.Region
  simp only [h, Option.isNone_some, Bool.false_eq_true, false_and, if_false]
  split <;> rfl

/-- `Region` when the region id of the HOB names no region and the region map
is not empty: the region under the first sorted key is taken. -/
theorem region_of_miss (r : RuleRouter) (hne : r.control.regions ≠ [])
    (h : Regions.index r.control.regions
      (hobRegionId r.control.hobRegions r.extractor.Hob) = none) :
    ∃ k, IsSmallestKey r.control.regions k ∧
      r.Region = (match Regions.index r.control.regions k with
        | none => none
        | some reg => if Region.IsOnline (some reg) then some reg
            else tryFailovers r.control.regions (some reg) reg.Failover,
        r.control.rConfigVersion) := by
  rw [← Find_eq_hobRegionId] at h
  have hkeys : r.control.regions.map Prod.fst ≠ [] := by simpa using hne
  obtain ⟨k, rest, hs⟩ := sortStrings_ne_nil _ hkeys
  obtain ⟨hk, hmin⟩ := sortStrings_head _ k rest hs
  refine ⟨k, isSmallestKey_of_strLess _ k hk hmin, ?_⟩
  have hlen : r.control.regions.length > 0 := List.length_pos.mpr hne
  unfold RuleRouter.Region
  simp only [h, Option.isNone_none, true_and, hlen, if_true, hs]
  cases hidx : Regions.index r.control.regions k with
  | none => rfl
  | some reg => simp only; split <;> rfl

/-- C11 fails when the region under the smallest key is offline: with no HOB
regions at all and the regions `eu-west-1` (offline, failing over to
`us-east-1`) and `us-east-1` (online), the request with HOB `ZZZ` gets
`us-east-1`, not the region stored under the smallest key `eu-west-1`. -/
theorem C11_counterexample :
    outageConfig.regions ≠ [] ∧ outageConfig.hobRegions = [] ∧
    IsSmallestKey outageConfig.regions (str "eu-west-1") ∧
    Regions.index outageConfig.regions (str "eu-west-1") = some euWestOffline ∧
    (RuleRouter.Region ⟨zzzRequest, outageConfig⟩).1 = some usEast ∧
    usEast ≠ euWestOffline := by
  refine ⟨by decide, rfl, ?_, by decide!, by decide!, by decide!⟩
  exact isSmallestKey_of_strLess _ _ (by decide!) (by decide!)

/-- C11 (amended): for a snapshot with a non-empty region map and a request
whose HOB resolves to no region of the map (the region id given by the HOB
entry, else by the `default` entry, else `""`, is not the key of a region),
the region chosen is the one stored under the lexicographically smallest key
of the region map, whatever the iteration order; `Region` returns it when its
status is not `OFFLINE`, and the result of the failover loop on it when it is
`OFFLINE`. -/
theorem C11_region_fallback (r : RuleRouter) (hne : r.control.regions ≠ [])
    (hmiss : Regions.index r.control.regions
      (hobRegionId r.control.hobRegions r.extractor.Hob) = none) :
    ∃ k, IsSmallestKey r.control.regions k ∧
      (Regions.index r.control.regions k = none →
        r.Region = (none, r.control.rConfigVersion)) ∧
      (∀ reg, Regions.index r.control.regions k = some reg →
        (reg.Status ≠ str "OFFLINE" → r.Region = (some reg, r.control.rConfigVersion)) ∧
        (reg.Status = str "OFFLINE" →
          r.Region = (tryFailovers r.control.regions (some reg) reg.Failover,
            r.control.rConfigVersion))) := by
  obtain ⟨k, hk, hreg⟩ := region_of_miss r hne hmiss
  refine ⟨k, hk, ?_, ?_⟩
  · intro hnone
    rw [hreg, hnone]
  · intro reg hsome
    rw [hreg, hsome]
    constructor
    · intro hon
      simp [Region.IsOnline, hon]
    · intro hoff
      simp [Region.IsOnline, hoff]

/-- C11 (amended) on the request of `TestRegionDefault` over a snapshot without
HOB regions: the region under the smallest key `eu-west-1` is returned. -/
theorem C11_region_fallback_witness :
    noHobConfig.regions ≠ [] ∧
    Regions.index noHobConfig.regions (hobRegionId noHobConfig.hobRegions zzzRequest.Hob)
      = none ∧
    ∃ k, IsSmallestKey noHobConfig.regions k ∧
      (Regions.index noHobConfig.regions k = none →
        RuleRouter.Region ⟨zzzRequest, noHobConfig⟩ = (none, noHobConfig.rConfigVersion)) ∧
      (∀ reg, Regions.index noHobConfig.regions k = some reg →
        (reg.Status ≠ str "OFFLINE" →
          RuleRouter.Region ⟨zzzRequest, noHobConfig⟩
            = (some reg, noHobConfig.rConfigVersion)) ∧
        (reg.Status = str "OFFLINE" →
          RuleRouter.Region ⟨zzzRequest, noHobConfig⟩
            = (tryFailovers noHobConfig.regions (some reg) reg.Failover,
              noHobConfig.rConfigVersion))) :=
  ⟨by decide, by decide!,
   C11_region_fallback ⟨zzzRequest, noHobConfig⟩ (by decide) (by decide!)⟩

/-- C12: when the region chosen for the request has the status `OFFLINE`,
`Region` returns the region of the first id of its failover list (in list
order) that is in the region map and online; when no failover id names an
online region it returns the chosen offline region itself. -/
theorem C12_failover (r : RuleRouter) (reg : Region) (hchosen : ChosenRegion r reg)
    (hoff : reg.Status = str "OFFLINE") :
    (∀ (i : Nat) (hi : i < reg.Failover.length) (fo : Region),
      OnlineRegionAt r.control.regions reg.Failover[i] fo →
      (∀ (j : Nat) (hj : j < i),
        ¬ ∃ other, OnlineRegionAt r.control.regions (reg.Failover[j]) other) →
      r.Region = (some fo, r.control.rConfigVersion)) ∧
    ((∀ id ∈ reg.Failover, ¬ ∃ other, OnlineRegionAt r.control.regions id other) →
      r.Region = (some reg, r.control.rConfigVersion)) := by
  have hregion : r.Region
      = (tryFailovers r.control.regions (some reg) reg.Failover, r.control.rConfigVersion) := by
    rcases hchosen with hhit | ⟨hmiss, k, hk, hidx⟩
    · rw [region_of_hit r reg hhit]
      simp [Region.IsOnline, hoff]
    · have hne : r.control.regions ≠ [] := by
        intro hnil
        have := hk.1
        simp [hnil] at this
      obtain ⟨k1, hk1, hreg⟩ := region_of_miss r hne hmiss
      have hkk : k1 = k := isSmallestKey_unique _ _ _ hk1 hk
      rw [hreg, hkk, hidx]
      simp [Region.IsOnline, hoff]
  rw [hregion]
  constructor
  · intro i hi fo hfo hbefore
    have hon : Region.IsOnline (Regions.index r.control.regions reg.Failover[i]) = true :=
      (isOnline_iff _ _).mpr ⟨fo, hfo⟩
    have hoffs : ∀ (j : Nat) (hj : j < i),
        Region.IsOnline (Regions.index r.control.regions (reg.Failover[j])) = false := by
      intro j hj
      cases hb : Region.IsOnline (Regions.index r.control.regions (reg.Failover[j])) with
      | false => rfl
      | true => exact absurd ((isOnline_iff _ _).mp hb) (hbefore j hj)
    rw [tryFailovers_first _ _ _ i hi hon hoffs, hfo.1]
  · intro hnone
    rw [tryFailovers_none]
    intro id hid
    cases hb : Region.IsOnline (Regions.index r.control.regions id) with
    | false => rfl
    | true => exact absurd ((isOnline_iff _ _).mp hb) (hnone id hid)

/-- C12 on a snapshot in which the region of `LON` is offline and fails over
to an undefined region and then to `us-east-1`: `us-east-1` is returned. -/
theorem C12_failover_witness :
    ChosenRegion ⟨lonRequest, failoverConfig⟩ euWestOfflineTwo ∧
    euWestOfflineTwo.Status = str "OFFLINE" ∧
    RuleRouter.Region ⟨lonRequest, failoverConfig⟩ = (some usEast, 1404710310) :=
  ⟨Or.inl (by decide!), by decide!,
   (C12_failover ⟨lonRequest, failoverConfig⟩ euWestOfflineTwo (Or.inl (by decide!))
      (by decide!)).1 1 (by decide) usEast ⟨by decide!, by decide!⟩
      (by
        intro j hj
        have hj0 : j = 0 := by omega
        subst hj0
        rintro ⟨other, h1, _⟩
        have h0 : Regions.index failoverConfig.regions (str "ap-south-1") = none := by decide!
        have h2 : Regions.index failoverConfig.regions (str "ap-south-1") = some other := h1
        rw [h0] at h2
        exact absurd h2 (by simp))⟩

/-- C13: `GetHobMode` returns `h1` when the `X-Hailo-Route` header is `H1` and
`h2` when it is `H2`; otherwise it returns the mode of the request HOB if the
HOB is a key of the HOB modes, else the mode of `default` if present, else the
empty string. -/
theorem C13_hob_mode (r : RuleRouter) :
    (r.extractor.Header (str "X-Hailo-Route") = str "H1" → r.GetHobMode = str "h1") ∧
    (r.extractor.Header (str "X-Hailo-Route") = str "H2" → r.GetHobMode = str "h2") ∧
    (r.extractor.Header (str "X-Hailo-Route") ≠ str "H1" →
      r.extractor.Header (str "X-Hailo-Route") ≠ str "H2" →
      r.GetHobMode = (r.control.hobModes.lookup r.extractor.Hob).getD
        ((r.control.hobModes.lookup (str "default")).getD [])) := by
  have hfind : HobModes.Find r.control.hobModes r.extractor.Hob
      = (r.control.hobModes.lookup r.extractor.Hob).getD
        ((r.control.hobModes.lookup (str "default")).getD []) := by
    unfold HobModes.Find
    cases List.lookup r.extractor.Hob r.control.hobModes with
    | some x => rfl
    | none =>
      cases List.lookup (str "default") r.control.hobModes with
      | some y => rfl
      | none => rfl
  refine ⟨?_, ?_, ?_⟩
  · intro h
    have hl : (str "H1").length > 0 := by decide
    simp only [RuleRouter.GetHobMode, h, hl, if_true]
  · intro h
    have hl : (str "H2").length > 0 := by decide
    have hne : str "H2" ≠ str "H1" := by decide
    simp only [RuleRouter.GetHobMode, h, hl, if_true, hne, if_false]
  · intro h1 h2
    simp only [RuleRouter.GetHobMode, h1, h2, if_false, hfind]
    split <;> rfl

/-- C13 on the request with HOB `LON` (mode `h1`) and the header
`X-Hailo-Route: H2`, as in `TestGetHobModeWithForced`: the mode is `h2`; without
the header it is `h1`. -/
theorem C13_hob_mode_witness :
    forcedH2Request.Header (str "X-Hailo-Route") = str "H2" ∧
    RuleRouter.GetHobMode ⟨forcedH2Request, testConfig⟩ = str "h2" ∧
    RuleRouter.GetHobMode lonRouter = str "h1" :=
  ⟨by decide, (C13_hob_mode ⟨forcedH2Request, testConfig⟩).2.1 (by decide), by decide!⟩

/-! ### Hostname correction and pinning -/

/-- Removing the bindings of a key does not change the lookup of another. -/
theorem lookup_filter_ne {V : Type} (k k1 : GoString) (h : k1 ≠ k) :
    ∀ m : List (GoString × V), (m.filter (fun p => p.1 != k)).lookup k1 = m.lookup k1 := by
  intro m
  induction m with
  | nil => rfl
  | cons p rest ih =>
    obtain ⟨pk, pv⟩ := p
    by_cases hp : pk = k
    · subst hp
      have hb : (k1 == pk) = false := by simpa using h
      have hf : ((pk, pv).1 != pk) = false := by simp
      rw [List.filter_cons_of_neg (by simp), ih, List.lookup_cons, hb]
    · rw [List.filter_cons_of_pos (by simpa using hp)]
      by_cases h1 : k1 = pk
      · subst h1
        simp [List.lookup_cons]
      · have hb1 : (k1 == pk) = false := by simpa using h1
        rw [List.lookup_cons, List.lookup_cons, hb1]
        exact ih

/-- Reading a Go map after an assignment. -/
theorem lookup_mapSet {V : Type} (m : List (GoString × V)) (k k1 : GoString) (v : V) :
    (mapSet m k v).lookup k1 = if k1 = k then some v else m.lookup k1 := by
  unfold mapSet
  by_cases h : k1 = k
  · subst h
    simp [List.lookup_cons]
  · have hb : (k1 == k) = false := by simpa using h
    rw [List.lookup_cons, hb, if_neg h]
    exact lookup_filter_ne k k1 h m

/-- `Header.Get` after `Header.Set`. -/
theorem get_set (h : Header) (k k1 v : GoString) :
    (h.Set k v).Get k1
      = if CanonicalMIMEHeaderKey k1 = CanonicalMIMEHeaderKey k then v else h.Get k1 := by
  unfold Header.Get Header.Set
  rw [lookup_mapSet]
  by_cases hk : CanonicalMIMEHeaderKey k1 = CanonicalMIMEHeaderKey k
  · simp only [hk, if_true]
  · simp only [hk, if_false]

/-- `Header.has` after `Header.Set`. -/
theorem has_set (h : Header) (k k1 v : GoString) :
    (h.Set k v).has k1
      = (decide (CanonicalMIMEHeaderKey k1 = CanonicalMIMEHeaderKey k) || h.has k1) := by
  unfold Header.has Header.Set
  rw [lookup_mapSet]
  by_cases hk : CanonicalMIMEHeaderKey k1 = CanonicalMIMEHeaderKey k <;> simp [hk]

/-- A header that is there stays there while further headers are set. -/
theorem has_foldl_set (key : GoString) (f : GoString → GoString) :
    ∀ (urls : Urls) (h : Header), h.has key = true →
      (urls.foldl (fun h1 kv => h1.Set (f kv.1) kv.2) h).has key = true := by
  intro urls
  induction urls with
  | nil => intro h hh; exact hh
  | cons kv rest ih =>
    intro h hh
    rw [List.foldl_cons]
    apply ih
    rw [has_set, hh]
    simp

/-- A header keeps its value while headers of other names are set. -/
theorem get_foldl_set (key : GoString) (f : GoString → GoString) :
    ∀ (urls : Urls) (h : Header),
      (∀ kv ∈ urls, CanonicalMIMEHeaderKey key ≠ CanonicalMIMEHeaderKey (f kv.1)) →
      (urls.foldl (fun h1 kv => h1.Set (f kv.1) kv.2) h).Get key = h.Get key := by
  intro urls
  induction urls with
  | nil => intro h _; rfl
  | cons kv rest ih =>
    intro h hne
    rw [List.foldl_cons, ih _ (fun kv1 h1 => hne kv1 (List.mem_cons_of_mem _ h1)), get_set,
      if_neg (hne kv (List.mem_cons_self _ _))]

/-- The hostname compared by `CorrectHostname` is the expected hostname. -/
theorem urls_index_eq_expected (reg : Region) (source : GoString) :
    Urls.index (reg.Urls source) urlName = expectedHostname reg source := by
  unfold Urls.index Region.Urls expectedHostname urlName
  cases List.lookup source reg.Apps with
  | some u => rfl
  | none =>
    cases List.lookup (str "default") reg.Apps with
    | some u => rfl
    | none => rfl

/-- A property of bytes that holds for the 256 byte values holds for every
byte. -/
theorem forall_byte (P : UInt8 → Prop) (h : ∀ n : Fin 256, P (UInt8.ofNat n.val)) :
    ∀ c : UInt8, P c := by
  intro c
  have hc : UInt8.ofNat c.toNat = c := by
    apply UInt8.ext
    show (BitVec.ofNat 8 c.toNat).toNat = c.toNat
    rw [BitVec.toNat_ofNat]
    exact Nat.mod_eq_of_lt (UInt8.toNat_lt c)
  have := h ⟨c.toNat, UInt8.toNat_lt c⟩
  rwa [hc] at this

/-- Upper-casing twice is upper-casing once. -/
theorem upperByte_idem : ∀ c : UInt8, upperByte (upperByte c) = upperByte c :=
  forall_byte _ (by decide!)

/-- The casing of a canonical header name does not show after upper-casing. -/
theorem upperByte_canonical_step : ∀ c : UInt8,
    upperByte (if 97 ≤ c ∧ c ≤ 122 then c - 32 else c) = upperByte c ∧
    upperByte (if 65 ≤ c ∧ c ≤ 90 then c + 32 else c) = upperByte c :=
  forall_byte _ (by decide!)

/-- Upper-casing undoes the casing of `canonicalCase`. -/
theorem ToUpper_canonicalCase : ∀ (s : GoString) (u : Bool),
    ToUpper (canonicalCase u s) = ToUpper s := by
  intro s
  induction s with
  | nil => intro u; rfl
  | cons c rest ih =>
    intro u
    have hstep := upperByte_canonical_step c
    cases u with
    | true =>
      simp only [canonicalCase, ToUpper, List.map_cons, true_and, not_true_eq_false, false_and,
        if_false]
      rw [hstep.1]
      exact congrArg _ (ih _)
    | false =>
      simp only [canonicalCase, ToUpper, List.map_cons, Bool.false_eq_true, false_and, if_false,
        not_false_eq_true, true_and]
      rw [hstep.2]
      exact congrArg _ (ih _)

/-- Upper-casing undoes the canonical form of a header name. -/
theorem ToUpper_canonical (s : GoString) : ToUpper (CanonicalMIMEHeaderKey s) = ToUpper s := by
  unfold CanonicalMIMEHeaderKey
  split
  · exact ToUpper_canonicalCase s true
  · rfl

/-- `maybePinRequestToHostname` pins exactly under the pinning condition, with
the version and the URLs of the resolved region. -/
theorem maybePin_cases (toUpper : GoString → GoString) (r : RuleRouter) (rw : Header)
    (hrw : rw.Get (str "X-H-HOB") = []) :
    (MustPin r → ∃ reg, r.Region.1 = some reg ∧
      maybePinRequestToHostname toUpper r rw
        = pinRequestToHostname toUpper rw r.control.rConfigVersion
            (reg.Urls r.extractor.Source)) ∧
    (¬ MustPin r → maybePinRequestToHostname toUpper r rw = rw) := by
  have hver : r.Region.2 = r.control.rConfigVersion := by
    unfold RuleRouter.Region
    simp only
    split
    · rfl
    · split <;> rfl
  unfold MustPin maybePinRequestToHostname RuleRouter.CorrectHostname
  by_cases hhob : r.extractor.Hob = []
  · simp [hhob, hrw]
  · have hlen : ¬ r.extractor.Hob.length = 0 := by simpa using hhob
    simp only [hlen, if_false]
    cases hreg : r.Region.1 with
    | none => simp [hhob]
    | some reg =>
      simp only [hver, urls_index_eq_expected]
      by_cases hhost : r.extractor.Host = expectedHostname reg r.extractor.Source
      · simp [hhob, hhost]
      · simp [hhob, hhost]

/-- A header whose value is `v` keeps it while the headers set under its name
carry `v`. -/
theorem get_foldl_set_same (key v : GoString) (f : GoString → GoString) :
    ∀ (urls : Urls) (h : Header), h.Get key = v →
      (∀ kv ∈ urls, CanonicalMIMEHeaderKey (f kv.1) = CanonicalMIMEHeaderKey key → kv.2 = v) →
      (urls.foldl (fun h1 kv => h1.Set (f kv.1) kv.2) h).Get key = v := by
  intro urls
  induction urls with
  | nil => intro h hh _; exact hh
  | cons kv rest ih =>
    intro h hh hsame
    rw [List.foldl_cons]
    apply ih
    · rw [get_set]
      by_cases hk : CanonicalMIMEHeaderKey key = CanonicalMIMEHeaderKey (f kv.1)
      · rw [if_pos hk]
        exact hsame kv (List.mem_cons_self _ _) hk.symm
      · rw [if_neg hk]
        exact hh
    · exact fun kv1 h1 => hsame kv1 (List.mem_cons_of_mem _ h1)

/-- After the loop over the URLs, the header of every purpose is there; it
carries the URL of the purpose when the purposes of the same header name have
the same URL. -/
theorem foldl_set_mem (f : GoString → GoString) :
    ∀ (urls : Urls) (h : Header) (kv : GoString × GoString), kv ∈ urls →
      (urls.foldl (fun h1 kv1 => h1.Set (f kv1.1) kv1.2) h).has (f kv.1) = true ∧
      ((∀ kv1 ∈ urls, CanonicalMIMEHeaderKey (f kv1.1) = CanonicalMIMEHeaderKey (f kv.1) →
          kv1.2 = kv.2) →
        (urls.foldl (fun h1 kv1 => h1.Set (f kv1.1) kv1.2) h).Get (f kv.1) = kv.2) := by
  intro urls
  induction urls with
  | nil => intro h kv hkv; exact absurd hkv (List.not_mem_nil _)
  | cons x rest ih =>
    intro h kv hkv
    rw [List.foldl_cons]
    by_cases hrest : kv ∈ rest
    · obtain ⟨h1, h2⟩ := ih (h.Set (f x.1) x.2) kv hrest
      exact ⟨h1, fun hsame => h2 (fun kv1 hkv1 => hsame kv1 (List.mem_cons_of_mem _ hkv1))⟩
    · have hx : kv = x := by
        rcases List.mem_cons.mp hkv with h1 | h1
        · exact h1
        · exact absurd h1 hrest
      subst hx
      constructor
      · apply has_foldl_set
        rw [has_set]
        simp
      · intro hsame
        apply get_foldl_set_same
        · rw [get_set, if_pos rfl]
        · exact fun kv1 hkv1 => hsame kv1 (List.mem_cons_of_mem _ hkv1)

/-- Replacing the underscores of an ASCII string leaves an ASCII string. -/
theorem isASCII_replaceUnderscore (k : GoString) (hk : IsASCII k) :
    IsASCII (replaceUnderscore k) := by
  intro b hb
  unfold replaceUnderscore at hb
  obtain ⟨c, hc, rfl⟩ := List.mem_map.mp hb
  by_cases h95 : c = 95
  · simp only [h95, if_true]
    decide
  · simp only [h95, if_false]
    exact hk c hc

/-- With the upper-casing of the ASCII letters, the header of a URL purpose is
the timestamp header exactly for the purpose `timestamp`, up to case. -/
theorem endpointHeader_timestamp_iff (k : GoString) :
    CanonicalMIMEHeaderKey (endpointHeader ToUpper k)
        = CanonicalMIMEHeaderKey (str "X-H-ENDPOINT-TIMESTAMP") ↔
      EqFold k (str "timestamp") := by
  have h5 : ToUpper (str "timestamp") = str "TIMESTAMP" := by decide
  have hkeep : ∀ k : GoString, (∀ b ∈ k, b ≠ 95) → replaceUnderscore k = k := by
    intro k hno
    unfold replaceUnderscore
    conv => rhs; rw [← List.map_id k]
    apply List.map_congr_left
    intro b hb
    simp [hno b hb]
  constructor
  · intro heq
    have h1 := congrArg ToUpper heq
    rw [ToUpper_canonical, ToUpper_canonical] at h1
    have h2 : ToUpper (endpointHeader ToUpper k)
        = str "X-H-ENDPOINT-" ++ ToUpper (replaceUnderscore k) := by
      unfold endpointHeader ToUpper
      rw [List.map_append, List.map_map]
      have hidem : (upperByte ∘ upperByte) = upperByte := funext upperByte_idem
      rw [hidem]
      rfl
    have h3 : ToUpper (str "X-H-ENDPOINT-TIMESTAMP")
        = str "X-H-ENDPOINT-" ++ str "TIMESTAMP" := by decide
    rw [h2, h3] at h1
    have h4 : ToUpper (replaceUnderscore k) = str "TIMESTAMP" := List.append_cancel_left h1
    unfold EqFold
    rw [h5, ← h4]
    -- no byte of `TIMESTAMP` is a hyphen, so `k` has no underscore
    have hno : ∀ b ∈ k, b ≠ 95 := by
      intro b hb h95
      subst h95
      have hmem : upperByte 45 ∈ ToUpper (replaceUnderscore k) := by
        unfold ToUpper replaceUnderscore
        rw [List.map_map]
        exact List.mem_map.mpr ⟨95, hb, by decide⟩
      rw [h4] at hmem
      revert hmem
      decide
    rw [hkeep k hno]
  · intro hfold
    unfold EqFold at hfold
    rw [h5] at hfold
    -- no byte of `TIMESTAMP` is an underscore, so `k` has none
    have hno : ∀ b ∈ k, b ≠ 95 := by
      intro b hb h95
      subst h95
      have hmem : upperByte 95 ∈ ToUpper k := List.mem_map.mpr ⟨95, hb, rfl⟩
      rw [hfold] at hmem
      revert hmem
      decide
    have h6 : endpointHeader ToUpper k = str "X-H-ENDPOINT-TIMESTAMP" := by
      unfold endpointHeader
      rw [hkeep k hno, hfold]
      decide
    rw [h6]

/-- C14 fails for the timestamp when a URL purpose is named `timestamp`: the
request is pinned, and the `X-H-ENDPOINT-TIMESTAMP` header carries the URL of
that purpose instead of the config version 10001. -/
theorem C14_counterexample :
    MustPin ⟨wrongHostRequest, stampConfig⟩ ∧
    (maybePinRequestToHostname ToUpper ⟨wrongHostRequest, stampConfig⟩ []).Get
        (str "X-H-ENDPOINT-TIMESTAMP") = str "yesterday" ∧
    stampConfig.rConfigVersion = 10001 ∧ decimalInt 10001 = str "10001" :=
  ⟨⟨by decide!, euWestStamp, by decide!, by decide!⟩, by decide!, rfl, by decide!⟩

/-- C14 (amended): for a request whose response carries no `X-H-HOB` header,
the `X-H-ENDPOINT-*` headers are attached exactly when the request has a
non-empty HOB, a region resolves, and the request host differs from the `api`
hostname of the region for the request source (falling back to the app
`default`); otherwise the response header is left as it was. When they are
attached, the header `X-H-ENDPOINT-<PURPOSE>` of every URL purpose of the app
is there and carries the URL of the purpose (provided the purposes that give
the same header name have the same URL), and `X-H-ENDPOINT-TIMESTAMP` is the
config version of the snapshot provided no URL purpose gives the header name
`X-H-ENDPOINT-TIMESTAMP`; where `strings.ToUpper` upper-cases the ASCII
letters, the purposes that give it are `timestamp` in any letter case. With
no HOB, `CorrectHostname` returns an error, `isCorrect = false` and version
0. -/
theorem C14_pinning (toUpper : GoString → GoString) (r : RuleRouter) (rw : Header)
    (hrw : rw.Get (str "X-H-HOB") = []) :
    (rw.has (str "X-H-ENDPOINT-TIMESTAMP") = false →
      ((maybePinRequestToHostname toUpper r rw).has (str "X-H-ENDPOINT-TIMESTAMP") = true
        ↔ MustPin r)) ∧
    (¬ MustPin r → maybePinRequestToHostname toUpper r rw = rw) ∧
    (MustPin r → ∃ reg, r.Region.1 = some reg ∧
      (∀ kv ∈ (reg.Urls r.extractor.Source).getD [],
        (maybePinRequestToHostname toUpper r rw).has (endpointHeader toUpper kv.1) = true ∧
        ((∀ kv1 ∈ (reg.Urls r.extractor.Source).getD [],
            CanonicalMIMEHeaderKey (endpointHeader toUpper kv1.1)
              = CanonicalMIMEHeaderKey (endpointHeader toUpper kv.1) → kv1.2 = kv.2) →
          (maybePinRequestToHostname toUpper r rw).Get (endpointHeader toUpper kv.1)
            = kv.2)) ∧
      ((∀ kv ∈ (reg.Urls r.extractor.Source).getD [],
          CanonicalMIMEHeaderKey (endpointHeader toUpper kv.1)
            ≠ CanonicalMIMEHeaderKey (str "X-H-ENDPOINT-TIMESTAMP")) →
        (maybePinRequestToHostname toUpper r rw).Get (str "X-H-ENDPOINT-TIMESTAMP")
          = decimalInt r.control.rConfigVersion)) ∧
    ((∀ s, IsASCII s → toUpper s = ToUpper s) → ∀ k, IsASCII k →
      (CanonicalMIMEHeaderKey (endpointHeader toUpper k)
          = CanonicalMIMEHeaderKey (str "X-H-ENDPOINT-TIMESTAMP") ↔
        EqFold k (str "timestamp"))) ∧
    (r.extractor.Hob = [] →
      (r.CorrectHostname rw).err ≠ none ∧ (r.CorrectHostname rw).isCorrect = false ∧
      (r.CorrectHostname rw).version = 0) := by
  obtain ⟨hpin, hnot⟩ := maybePin_cases toUpper r rw hrw
  refine ⟨?_, hnot, ?_, ?_, ?_⟩
  · intro hfresh
    constructor
    · intro hhas
      by_contra hn
      rw [hnot hn, hfresh] at hhas
      exact absurd hhas (by decide)
    · intro hm
      obtain ⟨reg, _, heq⟩ := hpin hm
      rw [heq]
      unfold pinRequestToHostname
      apply has_foldl_set
      rw [has_set]
      simp
  · intro hm
    obtain ⟨reg, hreg, heq⟩ := hpin hm
    refine ⟨reg, hreg, ?_, ?_⟩
    · intro kv hkv
      rw [heq]
      unfold pinRequestToHostname
      exact foldl_set_mem (endpointHeader toUpper) _ _ kv hkv
    · intro hne
      rw [heq]
      unfold pinRequestToHostname
      rw [get_foldl_set, get_set, if_pos rfl]
      exact fun kv hkv => (hne kv hkv).symm
  · intro hup k hk
    have he : endpointHeader toUpper k = endpointHeader ToUpper k := by
      unfold endpointHeader
      rw [hup _ (isASCII_replaceUnderscore k hk)]
    rw [he]
    exact endpointHeader_timestamp_iff k
  · intro hhob
    simp [RuleRouter.CorrectHostname, hhob, hrw]

/-- C14 (amended) on the request `GET /throttle?city=LON` of `TestRegionPinning`,
made to a host that is not the London hostname: the timestamp header is
`10001` and the `api` endpoint is the London hostname. -/
theorem C14_pinning_witness :
    Header.Get [] (str "X-H-HOB") = [] ∧
    MustPin ⟨wrongHostRequest, pinConfig⟩ ∧
    (maybePinRequestToHostname ToUpper ⟨wrongHostRequest, pinConfig⟩ []).Get
        (str "X-H-ENDPOINT-TIMESTAMP") = str "10001" ∧
    (maybePinRequestToHostname ToUpper ⟨wrongHostRequest, pinConfig⟩ []).has
        (str "X-H-ENDPOINT-API") = true ∧
    (maybePinRequestToHostname ToUpper ⟨wrongHostRequest, pinConfig⟩ []).Get
        (str "X-H-ENDPOINT-API") = str "api-driver-london.elasticride.com" := by
  have hmust : MustPin ⟨wrongHostRequest, pinConfig⟩ :=
    ⟨by decide!, euWest, by decide!, by decide!⟩
  obtain ⟨reg, hreg, hall, hts⟩ :=
    (C14_pinning ToUpper ⟨wrongHostRequest, pinConfig⟩ [] (by decide!)).2.2.1 hmust
  have hr : (RuleRouter.Region ⟨wrongHostRequest, pinConfig⟩).1 = some euWest := by decide!
  rw [hr] at hreg
  cases hreg
  have hu : (euWest.Urls wrongHostRequest.Source).getD []
      = [(str "api", str "api-driver-london.elasticride.com")] := by decide!
  have hu1 : (euWest.Urls (RuleRouter.mk wrongHostRequest pinConfig).extractor.Source).getD []
      = [(str "api", str "api-driver-london.elasticride.com")] := hu
  rw [hu1] at hall hts
  have hapi : endpointHeader ToUpper (str "api") = str "X-H-ENDPOINT-API" := by decide
  obtain ⟨hhas, hget⟩ := hall (str "api", str "api-driver-london.elasticride.com")
    (List.mem_singleton.mpr rfl)
  simp only [hapi] at hhas hget
  refine ⟨by decide!, hmust, ?_, hhas, ?_⟩
  · rw [hts ?_]
    · decide!
    · intro kv hkv
      rw [List.mem_singleton.mp hkv]
      decide!
  · apply hget
    intro kv1 hkv1 _
    rw [List.mem_singleton.mp hkv1]

/-! ### Throttling -/

/-- A key has a binding in a map exactly when it is among the keys. -/
theorem lookup_isSome_iff {V : Type} (k : GoString) :
    ∀ m : List (GoString × V), (m.lookup k).isSome = true ↔ k ∈ m.map Prod.fst := by
  intro m
  induction m with
  | nil => simp
  | cons p rest ih =>
    obtain ⟨pk, pv⟩ := p
    by_cases h : k = pk
    · subst h
      simp [List.lookup_cons]
    · have hb : (k == pk) = false := by simpa using h
      rw [List.lookup_cons, hb]
      simp only [List.map_cons, List.mem_cons, h, false_or]
      exact ih

/-- `anyThrottled` holds exactly when a bucket is a key of the throttled set. -/
theorem anyThrottled_iff (t : ThrottlingHandler) (bucks : List GoString) :
    t.anyThrottled bucks = true
      ↔ ∃ b ∈ bucks, b ∈ (t.throttledBuckets.getD []).map Prod.fst := by
  unfold ThrottlingHandler.anyThrottled
  cases t.throttledBuckets with
  | none => simp
  | some T =>
    simp only [List.any_eq_true, Option.getD_some]
    constructor
    · rintro ⟨b, hb, hl⟩
      exact ⟨b, hb, (lookup_isSome_iff b T).mp hl⟩
    · rintro ⟨b, hb, hl⟩
      exact ⟨b, hb, (lookup_isSome_iff b T).mpr hl⟩

/-- C15: on a response that has not been started, `ServeHTTP` responds with the
status 429 without invoking the wrapped handler exactly when a bucket of the
request is a key of the current throttled set; otherwise it invokes the
wrapped handler exactly once, on the response as it received it, and the
response is the one of the wrapped handler. -/
theorem C15_throttle_iff (t : ThrottlingHandler)
    (next : ResponseWriter → Request → ResponseWriter) (xApiTokenFirst : Bool)
    (rw : ResponseWriter) (r : Request) (hfresh : rw.status = none) :
    (((t.ServeHTTP next xApiTokenFirst rw r).rw.status = some 429 ∧
        (t.ServeHTTP next xApiTokenFirst rw r).forwarded = [])
      ↔ ∃ b ∈ ThrottlingHandler.buckets xApiTokenFirst r,
          b ∈ (t.throttledBuckets.getD []).map Prod.fst) ∧
    ((¬ ∃ b ∈ ThrottlingHandler.buckets xApiTokenFirst r,
          b ∈ (t.throttledBuckets.getD []).map Prod.fst) →
      (t.ServeHTTP next xApiTokenFirst rw r).forwarded = [(rw, r)] ∧
      (t.ServeHTTP next xApiTokenFirst rw r).rw = next rw r) := by
  have hany := anyThrottled_iff
    { t with ingesterChan :=
        (ThrottlingHandler.buckets xApiTokenFirst r).foldl trySend t.ingesterChan }
    (ThrottlingHandler.buckets xApiTokenFirst r)
  simp only at hany
  by_cases h : ∃ b ∈ ThrottlingHandler.buckets xApiTokenFirst r,
      b ∈ (t.throttledBuckets.getD []).map Prod.fst
  · have ht := hany.mpr h
    simp only [ThrottlingHandler.ServeHTTP, ht, if_true, h, not_true_eq_false, false_imp_iff,
      and_true, iff_true]
    simp [ResponseWriter.Write, ResponseWriter.WriteHeader, hfresh]
  · have ht : ¬ _ := fun hh => h (hany.mp hh)
    simp only [ThrottlingHandler.ServeHTTP, ht, if_false, h, not_false_eq_true, true_imp_iff,
      and_self, and_true, iff_false]
    simp

/-- C15 on the request with session `abc` while `sessId:abc` is throttled: the
status is 429 and the wrapped handler is not invoked; the request without
session is forwarded. -/
theorem C15_throttle_iff_witness :
    freshResponse.status = none ∧
    (abcThrottled.ServeHTTP okHandler true freshResponse sessionRequest).rw.status = some 429 ∧
    (abcThrottled.ServeHTTP okHandler true freshResponse sessionRequest).forwarded = [] ∧
    (abcThrottled.ServeHTTP okHandler true freshResponse plainRequest).rw.status = some 200 :=
  ⟨rfl,
   ((C15_throttle_iff abcThrottled okHandler true freshResponse sessionRequest rfl).1.mpr
      ⟨str "sessId:abc", by decide!, by decide!⟩).1,
   ((C15_throttle_iff abcThrottled okHandler true freshResponse sessionRequest rfl).1.mpr
      ⟨str "sessId:abc", by decide!, by decide!⟩).2,
   by decide!⟩

/-- C16 fails for "no further fields": the body written for the throttled
request with session `abc` ends with the field `"context":null`, which the
body of the specification does not have. -/
theorem C16_counterexample :
    (abcThrottled.ServeHTTP okHandler true freshResponse sessionRequest).rw.body
      = writtenThrottledBody ∧
    writtenThrottledBody ≠ specThrottledBody := by
  decide!

/-- C16 (amended): for every throttled request the bytes written to the body
are
`{"status":false,"payload":"Client error: rate limit exceeded","code":429,"dotted_code":"com.HailoOSS.api.throttled","context":null}`
(the four fields of the specification followed by `"context":null`), and the
`Content-Type` is `application/json; charset=utf-8`. -/
theorem C16_throttled_body (t : ThrottlingHandler)
    (next : ResponseWriter → Request → ResponseWriter) (xApiTokenFirst : Bool)
    (rw : ResponseWriter) (r : Request)
    (hthrottled : ∃ b ∈ ThrottlingHandler.buckets xApiTokenFirst r,
      b ∈ (t.throttledBuckets.getD []).map Prod.fst) :
    (t.ServeHTTP next xApiTokenFirst rw r).rw.body = rw.body ++ writtenThrottledBody ∧
    (t.ServeHTTP next xApiTokenFirst rw r).rw.header.Get (str "Content-Type")
      = str "application/json; charset=utf-8" := by
  have hany := (anyThrottled_iff
    { t with ingesterChan :=
        (ThrottlingHandler.buckets xApiTokenFirst r).foldl trySend t.ingesterChan }
    (ThrottlingHandler.buckets xApiTokenFirst r)).mpr hthrottled
  have hbody : throttledBody.Marshal = writtenThrottledBody := by decide!
  simp only [ThrottlingHandler.ServeHTTP, hany, if_true, hbody]
  have hget : (rw.header.Set (str "Content-Type")
      (str "application/json; charset=utf-8")).Get (str "Content-Type")
      = str "application/json; charset=utf-8" := by
    rw [get_set, if_pos rfl]
  cases hs : rw.status with
  | none => exact ⟨by simp [ResponseWriter.Write, ResponseWriter.WriteHeader, hs],
      by simpa [ResponseWriter.Write, ResponseWriter.WriteHeader, hs] using hget⟩
  | some c => exact ⟨by simp [ResponseWriter.Write, ResponseWriter.WriteHeader, hs],
      by simpa [ResponseWriter.Write, ResponseWriter.WriteHeader, hs] using hget⟩

/-- C16 (amended) on the request with session `abc` while `sessId:abc` is
throttled. -/
theorem C16_throttled_body_witness :
    (∃ b ∈ ThrottlingHandler.buckets true sessionRequest,
      b ∈ (abcThrottled.throttledBuckets.getD []).map Prod.fst) ∧
    (abcThrottled.ServeHTTP okHandler true freshResponse sessionRequest).rw.body
      = freshResponse.body ++ writtenThrottledBody ∧
    (abcThrottled.ServeHTTP okHandler true freshResponse sessionRequest).rw.header.Get
        (str "Content-Type") = str "application/json; charset=utf-8" :=
  ⟨⟨str "sessId:abc", by decide!, by decide!⟩,
   C16_throttled_body abcThrottled okHandler true freshResponse sessionRequest
     ⟨str "sessId:abc", by decide!, by decide!⟩⟩

/-- C17: the buckets of a request are the one-element list `["sessId:" + s]`
when its session id `s` is not empty, and the empty list when it is empty. -/
theorem C17_buckets (xApiTokenFirst : Bool) (r : Request) :
    (SessionId xApiTokenFirst (some r) ≠ [] →
      ThrottlingHandler.buckets xApiTokenFirst r
        = [str "sessId:" ++ SessionId xApiTokenFirst (some r)]) ∧
    (SessionId xApiTokenFirst (some r) = [] →
      ThrottlingHandler.buckets xApiTokenFirst r = []) := by
  constructor
  · intro h
    simp [ThrottlingHandler.buckets, h]
  · intro h
    simp [ThrottlingHandler.buckets, h]

/-- C17 on the requests of `TestRecording` and `TestRecording_NoSessionId`. -/
theorem C17_buckets_witness :
    SessionId true (some sessionRequest) = str "abc" ∧
    ThrottlingHandler.buckets true sessionRequest = [str "sessId:abc"] ∧
    SessionId true (some plainRequest) = [] ∧
    ThrottlingHandler.buckets true plainRequest = [] :=
  ⟨by decide!,
   ((C17_buckets true sessionRequest).1 (by decide!)).trans (by decide!),
   by decide!,
   (C17_buckets true plainRequest).2 (by decide!)⟩

/-! ### Ingestion and synchronisation -/

/-- Reading a counter after the increment of a key. -/
theorem lookup_addOne (key k : GoString) :
    ∀ buf : bucketBufferT, (addOne buf key).lookup k
      = if k = key then (buf.lookup key).map (fun v => (v + 1) % 2 ^ 64)
        else buf.lookup k := by
  intro buf
  induction buf with
  | nil => simp [addOne]
  | cons p rest ih =>
    obtain ⟨pk, pv⟩ := p
    unfold addOne at ih ⊢
    by_cases hp : pk = key
    · subst hp
      by_cases hk : k = pk
      · subst hk
        simp [List.lookup_cons]
      · have hb : (k == pk) = false := by simpa using hk
        simp only [List.map_cons, if_true, List.lookup_cons, hb, hk, if_false] at ih ⊢
        exact ih
    · by_cases hk : k = key
      · subst hk
        have hb : (k == pk) = false := by simpa using fun h => hp h.symm
        simp only [List.map_cons, hp, if_false, List.lookup_cons, hb, if_true] at ih ⊢
        exact ih
      · simp only [List.map_cons, hp, if_false, List.lookup_cons, hk] at ih ⊢
        rw [ih]

/-- The keys of the buffer are not changed by an increment. -/
theorem keys_addOne (key : GoString) (buf : bucketBufferT) :
    (addOne buf key).map Prod.fst = buf.map Prod.fst := by
  unfold addOne
  rw [List.map_map]
  apply List.map_congr_left
  intro p _
  by_cases h : p.1 = key <;> simp [h]

/-- Reading a counter after one round of the ingester. -/
theorem lookup_ingesterStep (buf : bucketBufferT) (key k : GoString) :
    (ingesterStep buf key).lookup k
      = if k = key then some (((buf.lookup key).getD 0 + 1) % 2 ^ 64) else buf.lookup k := by
  unfold ingesterStep
  cases h : buf.lookup key with
  | none =>
    simp only [lookup_mapSet, Option.getD_none]
    by_cases hk : k = key <;> simp [hk]
  | some v =>
    simp only [lookup_addOne, h, Option.map_some', Option.getD_some]

/-- One round of the ingester keeps the keys of the buffer distinct. -/
theorem nodup_ingesterStep (buf : bucketBufferT) (key : GoString)
    (h : (buf.map Prod.fst).Nodup) : ((ingesterStep buf key).map Prod.fst).Nodup := by
  unfold ingesterStep
  cases hl : buf.lookup key with
  | some v => simpa only [keys_addOne] using h
  | none =>
    unfold mapSet
    simp only [List.map_cons, List.nodup_cons]
    constructor
    · intro hmem
      obtain ⟨p, hp, hpk⟩ := List.mem_map.mp hmem
      have := (List.mem_filter.mp hp).2
      simp [hpk] at this
    · exact List.Nodup.sublist ((List.filter_sublist _).map _) h

/-- Reading a counter after the ingestion of a sequence of keys. -/
theorem lookup_ingesterWorker (k : GoString) :
    ∀ (keys : List GoString) (buf : bucketBufferT),
      (ingesterWorker keys buf).lookup k = addCount (buf.lookup k) (keys.count k) := by
  intro keys
  induction keys with
  | nil => intro buf; simp [ingesterWorker, addCount]
  | cons key rest ih =>
    intro buf
    have hfold : ingesterWorker (key :: rest) buf = ingesterWorker rest (ingesterStep buf key) :=
      rfl
    rw [hfold, ih, lookup_ingesterStep]
    by_cases hk : k = key
    · subst hk
      simp only [if_true, List.count_cons_self, addCount, Option.getD_some]
      by_cases hz : List.count k rest = 0
      · simp [hz]
      · simp only [hz, if_false, Nat.add_one_ne_zero]
        congr 1
        omega
    · have hne : (key == k) = false := by simpa using fun h => hk h.symm
      simp only [hk, if_false, List.count_cons, hne]
      simp

/-- The ingestion of a sequence of keys keeps the keys of the buffer
distinct. -/
theorem nodup_ingesterWorker :
    ∀ (keys : List GoString) (buf : bucketBufferT), (buf.map Prod.fst).Nodup →
      ((ingesterWorker keys buf).map Prod.fst).Nodup := by
  intro keys
  induction keys with
  | nil => intro buf h; exact h
  | cons key rest ih =>
    intro buf h
    exact ih _ (nodup_ingesterStep buf key h)

/-- C18: after the ingester has consumed a sequence of bucket keys from an
empty buffer, with no swap of the buffer in between, the keys of the counter
map are exactly the distinct keys of the sequence, and the counter of each key
is the number of its occurrences in the sequence (as a `uint64`, that is modulo
`2^64`: the number itself for every sequence of fewer than `2^64` keys). -/
theorem C18_ingester_counts (keys : List GoString) :
    (∀ k, (ingesterWorker keys []).lookup k
      = if k ∈ keys then some (keys.count k % 2 ^ 64) else none) ∧
    ((ingesterWorker keys []).map Prod.fst).Nodup ∧
    (∀ k, k ∈ (ingesterWorker keys []).map Prod.fst ↔ k ∈ keys) ∧
    (keys.length < 2 ^ 64 →
      ∀ k ∈ keys, (ingesterWorker keys []).lookup k = some (keys.count k)) := by
  have hlook : ∀ k, (ingesterWorker keys []).lookup k
      = if k ∈ keys then some (keys.count k % 2 ^ 64) else none := by
    intro k
    rw [lookup_ingesterWorker]
    by_cases hk : k ∈ keys
    · have hpos : List.count k keys ≠ 0 := by
        have := List.count_pos_iff.mpr hk
        omega
      simp [addCount, hk, hpos]
    · have hz : List.count k keys = 0 := List.count_eq_zero.mpr hk
      simp [addCount, hk, hz]
  refine ⟨hlook, nodup_ingesterWorker keys [] (by simp), ?_, ?_⟩
  · intro k
    rw [← lookup_isSome_iff, hlook]
    by_cases hk : k ∈ keys <;> simp [hk]
  · intro hlen k hk
    rw [hlook, if_pos hk]
    have hle : List.count k keys ≤ keys.length := List.count_le_length k keys
    rw [Nat.mod_eq_of_lt (by omega)]

/-- C18 on the ten keys of `TestSynchronisation` with another key among them:
the counters are 10 and 1. -/
theorem C18_ingester_counts_witness :
    tenKeys.length < 2 ^ 64 ∧
    (ingesterWorker tenKeys []).lookup (str "sessId:abc") = some 10 ∧
    (ingesterWorker tenKeys []).lookup (str "sessId:xyz") = some 1 :=
  ⟨by decide!,
   ((C18_ingester_counts tenKeys).2.2.2 (by decide!) (str "sessId:abc") (by decide!)).trans
     (by decide!),
   ((C18_ingester_counts tenKeys).2.2.2 (by decide!) (str "sessId:xyz") (by decide!)).trans
     (by decide!)⟩

/-- The keys of the set built by `reportIncrements` from the keys returned. -/
theorem keys_foldl_mapSet (k : GoString) :
    ∀ (keys : List GoString) (init : throttledBucketsT),
      k ∈ (keys.foldl (fun m k1 => mapSet m k1 true) init).map Prod.fst
        ↔ k ∈ keys ∨ k ∈ init.map Prod.fst := by
  intro keys
  induction keys with
  | nil => intro init; simp
  | cons key rest ih =>
    intro init
    rw [List.foldl_cons, ih, ← lookup_isSome_iff k (mapSet init key true), lookup_mapSet,
      List.mem_cons]
    by_cases hk : k = key
    · simp [hk]
    · simp only [hk, if_false, false_or, lookup_isSome_iff]

/-- C19: after a tick of the synchroniser the counter map is a new empty map;
the throttled set has exactly the keys returned by the check-in when reporting
is enabled and the check-in succeeds, and is the empty set when the check-in
fails or reporting is disabled, in which case no request is throttled
whatever the throttled set was before. -/
theorem C19_synchroniser_tick (t : ThrottlingHandler) (enabled : Bool)
    (checkin : bucketBufferT → Option (List GoString)) :
    (t.synchroniserTick enabled checkin).bucketBuffer = [] ∧
    (∀ keys, enabled = true → checkin t.bucketBuffer = some keys →
      ∃ T, (t.synchroniserTick enabled checkin).throttledBuckets = some T ∧
        ∀ k, k ∈ T.map Prod.fst ↔ k ∈ keys) ∧
    ((enabled = false ∨ checkin t.bucketBuffer = none) →
      (t.synchroniserTick enabled checkin).throttledBuckets = some [] ∧
      ∀ bucks, (t.synchroniserTick enabled checkin).anyThrottled bucks = false) := by
  refine ⟨rfl, ?_, ?_⟩
  · intro keys hen hck
    refine ⟨keys.foldl (fun m k1 => mapSet m k1 true) [], ?_, ?_⟩
    · simp [ThrottlingHandler.synchroniserTick, reportIncrements, hen, hck]
    · intro k
      rw [keys_foldl_mapSet]
      simp
  · intro h
    have hset : (t.synchroniserTick enabled checkin).throttledBuckets = some [] := by
      rcases h with h | h
      · simp [ThrottlingHandler.synchroniserTick, reportIncrements, h]
      · cases enabled <;> simp [ThrottlingHandler.synchroniserTick, reportIncrements, h]
    refine ⟨hset, fun bucks => ?_⟩
    unfold ThrottlingHandler.anyThrottled
    rw [hset]
    simp

/-- C19 on a handler that throttles `sessId:abc`: after a failed tick the
request with session `abc` is not throttled; after a tick whose check-in
returns `sessId:abc` it is. -/
theorem C19_synchroniser_tick_witness :
    checkinFails abcThrottled.bucketBuffer = none ∧
    (abcThrottled.synchroniserTick true checkinFails).throttledBuckets = some [] ∧
    (abcThrottled.synchroniserTick true checkinFails).anyThrottled [str "sessId:abc"] = false ∧
    (abcThrottled.synchroniserTick true checkinAbc).anyThrottled [str "sessId:abc"] = true :=
  ⟨rfl,
   ((C19_synchroniser_tick abcThrottled true checkinFails).2.2 (Or.inr rfl)).1,
   ((C19_synchroniser_tick abcThrottled true checkinFails).2.2 (Or.inr rfl)).2 _,
   by decide!⟩

/-! ### AZ failover -/

/-- C20: after `failoverAZ(f)`: if the `Create` of the lock node succeeds, the
monitor is unhealthy with failure type `f` and its lock handle is the path
created; if the `Create` fails and the node read names this AZ, the monitor is
unhealthy with failure type `f` and its lock handle is the string returned with
the error (empty for the coordinator client: the lock is not held); if the
`Create` fails and the node cannot be read or names another AZ, `IsHealthy`
and `FailureType` are left as they were. -/
theorem C20_failoverAZ (s : StatusMonitor) (f : Failure) (now : Int) (locked read : ZkResult) :
    (locked.err = none →
      (s.failoverAZ f now locked read).IsHealthy = false ∧
      (s.failoverAZ f now locked read).FailureType = f ∧
      (s.failoverAZ f now locked read).lockHandle = locked.value) ∧
    (locked.err ≠ none → read.err = none → read.value = s.AZName →
      (s.failoverAZ f now locked read).IsHealthy = false ∧
      (s.failoverAZ f now locked read).FailureType = f ∧
      (s.failoverAZ f now locked read).lockHandle = locked.value) ∧
    (locked.err ≠ none → (read.err ≠ none ∨ read.value ≠ s.AZName) →
      (s.failoverAZ f now locked read).IsHealthy = s.IsHealthy ∧
      (s.failoverAZ f now locked read).FailureType = s.FailureType) := by
  refine ⟨?_, ?_, ?_⟩
  · intro h
    simp [StatusMonitor.failoverAZ, h]
  · intro h1 h2 h3
    cases hl : locked.err with
    | none => exact absurd hl h1
    | some e => simp [StatusMonitor.failoverAZ, hl, h2, h3]
  · intro h1 h2
    cases hl : locked.err with
    | none => exact absurd hl h1
    | some e =>
      cases hr : read.err with
      | some e2 => simp [StatusMonitor.failoverAZ, hl, hr]
      | none =>
        rcases h2 with h2 | h2
        · exact absurd hr h2
        · simp [StatusMonitor.failoverAZ, hl, hr, h2]

/-- C20 on the monitor of the tests: the failover succeeds when the node is
created (`TestAZFailoverAndRecover`), is adopted when the node names the AZ
`test` (`TestSecondaryInstanceSameAZFailover`), and is abandoned when it names
`test2` (`TestOnlyOnceAZFailover`). -/
theorem C20_failoverAZ_witness :
    (testMonitor.failoverAZ MonitoringFailure 5 ⟨lockPath, none⟩ ⟨[], none⟩).IsHealthy = false ∧
    (testMonitor.failoverAZ MonitoringFailure 5 ⟨lockPath, none⟩ ⟨[], none⟩).lockHandle
      = lockPath ∧
    (testMonitor.failoverAZ MonitoringFailure 5 ⟨[], some (str "Already exists")⟩
      ⟨str "test", none⟩).FailureType = MonitoringFailure ∧
    (testMonitor.failoverAZ MonitoringFailure 5 ⟨[], some (str "Already exists")⟩
      ⟨str "test2", none⟩).IsHealthy = true :=
  ⟨((C20_failoverAZ testMonitor MonitoringFailure 5 ⟨lockPath, none⟩ ⟨[], none⟩).1 rfl).1,
   ((C20_failoverAZ testMonitor MonitoringFailure 5 ⟨lockPath, none⟩ ⟨[], none⟩).1 rfl).2.2,
   ((C20_failoverAZ testMonitor MonitoringFailure 5 ⟨[], some (str "Already exists")⟩
      ⟨str "test", none⟩).2.1 (by simp) rfl (by decide!)).2.1,
   ((C20_failoverAZ testMonitor MonitoringFailure 5 ⟨[], some (str "Already exists")⟩
      ⟨str "test2", none⟩).2.2 (by simp) (Or.inr (by decide!))).1⟩

/-! ### Sessions -/

/-- The inner loop of `SessionId` returns the first non-empty extraction. -/
theorem sessionFromValues_eq (hdr : GoString) (e : GoString → GoString → GoString)
    (vals : List GoString) :
    sessionFromValues hdr e vals = firstNonEmpty (vals.map (e hdr)) := by
  induction vals with
  | nil => rfl
  | cons v rest ih =>
    simp only [sessionFromValues, List.map_cons, firstNonEmpty, ih]

/-- The first non-empty string of two lists. -/
theorem firstNonEmpty_append (l1 l2 : List GoString) :
    firstNonEmpty (l1 ++ l2) =
      if firstNonEmpty l1 ≠ [] then firstNonEmpty l1 else firstNonEmpty l2 := by
  induction l1 with
  | nil => simp [firstNonEmpty]
  | cons x rest ih =>
    simp only [List.cons_append, firstNonEmpty]
    by_cases hx : x = []
    · simp only [hx, ne_eq, not_true_eq_false, if_false]
      exact ih
    · simp only [ne_eq, hx, not_false_eq_true, if_true]

/-- The first non-empty string of a list of empty strings is empty. -/
theorem firstNonEmpty_eq_nil (l : List GoString) (h : ∀ x ∈ l, x = []) :
    firstNonEmpty l = [] := by
  induction l with
  | nil => rfl
  | cons x rest ih =>
    have hx : x = [] := h x (by simp)
    simp only [firstNonEmpty, hx, ne_eq, not_true_eq_false, if_false]
    exact ih (fun y hy => h y (List.mem_cons_of_mem _ hy))

/-- `SessionId` as the first non-empty candidate, the two headers in the order
in which the extractor map is visited. -/
theorem SessionId_eq (b : Bool) (req : Request) :
    SessionId b (some req) =
      firstNonEmpty (paramCandidates req ++
        (if b then [xApiTokenCandidate req, authorizationCandidate req]
         else [authorizationCandidate req, xApiTokenCandidate req])) := by
  have hx : sessionFromValues (str "X-Api-Token") extractXApiTokenHeader
      ((req.Header.lookup (str "X-Api-Token")).getD []) = xApiTokenCandidate req := by
    rw [sessionFromValues_eq]
    unfold xApiTokenCandidate
    congr 1
    exact List.map_id _
  have ha : sessionFromValues (str "Authorization") extractAuthorizationHeader
      ((req.Header.lookup (str "Authorization")).getD []) = authorizationCandidate req := by
    rw [sessionFromValues_eq]
    rfl
  unfold SessionId paramCandidates
  simp only [List.cons_append, List.nil_append, firstNonEmpty]
  cases b
  · simp only [headerExtractors, sessionFromHeaders, ha, hx, firstNonEmpty, Bool.false_eq_true,
      if_false]
  · simp only [headerExtractors, sessionFromHeaders, ha, hx, firstNonEmpty, if_true]

/-- A key that is not among the keys has no binding. -/
theorem lookup_eq_none_of_not_mem {V : Type} (k : GoString) :
    ∀ m : List (GoString × V), k ∉ m.map Prod.fst → m.lookup k = none := by
  intro m hk
  cases h : m.lookup k with
  | none => rfl
  | some v =>
    have : (m.lookup k).isSome = true := by rw [h]; rfl
    exact absurd ((lookup_isSome_iff k m).mp this) hk

/-- The values of a key after `copyValues`: those of the destination followed
by those of the source. -/
theorem lookup_copyValues (dst : Values) :
    ∀ (src : Values), DistinctKeys src → ∀ k,
      (copyValues dst src).lookup k =
        match src.lookup k with
        | some vs => some ((dst.lookup k).getD [] ++ vs)
        | none => dst.lookup k := by
  intro src
  induction src with
  | nil => intro _ k; rfl
  | cons p rest ih =>
    intro hnd k
    obtain ⟨k0, vs0⟩ := p
    have hnd' : k0 ∉ rest.map Prod.fst ∧ DistinctKeys rest := by
      simpa [DistinctKeys] using hnd
    have hstep : copyValues dst ((k0, vs0) :: rest)
        = mapSet (copyValues dst rest) k0 (((copyValues dst rest).lookup k0).getD [] ++ vs0) :=
      rfl
    rw [hstep, lookup_mapSet, List.lookup_cons]
    by_cases hk : k = k0
    · subst hk
      rw [if_pos rfl, ih hnd'.2 k, lookup_eq_none_of_not_mem k rest hnd'.1]
      simp
    · have hb : (k == k0) = false := by simpa using hk
      rw [if_neg hk, hb]
      exact ih hnd'.2 k

/-- The first value of a key after `copyValues`: that of the destination if it
has one, else that of the source. -/
theorem get_copyValues (dst src : Values) (hnd : DistinctKeys src) (k : GoString) :
    (copyValues dst src).Get k =
      if (dst.lookup k).getD [] ≠ [] then dst.Get k else src.Get k := by
  unfold Values.Get
  rw [lookup_copyValues dst src hnd k]
  cases hs : src.lookup k with
  | none =>
    cases hd : dst.lookup k with
    | none => simp
    | some l =>
      cases l with
      | nil => simp
      | cons x xs => simp
  | some vs =>
    cases hd : dst.lookup k with
    | none =>
      cases vs with
      | nil => simp
      | cons y ys => simp
    | some l =>
      cases l with
      | nil =>
        cases vs with
        | nil => simp
        | cons y ys => simp
      | cons x xs => simp

/-- The first value of a key that has no value is empty. -/
theorem get_eq_nil_of_lookup (v : Values) (k : GoString) (h : (v.lookup k).getD [] = []) :
    v.Get k = [] := by
  unfold Values.Get
  cases hl : v.lookup k with
  | none => rfl
  | some l =>
    rw [hl] at h
    simp only [Option.getD_some] at h
    rw [h]

/-- `SessionId` reads the query, the form and the two headers of the request
only. -/
theorem SessionId_congr (b : Bool) (r1 r2 : Request) (hq : r1.Query = r2.Query)
    (hf : r1.Form = r2.Form)
    (hx : r1.Header.lookup (str "X-Api-Token") = r2.Header.lookup (str "X-Api-Token"))
    (ha : r1.Header.lookup (str "Authorization") = r2.Header.lookup (str "Authorization")) :
    SessionId b (some r1) = SessionId b (some r2) := by
  rw [SessionId_eq, SessionId_eq]
  unfold paramCandidates xApiTokenCandidate authorizationCandidate
  rw [hq, hf, hx, ha]

/-- `ParseForm` keeps the query and the header, and fills an empty form with
the values of the body followed by those of the query. -/
theorem parseForm_form (r : Request) :
    r.ParseForm.1.Query = r.Query ∧ r.ParseForm.1.Header = r.Header ∧
    r.ParseForm.1.PostForm = some r.bodyValues ∧
    (r.Form = [] → r.ParseForm.1.Form = copyValues r.bodyValues r.Query) ∧
    (r.Form ≠ [] → r.ParseForm.1.Form = r.Form) := by
  have hpost : r.ParseForm.1.PostForm = some r.bodyValues := by
    simp only [Request.ParseForm, Request.bodyValues, parsePostForm]
    cases r.PostForm with
    | some pf => rfl
    | none =>
      by_cases hm : r.Method = str "POST" ∨ r.Method = str "PUT" ∨ r.Method = str "PATCH"
      · simp only [hm, if_true]
        cases r.Body <;> rfl
      · simp only [hm, if_false]
  refine ⟨rfl, rfl, hpost, ?_, ?_⟩
  · intro hf
    have h1 : r.ParseForm.1.Form
        = copyValues ((r.ParseForm.1.PostForm).getD []) r.Query := by
      simp only [Request.ParseForm, hf, if_true, Option.getD_some]
    rw [h1, hpost]
    rfl
  · intro hf
    simp only [Request.ParseForm, hf, if_false]

/-- C24 (counterexample): with both headers present and no parameter, a visit
of the extractor map that starts with `Authorization` returns the token of the
`Authorization` header, not the value of `X-Api-Token`. And for a POST request
whose body holds `session_id=b` and whose form was not parsed, the session id
is empty; it is `b` once `ParseForm` has run. -/
theorem C24_counterexample :
    paramCandidates bothHeadersRequest = [[], [], [], []] ∧
    xApiTokenCandidate bothHeadersRequest = str "abc" ∧
    SessionId false (some bothHeadersRequest) = str "def" ∧
    SessionId false (some bothHeadersRequest) ≠ xApiTokenCandidate bothHeadersRequest ∧
    postBodyOnlyRequest.bodyValues.Get (str "session_id") = str "b" ∧
    SessionId true (some postBodyOnlyRequest) = [] ∧
    SessionId false (some postBodyOnlyRequest) = [] ∧
    SessionId true (some postBodyOnlyRequest.ParseForm.1) = str "b" := by
  decide

/-- C24 (amended): `SessionId` returns the first non-empty value among query
`session_id`, query `api_token`, `session_id` and `api_token` of the form
`r.Form`, and then the two header candidates in the order in which the
extractor map is visited (`X-Api-Token` first or `Authorization` first); it is
empty when all candidates are empty and for a nil request. When at most one of
the two headers yields a value, the result is the first non-empty value in the
order of the statement for either visiting order. `SessionId` does not parse
the form: on a request whose form is empty the body is not read, and on the
request that `ParseForm` leaves the form candidates are the `session_id` and
`api_token` of the body. -/
theorem C24_session_sources (b : Bool) (req : Request) :
    SessionId b none = [] ∧
    SessionId b (some req) =
      firstNonEmpty (paramCandidates req ++
        (if b then [xApiTokenCandidate req, authorizationCandidate req]
         else [authorizationCandidate req, xApiTokenCandidate req])) ∧
    ((∀ x ∈ paramCandidates req, x = []) → xApiTokenCandidate req = [] →
      authorizationCandidate req = [] → SessionId b (some req) = []) ∧
    (xApiTokenCandidate req = [] ∨ authorizationCandidate req = [] →
      SessionId b (some req) =
        firstNonEmpty (paramCandidates req ++
          [xApiTokenCandidate req, authorizationCandidate req])) ∧
    (req.Form = [] →
      SessionId b (some req) =
        firstNonEmpty ([req.Query.Get (str "session_id"), req.Query.Get (str "api_token")] ++
          (if b then [xApiTokenCandidate req, authorizationCandidate req]
           else [authorizationCandidate req, xApiTokenCandidate req]))) ∧
    (req.Form = [] → DistinctKeys req.Query →
      SessionId b (some req.ParseForm.1) =
        firstNonEmpty ([req.Query.Get (str "session_id"), req.Query.Get (str "api_token"),
            req.bodyValues.Get (str "session_id"), req.bodyValues.Get (str "api_token")] ++
          (if b then [xApiTokenCandidate req, authorizationCandidate req]
           else [authorizationCandidate req, xApiTokenCandidate req]))) := by
  refine ⟨rfl, SessionId_eq b req, ?_, ?_, ?_, ?_⟩
  · intro hp hx ha
    rw [SessionId_eq]
    apply firstNonEmpty_eq_nil
    intro x hxm
    rcases List.mem_append.mp hxm with h | h
    · exact hp x h
    · cases b <;> simp only [Bool.false_eq_true, if_false, if_true, List.mem_cons,
        List.mem_singleton, List.not_mem_nil, or_false] at h <;> rcases h with h | h <;>
        simp only [h, hx, ha]
  · intro h
    rw [SessionId_eq]
    cases b
    · simp only [Bool.false_eq_true, if_false, firstNonEmpty_append]
      rcases h with h | h <;> simp [firstNonEmpty, h]
    · rfl
  · intro hf
    rw [SessionId_eq]
    have hg : ∀ k, req.Form.Get k = [] := by
      intro k
      rw [hf]
      rfl
    simp only [paramCandidates, hg, List.cons_append, List.nil_append, firstNonEmpty, ne_eq,
      not_true_eq_false, if_false]
  · intro hf hnd
    obtain ⟨hq, hh, _, hform, _⟩ := parseForm_form req
    rw [SessionId_eq]
    have hx : xApiTokenCandidate req.ParseForm.1 = xApiTokenCandidate req := by
      unfold xApiTokenCandidate
      rw [hh]
    have ha : authorizationCandidate req.ParseForm.1 = authorizationCandidate req := by
      unfold authorizationCandidate
      rw [hh]
    rw [hx, ha]
    simp only [paramCandidates, hq, hform hf, get_copyValues _ _ hnd, List.cons_append,
      List.nil_append]
    by_cases c1 : (req.bodyValues.lookup (str "session_id")).getD [] = []
    · have p1 := get_eq_nil_of_lookup _ _ c1
      by_cases c2 : (req.bodyValues.lookup (str "api_token")).getD [] = []
      · have p2 := get_eq_nil_of_lookup _ _ c2
        by_cases a1 : req.Query.Get (str "session_id") = [] <;>
          by_cases a2 : req.Query.Get (str "api_token") = [] <;>
          simp [firstNonEmpty, c1, c2, p1, p2, a1, a2]
      · by_cases a1 : req.Query.Get (str "session_id") = [] <;>
          by_cases a2 : req.Query.Get (str "api_token") = [] <;>
          simp [firstNonEmpty, c1, c2, p1, a1, a2]
    · by_cases c2 : (req.bodyValues.lookup (str "api_token")).getD [] = []
      · have p2 := get_eq_nil_of_lookup _ _ c2
        by_cases a1 : req.Query.Get (str "session_id") = [] <;>
          by_cases a2 : req.Query.Get (str "api_token") = [] <;>
          simp [firstNonEmpty, c1, c2, p2, a1, a2]
      · simp [firstNonEmpty, c1, c2]

/-- C24 (witness): the request with the single header `X-Api-Token: abc`, and
the POST request with the body `session_id=b` once its form is parsed. -/
theorem C24_session_sources_witness :
    SessionId false
      (some { plainRequest with Header := [(str "X-Api-Token", [str "abc"])] }) =
        str "abc" ∧
    postBodyOnlyRequest.Form = [] ∧ DistinctKeys postBodyOnlyRequest.Query ∧
    SessionId true (some postBodyOnlyRequest.ParseForm.1) = str "b" :=
  ⟨((C24_session_sources false
      { plainRequest with Header := [(str "X-Api-Token", [str "abc"])] }).2.2.2.1
        (Or.inr (by decide))).trans (by decide),
   rfl, List.nodup_nil,
   ((C24_session_sources true postBodyOnlyRequest).2.2.2.2.2 rfl List.nodup_nil).trans
     (by decide)⟩

/-- The space-separated parts of a string are the pieces of `strings.Split`. -/
theorem spaceParts_iff (v : GoString) (parts : List GoString) :
    SpaceParts v parts ↔ parts = Split v 32 := by
  constructor
  · rintro ⟨hne, hfree, hjoin⟩
    rw [← hjoin, Split_intercalate 32 parts hne hfree]
  · intro h
    subst h
    exact ⟨Split_ne_nil v 32, not_mem_of_mem_Split 32 v, intercalate_Split 32 v⟩

/-- A non-empty result of `extractAuthorizationHeader` is the credential of a
value of scheme `token`. -/
theorem extractAuthorizationHeader_eq_iff (key v cred : GoString) (hc : cred ≠ []) :
    extractAuthorizationHeader key v = cred ↔ TokenCredential v cred := by
  unfold extractAuthorizationHeader TokenCredential
  simp only [spaceParts_iff]
  constructor
  · intro h
    split at h
    · rename_i p0 p1 more hp
      by_cases h0 : p0 = authorizationScheme
      · simp only [h0, ne_eq, not_true_eq_false, if_false] at h
        exact ⟨more, by rw [hp, h0, h]; rfl⟩
      · simp only [ne_eq, h0, not_false_eq_true, if_true] at h
        exact absurd h.symm hc
    · exact absurd h.symm hc
  · rintro ⟨more, hm⟩
    rw [← hm]
    simp [authorizationScheme]

/-- An empty result of `extractAuthorizationHeader`: the value has no non-empty
credential of scheme `token`. -/
theorem extractAuthorizationHeader_eq_nil_iff (key v : GoString) :
    extractAuthorizationHeader key v = [] ↔ ∀ cred, TokenCredential v cred → cred = [] := by
  constructor
  · intro h cred hcred
    by_contra hne
    rw [← extractAuthorizationHeader_eq_iff key v cred hne, h] at hcred
    exact hne hcred.symm
  · intro h
    by_contra hne
    exact hne (h _ ((extractAuthorizationHeader_eq_iff key v _ hne).mp rfl))

/-- The first non-empty string skips a run of empty strings. -/
theorem firstNonEmpty_skip (pre : List GoString) (x : GoString) (post : List GoString)
    (hpre : ∀ y ∈ pre, y = []) (hx : x ≠ []) : firstNonEmpty (pre ++ x :: post) = x := by
  rw [firstNonEmpty_append, firstNonEmpty_eq_nil pre hpre]
  simp [firstNonEmpty, hx]

/-- C25 (counterexample): the first value of scheme `token` is `token  abc`,
whose parts are `token`, the empty string and `abc`; the session id is not its
second part but the credential `def` of the next value. -/
theorem C25_counterexample :
    Split (str "token  abc") 32 = [str "token", [], str "abc"] ∧
    paramCandidates twoSpacesRequest = [[], [], [], []] ∧
    xApiTokenCandidate twoSpacesRequest = [] ∧
    SessionId true (some twoSpacesRequest) = str "def" ∧
    SessionId false (some twoSpacesRequest) = str "def" := by
  decide

/-- C25 (amended): on a request whose parameters and `X-Api-Token` header
yield nothing, `SessionId` returns the credential of the first `Authorization`
value whose scheme is `token` and whose credential is non-empty (values of
another scheme, with fewer than two parts or with an empty second part are
skipped), and the empty string when there is no such value. -/
theorem C25_authorization_credential (b : Bool) (req : Request) (vals : List GoString)
    (hp : ∀ x ∈ paramCandidates req, x = [])
    (hx : xApiTokenCandidate req = [])
    (hv : (req.Header.lookup (str "Authorization")).getD [] = vals) :
    (∀ pre v post cred, vals = pre ++ v :: post →
      (∀ w ∈ pre, ∀ c, TokenCredential w c → c = []) →
      TokenCredential v cred → cred ≠ [] → SessionId b (some req) = cred) ∧
    ((∀ w ∈ vals, ∀ c, TokenCredential w c → c = []) → SessionId b (some req) = []) := by
  have hs : SessionId b (some req) = authorizationCandidate req := by
    rw [SessionId_eq, firstNonEmpty_append, firstNonEmpty_eq_nil _ hp]
    cases b <;> simp [firstNonEmpty, hx]
  rw [hs]
  unfold authorizationCandidate
  rw [hv]
  constructor
  · intro pre v post cred hvals hpre hcred hne
    rw [hvals, List.map_append, List.map_cons]
    have hv1 : extractAuthorizationHeader (str "Authorization") v = cred :=
      (extractAuthorizationHeader_eq_iff _ v cred hne).mpr hcred
    rw [hv1]
    apply firstNonEmpty_skip _ _ _ _ hne
    intro y hy
    obtain ⟨w, hw, rfl⟩ := List.mem_map.mp hy
    exact (extractAuthorizationHeader_eq_nil_iff _ w).mpr (hpre w hw)
  · intro hall
    apply firstNonEmpty_eq_nil
    intro y hy
    obtain ⟨w, hw, rfl⟩ := List.mem_map.mp hy
    exact (extractAuthorizationHeader_eq_nil_iff _ w).mpr (hall w hw)

/-- The parts of `token def`. -/
theorem tokenCredential_def : TokenCredential (str "token def") (str "def") :=
  ⟨[], by decide, by decide, by decide⟩

/-- The value `token  abc` has no non-empty credential. -/
theorem tokenCredential_twoSpaces (c : GoString)
    (h : TokenCredential (str "token  abc") c) : c = [] := by
  obtain ⟨more, hm⟩ := h
  rw [spaceParts_iff] at hm
  have h2 : Split (str "token  abc") 32 = [str "token", [], str "abc"] := by decide
  rw [h2] at hm
  simp only [List.cons.injEq] at hm
  exact hm.2.1

/-- C25 (witness): the values `token  abc`, `token def` give `def`. -/
theorem C25_authorization_credential_witness :
    SessionId true (some twoSpacesRequest) = str "def" :=
  (C25_authorization_credential true twoSpacesRequest [str "token  abc", str "token def"]
    (by decide) (by decide) (by decide)).1 [str "token  abc"] (str "token def") [] (str "def")
    rfl (by
      intro w hw c hc
      rw [List.mem_singleton.mp hw] at hc
      exact tokenCredential_twoSpaces c hc)
    tokenCredential_def (by decide)

/-- C29: a request with the header `X-Hailo-Route: h1` and a HOB whose mode is
`h2`: `Route` returns the synthesised ProxyToH1 rule, and `GetHobMode` returns
`h2`, the mode of the HOB, not `h1`. -/
theorem C29_forced_mode_disagrees :
    lowerH1Router.extractor.Header (str "X-Hailo-Route") = str "h1" ∧
    (lowerH1Router.Route zeroRand).1 = some ⟨none, ActionProxyToH1, none, 0⟩ ∧
    lowerH1Router.GetHobMode = str "h2" ∧
    lowerH1Router.GetHobMode ≠ str "h1" := by
  decide

/-! ### Routing and the order of the rules -/

/-- The outcome of a rule that samples deterministically is the same in every
state of the random source. -/
theorem Matches_det (r : Option Rule) (ext : Extractor) (h : DeterministicRule r)
    (g g1 : Rand) : (Rule.Matches r ext g).1 = (Rule.Matches r ext g1).1 := by
  cases r with
  | none => rfl
  | some rule =>
    cases hm : rule.Match with
    | none => simp only [Rule.Matches, hm]
    | some m =>
      simp only [Rule.Matches, hm]
      rw [Bool.eq_iff_iff, matches_fst, matches_fst,
        sample_deterministic m ext (h rule m rfl hm) g g1]

/-- Over rules that sample deterministically, the loop of `Route` finds the
first rule that matches. -/
theorem routeLoop_map_some (ext : Extractor) (g0 : Rand) :
    ∀ (l : List Rule) (g : Rand), (∀ r ∈ l, DeterministicRule (some r)) →
      (routeLoop ext (l.map some) g).1 =
        l.find? (fun r => (Rule.Matches (some r) ext g0).1) := by
  intro l
  induction l with
  | nil => intro g _; rfl
  | cons r rest ih =>
    intro g hdet
    have hr : (Rule.Matches (some r) ext g).1 = (Rule.Matches (some r) ext g0).1 :=
      Matches_det _ ext (hdet r (by simp)) g g0
    simp only [List.map_cons, routeLoop, List.find?_cons]
    cases hres : (Rule.Matches (some r) ext g0).1
    · rw [hres] at hr
      simp only [hr, Bool.false_eq_true, if_false]
      exact ih _ (fun x hx => hdet x (List.mem_cons_of_mem _ hx))
    · rw [hres] at hr
      simp only [hr, if_true]

/-- In a sequence in decreasing order of a key, the first element with a
property has the greatest key among the elements with the property. -/
theorem find_key_max {α K : Type} [LinearOrder K] (p : α → Bool) (key : α → K) :
    ∀ (l : List α), List.Pairwise (fun a b => key b ≤ key a) l →
      ∀ a b, l.find? p = some a → b ∈ l → p b = true → key b ≤ key a := by
  intro l
  induction l with
  | nil => intro _ a b h; simp at h
  | cons x rest ih =>
    intro hpw a b hfind hb hpb
    rw [List.pairwise_cons] at hpw
    rw [List.find?_cons] at hfind
    cases hpx : p x
    · rw [hpx] at hfind
      rcases List.mem_cons.mp hb with h | h
      · rw [h, hpx] at hpb
        exact absurd hpb (by simp)
      · exact ih hpw.2 a b hfind h hpb
    · rw [hpx] at hfind
      simp only [Option.some.injEq] at hfind
      subst hfind
      rcases List.mem_cons.mp hb with h | h
      · rw [h]
      · exact hpw.1 b h

/-- Two rearrangements of the same elements in decreasing order of a key: the
first elements with a property agree on every attribute on which elements of
equal key with the property agree. -/
theorem find_perm_sorted {α K β : Type} [LinearOrder K] (p : α → Bool) (key : α → K)
    (act : α → β) (l1 l2 : List α) (hperm : List.Perm l1 l2)
    (h1 : List.Pairwise (fun a b => key b ≤ key a) l1)
    (h2 : List.Pairwise (fun a b => key b ≤ key a) l2)
    (htie : ∀ a b, a ∈ l1 → b ∈ l1 → p a = true → p b = true → key a = key b →
      act a = act b) :
    (l1.find? p).map act = (l2.find? p).map act := by
  cases hf1 : l1.find? p with
  | none =>
    have hnone : l2.find? p = none := by
      rw [List.find?_eq_none] at hf1 ⊢
      intro x hx
      exact hf1 x (hperm.mem_iff.mpr hx)
    rw [hnone]
  | some a =>
    have ha : a ∈ l1 := List.mem_of_find?_eq_some hf1
    have hpa : p a = true := List.find?_some hf1
    cases hf2 : l2.find? p with
    | none =>
      rw [List.find?_eq_none] at hf2
      exact absurd hpa (hf2 a (hperm.mem_iff.mp ha))
    | some b =>
      have hb : b ∈ l2 := List.mem_of_find?_eq_some hf2
      have hpb : p b = true := List.find?_some hf2
      have hba : key b ≤ key a :=
        find_key_max p key l1 h1 a b hf1 (hperm.mem_iff.mpr hb) hpb
      have hab : key a ≤ key b :=
        find_key_max p key l2 h2 b a hf2 (hperm.mem_iff.mp ha) hpa
      simp only [Option.map_some']
      rw [htie a b ha (hperm.mem_iff.mpr hb) hpa hpb (le_antisymm hab hba)]

/-- The rules of two rearrangements of a slice without nil rule are
rearrangements of each other. -/
theorem perm_of_map_some (l1 l2 : List Rule)
    (h : List.Perm (l1.map some) (l2.map some)) : List.Perm l1 l2 := by
  have := h.filterMap id
  simpa [List.filterMap_map] using this

/-- Over rules that sample deterministically, the loop of `Route` returns the
same rule in every state of the random source. -/
theorem routeLoop_det (ext : Extractor) :
    ∀ (rules : SortedRules) (g g1 : Rand), (∀ r ∈ rules, DeterministicRule r) →
      (routeLoop ext rules g).1 = (routeLoop ext rules g1).1 := by
  intro rules
  induction rules with
  | nil => intro g g1 _; rfl
  | cons r rest ih =>
    intro g g1 hdet
    have hr : (Rule.Matches r ext g).1 = (Rule.Matches r ext g1).1 :=
      Matches_det _ ext (hdet r (by simp)) g g1
    simp only [routeLoop]
    cases hres : (Rule.Matches r ext g1).1
    · rw [hres] at hr
      simp only [hr, Bool.false_eq_true, if_false]
      exact ih _ _ (fun x hx => hdet x (List.mem_cons_of_mem _ hx))
    · rw [hres] at hr
      simp only [hr, if_true]

/-- Two rearrangements of fewer than two elements are equal. -/
theorem perm_eq_of_length_lt_two {α : Type} (l1 l2 : List α) (h : List.Perm l1 l2)
    (hlen : l1.length < 2) : l1 = l2 := by
  match l1, hlen, h with
  | [], _, h => exact (List.nil_perm.mp h).symm
  | [x], _, h => exact List.singleton_perm.mp h

/-- The loop of `Route` over two sorted sequences of the same rule set returns
rules of the same action. -/
theorem routeLoop_sorted_action
    (sort1 sort2 : (Rule → Rule → Bool) → List Rule → List Rule)
    (hs1 : SortContract sort1) (hs2 : SortContract sort2)
    (rs1 rs2 : Rules) (hperm : List.Perm rs1 rs2) (ext : Extractor)
    (hdet : ∀ p ∈ rs1, DeterministicRule p.2)
    (htie : ∀ (a b : Rule) (g ga : Rand),
      some a ∈ rs1.map Prod.snd → some b ∈ rs1.map Prod.snd →
      (Rule.Matches (some a) ext g).1 = true → (Rule.Matches (some b) ext ga).1 = true →
      ruleKey a = ruleKey b → a.Action = b.Action)
    (out1 out2 : SortedRules)
    (ho1 : Rules.Sort sort1 rs1 = some out1) (ho2 : Rules.Sort sort2 rs2 = some out2)
    (g1 g2 : Rand) :
    (routeLoop ext out1 g1).1.map Rule.Action = (routeLoop ext out2 g2).1.map Rule.Action := by
  have hpm : List.Perm (rs1.map Prod.snd) (rs2.map Prod.snd) := hperm.map _
  have hdet1 : ∀ r ∈ rs1.map Prod.snd, DeterministicRule r := by
    intro r hr
    obtain ⟨p, hp, rfl⟩ := List.mem_map.mp hr
    exact hdet p hp
  unfold Rules.Sort at ho1 ho2
  by_cases hlen : (rs1.map Prod.snd).length < 2
  · have hlen2 : (rs2.map Prod.snd).length < 2 := by rw [← hpm.length_eq]; exact hlen
    simp only [hlen, if_true, Option.some.injEq] at ho1
    simp only [hlen2, if_true, Option.some.injEq] at ho2
    rw [← ho1, ← ho2, ← perm_eq_of_length_lt_two _ _ hpm hlen,
      routeLoop_det ext _ g1 g2 hdet1]
  · have hlen2 : ¬ (rs2.map Prod.snd).length < 2 := by rw [← hpm.length_eq]; exact hlen
    simp only [hlen, if_false] at ho1
    simp only [hlen2, if_false] at ho2
    cases hn1 : nonNil (rs1.map Prod.snd) with
    | none => rw [hn1] at ho1; exact absurd ho1 (by simp)
    | some l1 =>
      cases hn2 : nonNil (rs2.map Prod.snd) with
      | none => rw [hn2] at ho2; exact absurd ho2 (by simp)
      | some l2 =>
        rw [hn1] at ho1
        rw [hn2] at ho2
        simp only [Option.some.injEq] at ho1 ho2
        have e1 := nonNil_eq_some _ _ hn1
        have e2 := nonNil_eq_some _ _ hn2
        have hl : List.Perm l1 l2 := perm_of_map_some l1 l2 (by rw [← e1, ← e2]; exact hpm)
        obtain ⟨hp1, hw1⟩ := hs1 ruleLess l1 ruleLess_asymm ruleLess_false_trans
        obtain ⟨hp2, hw2⟩ := hs2 ruleLess l2 ruleLess_asymm ruleLess_false_trans
        have hmem1 : ∀ r ∈ sort1 ruleLess l1, some r ∈ rs1.map Prod.snd := by
          intro r hr
          rw [e1]
          exact List.mem_map_of_mem _ (hp1.mem_iff.mp hr)
        have hmem2 : ∀ r ∈ sort2 ruleLess l2, some r ∈ rs1.map Prod.snd := by
          intro r hr
          rw [e1]
          exact List.mem_map_of_mem _ (hl.mem_iff.mpr (hp2.mem_iff.mp hr))
        rw [← ho1, ← ho2,
          routeLoop_map_some ext g1 _ g1 (fun r hr => hdet1 _ (hmem1 r hr)),
          routeLoop_map_some ext g1 _ g2 (fun r hr => hdet1 _ (hmem2 r hr))]
        apply find_perm_sorted _ ruleKey Rule.Action _ _ ((hp1.trans hl).trans hp2.symm)
        · exact hw1.imp (fun h => (ruleLess_eq_false_iff _ _).mp h)
        · exact hw2.imp (fun h => (ruleLess_eq_false_iff _ _).mp h)
        · intro a b ha hb hpa hpb hkey
          exact htie a b g1 g1 (hmem1 a ha) (hmem1 b hb) hpa hpb hkey

/-- C30 (counterexample): a map of two rules of equal weight and specificity
that sample by the hash of the customer and both match the request
`/v1/foo/bar`; the two iteration orders of the map are sorted into different
sequences, and `Route` returns ProxyToH1 for one and SendToH2 for the other. -/
theorem C30_counterexample :
    ruleKey v1Rule = ruleKey v1FooRule ∧
    DeterministicRule (some v1Rule) ∧ DeterministicRule (some v1FooRule) ∧
    Rules.Sort insertionSortFn pathTieRules = some [some v1Rule, some v1FooRule] ∧
    Rules.Sort insertionSortFn pathTieRules.reverse = some [some v1FooRule, some v1Rule] ∧
    (RuleRouter.Route ⟨lonRequest, { testConfig with rules := [some v1Rule, some v1FooRule] }⟩
      zeroRand).1.map Rule.Action = some ActionProxyToH1 ∧
    (RuleRouter.Route ⟨lonRequest, { testConfig with rules := [some v1FooRule, some v1Rule] }⟩
      zeroRand).1.map Rule.Action = some ActionSendToH2 := by
  refine ⟨by decide!, ?_, ?_, by decide!, by decide!, by decide!, by decide!⟩
  · intro rule m hr hm
    cases hr
    cases hm
    exact Or.inl (Or.inl rfl)
  · intro rule m hr hm
    cases hr
    cases hm
    exact Or.inl (Or.inl rfl)

/-- C30 (amended): for a rule set whose rules all sample deterministically and
in which any two rules that match the request and have equal
`(Weight, Specificity)` have the same Action, the Action of the rule that
`Route` returns (and whether it returns a rule) is the same for every sequence
that `Rules.Sort` produces from the set: for either iteration order of the
map, for every sort that meets the contract of `sort.Sort`, and in every state
of the random source. -/
theorem C30_route_action_order_independent
    (sort1 sort2 : (Rule → Rule → Bool) → List Rule → List Rule)
    (hs1 : SortContract sort1) (hs2 : SortContract sort2)
    (rs1 rs2 : Rules) (hperm : List.Perm rs1 rs2) (ext : Extractor) (cfg : loadedCpConfig)
    (hdet : ∀ p ∈ rs1, DeterministicRule p.2)
    (htie : ∀ (a b : Rule) (g ga : Rand),
      some a ∈ rs1.map Prod.snd → some b ∈ rs1.map Prod.snd →
      (Rule.Matches (some a) ext g).1 = true → (Rule.Matches (some b) ext ga).1 = true →
      ruleKey a = ruleKey b → a.Action = b.Action)
    (out1 out2 : SortedRules)
    (ho1 : Rules.Sort sort1 rs1 = some out1) (ho2 : Rules.Sort sort2 rs2 = some out2)
    (g1 g2 : Rand) :
    (RuleRouter.Route ⟨ext, { cfg with rules := out1 }⟩ g1).1.map Rule.Action =
      (RuleRouter.Route ⟨ext, { cfg with rules := out2 }⟩ g2).1.map Rule.Action := by
  unfold RuleRouter.Route
  simp only []
  cases hf : (if (ext.Header (str "X-Hailo-Route")).length > 0 then
      RuleRouter.forceRoute ⟨ext, { cfg with rules := out1 }⟩ (ext.Header (str "X-Hailo-Route"))
      else none) with
  | some rule =>
    have hf2 : (if (ext.Header (str "X-Hailo-Route")).length > 0 then
        RuleRouter.forceRoute ⟨ext, { cfg with rules := out2 }⟩
          (ext.Header (str "X-Hailo-Route")) else none) = some rule := hf
    rw [hf2]
  | none =>
    have hf2 : (if (ext.Header (str "X-Hailo-Route")).length > 0 then
        RuleRouter.forceRoute ⟨ext, { cfg with rules := out2 }⟩
          (ext.Header (str "X-Hailo-Route")) else none) = none := hf
    rw [hf2]
    exact routeLoop_sorted_action sort1 sort2 hs1 hs2 rs1 rs2 hperm ext hdet htie out1 out2
      ho1 ho2 g1 g2

/-- C30 (witness): two rules of equal key and equal action that both match;
the two iteration orders are sorted into different sequences, and the action
routed to is the same. -/
theorem C30_route_action_order_independent_witness :
    Rules.Sort insertionSortFn sameActionRules = some [some v1Rule, some v1FooH1Rule] ∧
    Rules.Sort insertionSortFn sameActionRules.reverse =
      some [some v1FooH1Rule, some v1Rule] ∧
    (RuleRouter.Route
        ⟨lonRequest, { testConfig with rules := [some v1Rule, some v1FooH1Rule] }⟩
        zeroRand).1.map Rule.Action =
      (RuleRouter.Route
        ⟨lonRequest, { testConfig with rules := [some v1FooH1Rule, some v1Rule] }⟩
        zeroRand).1.map Rule.Action :=
  ⟨by decide!, by decide!,
   C30_route_action_order_independent insertionSortFn insertionSortFn
    insertionSortFn_contract insertionSortFn_contract sameActionRules sameActionRules.reverse
    (List.reverse_perm _).symm lonRequest testConfig
    (by
      intro p hp rule m hr hm
      simp only [sameActionRules, List.mem_cons, List.mem_singleton, List.not_mem_nil,
        or_false] at hp
      rcases hp with rfl | rfl <;>
        · cases hr
          cases hm
          exact Or.inr (by decide!))
    (by
      intro a b _ _ ha hb _ _ _
      simp only [sameActionRules, List.map_cons, List.map_nil, List.mem_cons,
        Option.some.injEq, List.mem_singleton, List.not_mem_nil, or_false] at ha hb
      rcases ha with rfl | rfl <;> rcases hb with rfl | rfl <;> rfl)
    [some v1Rule, some v1FooH1Rule] [some v1FooH1Rule, some v1Rule]
    (by decide!) (by decide!) zeroRand zeroRand⟩

/-! ### Extractor -/

/-- The loop over parsed values succeeds, and sets each key to its first
value. -/
theorem setFirstValues_spec (ev : List (GoString × GoString)) :
    ∀ (vs : Values), NoEmptyValues vs →
      ∃ out, setFirstValues ev vs = some out ∧
        ∀ k, out.lookup k =
          match vs.lookup k with
          | some l => some (l.headD [])
          | none => ev.lookup k := by
  intro vs
  induction vs with
  | nil => intro _; exact ⟨ev, rfl, fun k => rfl⟩
  | cons p rest ih =>
    intro hwf
    obtain ⟨k0, l⟩ := p
    obtain ⟨acc, hacc, hlook⟩ := ih (fun q hq => hwf q (List.mem_cons_of_mem _ hq))
    have hl : l ≠ [] := hwf (k0, l) (by simp)
    obtain ⟨v, tl, rfl⟩ := List.exists_cons_of_ne_nil hl
    refine ⟨mapSet acc k0 v, by simp only [setFirstValues, hacc], ?_⟩
    intro k
    rw [lookup_mapSet, List.lookup_cons]
    by_cases hk : k = k0
    · subst hk
      simp
    · have hb : (k == k0) = false := by simpa using hk
      rw [if_neg hk, hb]
      exact hlook k

/-- The post form that `ParseForm` leaves has no key without value. -/
theorem parseForm_postForm (r : Request) (hwf : r.Parsed) :
    ∃ pf, r.ParseForm.1.PostForm = some pf ∧ NoEmptyValues pf ∧
      r.ParseForm.1.Host = r.Host ∧ r.ParseForm.1.Query = r.Query := by
  obtain ⟨_, hpf, hbody⟩ := hwf
  have hnil : NoEmptyValues [] := fun p h => absurd h (List.not_mem_nil _)
  suffices h : ∃ pf, r.ParseForm.1.PostForm = some pf ∧ NoEmptyValues pf by
    obtain ⟨pf, h1, h2⟩ := h
    exact ⟨pf, h1, h2, rfl, rfl⟩
  simp only [Request.ParseForm]
  cases hp : r.PostForm with
  | some pf => exact ⟨pf, rfl, hpf pf hp⟩
  | none =>
    by_cases hm : r.Method = str "POST" ∨ r.Method = str "PUT" ∨ r.Method = str "PATCH"
    · simp only [hm, if_true]
      cases hb : r.Body with
      | none => exact ⟨[], by simp only [parsePostForm, hb], hnil⟩
      | some b => exact ⟨b.form, by simp only [parsePostForm, hb], hbody b hb⟩
    · simp only [hm, if_false]
      exact ⟨[], rfl, hnil⟩

/-- The first value that the first loop of the extraction leaves for a key is
the first value of the key. -/
theorem getD_first_eq_get (v : Values) (k : GoString) :
    (match v.lookup k with
      | some l => some (l.headD [])
      | none => (none : Option GoString)).getD [] = v.Get k := by
  unfold Values.Get
  cases v.lookup k with
  | none => rfl
  | some l => cases l <;> rfl

/-- Setting the content type changes nothing that `ParseForm` or `SessionId`
reads. -/
theorem setFormContentType_spec (r : Request) :
    (setFormContentType r).ParseForm.2 = r.ParseForm.2 ∧
    (setFormContentType r).ParseForm.1.PostForm = r.ParseForm.1.PostForm ∧
    (setFormContentType r).ParseForm.1.Form = r.ParseForm.1.Form ∧
    (setFormContentType r).ParseForm.1.Query = r.Query ∧
    (setFormContentType r).ParseForm.1.Host = r.Host ∧
    (setFormContentType r).ParseForm.1.Header.lookup (str "X-Api-Token")
      = r.Header.lookup (str "X-Api-Token") ∧
    (setFormContentType r).ParseForm.1.Header.lookup (str "Authorization")
      = r.Header.lookup (str "Authorization") := by
  unfold setFormContentType
  split
  · refine ⟨rfl, rfl, rfl, rfl, rfl, ?_, ?_⟩
    · show (r.Header.Set (str "Content-Type") _).lookup (str "X-Api-Token") = _
      unfold Header.Set
      rw [lookup_mapSet, if_neg (by decide)]
    · show (r.Header.Set (str "Content-Type") _).lookup (str "Authorization") = _
      unfold Header.Set
      rw [lookup_mapSet, if_neg (by decide)]
  · exact ⟨rfl, rfl, rfl, rfl, rfl, rfl, rfl⟩

/-- The extraction of a request as the library hands it over: it returns;
host and query of the request are kept; the extracted value of a name is the
parameter of the request, except that `session_id`, when the body can be used,
is the session id of the request with its form parsed. -/
theorem doExtraction_values (b : Bool) (r : Request) (hwf : r.Parsed) :
    ∃ r1 ev, extractor.doExtraction b ⟨some r, none⟩ = some ⟨some r1, some ev⟩ ∧
      r1.Host = r.Host ∧ r1.Query = r.Query ∧
      (∀ name, name ≠ str "session_id" ∨ r.extractionStops = true →
        (ev.lookup name).getD [] = r.param name) ∧
      (r.extractionStops = false →
        (ev.lookup (str "session_id")).getD [] = SessionId b (some r.ParseForm.1)) := by
  obtain ⟨ev, hev, hlook⟩ := setFirstValues_spec [] r.Query hwf.1
  have hquery : ∀ name, (ev.lookup name).getD [] = r.Query.Get name := by
    intro name
    rw [hlook name]
    exact getD_first_eq_get r.Query name
  have hstopped : r.extractionStops = true → ∀ name, r.param name = r.Query.Get name := by
    intro hs name
    simp [Request.param, hs]
  obtain ⟨hfix2, hfixpf, hfixform, hfixq, hfixh, hfixx, hfixa⟩ := setFormContentType_spec r
  obtain ⟨_, _, hpost, _, _⟩ := parseForm_form r
  simp only [extractor.doExtraction, hev]
  by_cases hread : r.drainFails = true
  · have hs : r.extractionStops = true := by
      simp only [Request.extractionStops, hread, Bool.true_or]
    simp only [hread, if_true]
    refine ⟨_, _, rfl, rfl, rfl, ?_, ?_⟩
    · intro name _
      rw [hquery, hstopped hs]
    · intro hns
      rw [hs] at hns
      exact absurd hns (by decide)
  · have hread' : r.drainFails = false := by simpa using hread
    simp only [hread', Bool.false_eq_true, if_false]
    by_cases hperr : r.ParseForm.2 = true
    · have hs : r.extractionStops = true := by
        simp only [Request.extractionStops, hperr, Bool.or_true]
      simp only [hfix2, hperr, if_true]
      refine ⟨_, _, rfl, hfixh, hfixq, ?_, ?_⟩
      · intro name _
        rw [hquery, hstopped hs]
      · intro hns
        rw [hs] at hns
        exact absurd hns (by decide)
    · have hperr' : r.ParseForm.2 = false := by simpa using hperr
      have hs : r.extractionStops = false := by
        simp only [Request.extractionStops, hread', hperr', Bool.or_self]
      have hbv : NoEmptyValues r.bodyValues := by
        obtain ⟨pf, hpf, hne, _, _⟩ := parseForm_postForm r hwf
        rw [hpost] at hpf
        cases hpf
        exact hne
      obtain ⟨ev2, hev2, hlook2⟩ := setFirstValues_spec ev r.bodyValues hbv
      simp only [hfix2, hperr', Bool.false_eq_true, if_false, hfixpf, hpost, Option.getD_some,
        hev2]
      refine ⟨_, _, rfl, hfixh, hfixq, ?_, ?_⟩
      · intro name hname
        have hn : name ≠ str "session_id" := by
          rcases hname with h | h
          · exact h
          · rw [hs] at h
            exact absurd h (by decide)
        rw [lookup_mapSet, if_neg hn, hlook2 name]
        simp only [Request.param, hs, true_and]
        cases hb : r.bodyValues.lookup name with
        | none =>
          simp only [Option.isSome_none, Bool.false_eq_true, if_false]
          exact hquery name
        | some l =>
          simp only [Option.isSome_some, if_true, Values.Get, hb]
          cases l <;> rfl
      · intro _
        rw [lookup_mapSet, if_pos rfl]
        simp only [Option.getD_some]
        exact SessionId_congr b _ _ hfixq hfixform hfixx hfixa

/-- `Value` on an extractor that has not extracted yet, over a request as the
library hands it over: it returns the extracted values, which are the
parameters of the request (for `session_id`, when the body can be used, the
session id of the request with its form parsed). -/
theorem Value_fresh (b : Bool) (r : Request) (hwf : r.Parsed) :
    ∃ r1 ev, r1.Host = r.Host ∧ r1.Query = r.Query ∧
      (∀ name, extractor.Value b ⟨some r, none⟩ name =
        some ((ev.lookup name).getD [], ⟨some r1, some ev⟩)) ∧
      (∀ name, name ≠ str "session_id" ∨ r.extractionStops = true →
        (ev.lookup name).getD [] = r.param name) ∧
      (r.extractionStops = false →
        (ev.lookup (str "session_id")).getD [] = SessionId b (some r.ParseForm.1)) := by
  obtain ⟨r1, ev, hdo, hhost, hquery, h1, h2⟩ := doExtraction_values b r hwf
  refine ⟨r1, ev, hhost, hquery, ?_, h1, h2⟩
  intro name
  simp only [extractor.Value, hdo, Option.getD_some]

/-- The test requests are as the library hands them over. -/
theorem testRequests_parsed :
    hobQueryRequest.Parsed ∧ cityBodyRequest.Parsed ∧ londonHostRequest.Parsed ∧
    postBothRequest.Parsed ∧ malformedBodyRequest.Parsed ∧ dubCityRequest.Parsed := by
  have hno : ∀ (r : Request), r.PostForm = none →
      ∀ pf, r.PostForm = some pf → NoEmptyValues pf := by
    intro r h pf hpf
    rw [h] at hpf
    cases hpf
  have hbody : ∀ (r : Request) (body : Body), r.Body = some body → NoEmptyValues body.form →
      ∀ b1, r.Body = some b1 → NoEmptyValues b1.form := by
    intro r body h hne b1 hb1
    rw [h] at hb1
    cases hb1
    exact hne
  have hnobody : ∀ (r : Request), r.Body = none →
      ∀ b1, r.Body = some b1 → NoEmptyValues b1.form := by
    intro r h b1 hb1
    rw [h] at hb1
    cases hb1
  refine ⟨⟨?_, hno _ rfl, hnobody _ rfl⟩, ⟨?_, hno _ rfl, hbody _ _ rfl ?_⟩,
    ⟨?_, hno _ rfl, hnobody _ rfl⟩, ⟨?_, hno _ rfl, hbody _ _ rfl ?_⟩,
    ⟨?_, hno _ rfl, hbody _ _ rfl ?_⟩, ⟨?_, hno _ rfl, hnobody _ rfl⟩⟩ <;>
    · unfold NoEmptyValues
      decide

/-- `ParseForm` on a POST or PUT request whose form was not parsed before and
whose body and query decode without error: no error, and the values of the
body are those decoded from it. -/
theorem parseForm_body (r : Request) (body : Body)
    (hm : r.Method = str "POST" ∨ r.Method = str "PUT") (hpf : r.PostForm = none)
    (hbody : r.Body = some body) (hferr : body.formErr = false) (hq : r.queryErr = false) :
    r.ParseForm.2 = false ∧ r.bodyValues = body.form := by
  have hm3 : r.Method = str "POST" ∨ r.Method = str "PUT" ∨ r.Method = str "PATCH" := by
    rcases hm with h | h
    · exact Or.inl h
    · exact Or.inr (Or.inl h)
  constructor
  · simp only [Request.ParseForm, hpf, hm3, if_true, parsePostForm, hbody, hferr, hq,
      Bool.false_or]
    by_cases hf : r.Form = []
    · simp only [hf, if_true]
    · simp only [hf, if_false]
  · simp only [Request.bodyValues, hpf, hm3, if_true, hbody]

/-- C27 (counterexample): `POST /?session_id=q&city=DUB` with the form body
`session_id=b&city=LON`: `Value("session_id")` is the value `q` of the query,
not the value `b` of the body. And when the body is malformed
(`POST /?city=DUB` with the body `city=LON&x=%zz`), `Value("city")` is the
value `DUB` of the query. -/
theorem C27_counterexample :
    postBothRequest.Query.Get (str "session_id") = str "q" ∧
    postBothRequest.bodyValues.lookup (str "session_id") = some [str "b"] ∧
    ((newExtractor (some postBothRequest)).Value true (str "session_id")).map Prod.fst =
      some (str "q") ∧
    ((newExtractor (some postBothRequest)).Value false (str "session_id")).map Prod.fst =
      some (str "q") ∧
    malformedBodyRequest.bodyValues.lookup (str "city") = some [str "LON"] ∧
    ((newExtractor (some malformedBodyRequest)).Value true (str "city")).map Prod.fst =
      some (str "DUB") := by
  decide

/-- C27 (amended): for a request as the library hands it over and a new
extractor. For a POST or PUT request whose form was not parsed before and
whose body is read and decoded without error (as is the query), and for every
parameter name other than `session_id` that the body holds, `Value` returns
the first value of the name in the body, whether or not the query holds the
name too. When the body can be used, `Value("session_id")` is the session id
of the request with its form parsed, which is the `session_id` of the query
when that is non-empty. When reading the body fails or `ParseForm` returns an
error, `Value` returns the first value of the name in the query for every
name. -/
theorem C27_value_body_first (b : Bool) (r : Request) (hwf : r.Parsed) :
    (∀ (body : Body) (name v : GoString) (vs : List GoString),
      (r.Method = str "POST" ∨ r.Method = str "PUT") → r.PostForm = none →
      r.Body = some body → body.readErr = false → body.formErr = false →
      r.queryErr = false → name ≠ str "session_id" →
      body.form.lookup name = some (v :: vs) →
      ((newExtractor (some r)).Value b name).map Prod.fst = some v) ∧
    (r.extractionStops = false →
      ((newExtractor (some r)).Value b (str "session_id")).map Prod.fst =
        some (SessionId b (some r.ParseForm.1))) ∧
    (r.extractionStops = false → r.Query.Get (str "session_id") ≠ [] →
      ((newExtractor (some r)).Value b (str "session_id")).map Prod.fst =
        some (r.Query.Get (str "session_id"))) ∧
    (r.extractionStops = true → ∀ name,
      ((newExtractor (some r)).Value b name).map Prod.fst = some (r.Query.Get name)) := by
  obtain ⟨r1, ev, _, _, hval, hparam, hsid⟩ := Value_fresh b r hwf
  have hv : ∀ name, ((newExtractor (some r)).Value b name).map Prod.fst
      = some ((ev.lookup name).getD []) := by
    intro name
    show (extractor.Value b ⟨some r, none⟩ name).map Prod.fst = _
    rw [hval name]
    rfl
  refine ⟨?_, ?_, ?_, ?_⟩
  · intro body name v vs hm hpf hbody hread hferr hq hname hin
    obtain ⟨hperr, hbv⟩ := parseForm_body r body hm hpf hbody hferr hq
    have hs : r.extractionStops = false := by
      simp only [Request.extractionStops, Request.drainFails, hbody, hread, hperr,
        Bool.or_self]
    rw [hv, hparam name (Or.inl hname)]
    simp only [Request.param, hs, hbv, hin, Option.isSome_some, and_self, if_true,
      Values.Get]
  · intro hs
    rw [hv, hsid hs]
  · intro hs hq
    rw [hv, hsid hs]
    have hqq : r.ParseForm.1.Query = r.Query := rfl
    simp only [SessionId, hqq, hq, ne_eq, not_false_eq_true, if_true]
  · intro hs name
    rw [hv, hparam name (Or.inr hs)]
    simp [Request.param, hs]

/-- C27 (witness): `POST /?session_id=q&city=DUB` with the form body
`session_id=b&city=LON`: `Value("city")` is `LON` and `Value("session_id")` is
`q`; with the malformed body, `Value("city")` is the `DUB` of the query. -/
theorem C27_value_body_first_witness :
    postBothRequest.Query.lookup (str "city") = some [str "DUB"] ∧
    ((newExtractor (some postBothRequest)).Value true (str "city")).map Prod.fst =
      some (str "LON") ∧
    ((newExtractor (some postBothRequest)).Value true (str "session_id")).map Prod.fst =
      some (str "q") ∧
    ((newExtractor (some malformedBodyRequest)).Value true (str "city")).map Prod.fst =
      some (str "DUB") :=
  ⟨by decide,
   (C27_value_body_first true postBothRequest testRequests_parsed.2.2.2.1).1
    { readErr := false, form := [(str "session_id", [str "b"]), (str "city", [str "LON"])],
      formErr := false }
    (str "city") (str "LON") [] (Or.inl rfl) rfl rfl rfl rfl rfl (by decide) (by decide),
   ((C27_value_body_first true postBothRequest testRequests_parsed.2.2.2.1).2.2.1
      (by decide) (by decide)).trans (by decide),
   ((C27_value_body_first true malformedBodyRequest testRequests_parsed.2.2.2.2.1).2.2.2
      (by decide) (str "city")).trans (by decide)⟩

/-- The invalid configurations for which `tryLoad` returns an error and keeps
the snapshot: an empty raw configuration, one that does not decode, one without
rules, and one with an empty region map whose rules can be sorted. -/
theorem tryLoad_invalid (unmarshal : GoString → Except GoString parsedConfig)
    (sortFn : (Rule → Rule → Bool) → List Rule → List Rule)
    (hashHex : SortedRules → Regions → HobRegions → Int → HobModes → GoString)
    (cp : ControlPlane) (raw : GoString) :
    (raw = [] → cp.tryLoad unmarshal sortFn hashHex raw =
      some ⟨some (str "error loading config -- zero length"), cp, none⟩) ∧
    (∀ e, raw ≠ [] → unmarshal raw = .error e →
      cp.tryLoad unmarshal sortFn hashHex raw =
        some ⟨some (str "JSON unmarshal error: " ++ e), cp, none⟩) ∧
    (∀ p, raw ≠ [] → unmarshal raw = .ok p → p.Cp.Rules = [] →
      cp.tryLoad unmarshal sortFn hashHex raw =
        some ⟨some (str "Must have at least one routing rule defined"), cp, none⟩) ∧
    (∀ p sorted, raw ≠ [] → unmarshal raw = .ok p →
      Rules.Sort sortFn p.Cp.Rules = some sorted → p.Cp.Regions = [] →
      ∃ err, cp.tryLoad unmarshal sortFn hashHex raw = some ⟨some err, cp, none⟩) := by
  refine ⟨?_, ?_, ?_, ?_⟩
  · intro h
    simp only [ControlPlane.tryLoad, h, List.length_nil, if_true]
  · intro e hraw he
    have hlen : ¬ raw.length = 0 := fun h => hraw (List.length_eq_zero.mp h)
    simp only [ControlPlane.tryLoad, hlen, if_false, he]
  · intro p hraw hp hrules
    have hlen : ¬ raw.length = 0 := fun h => hraw (List.length_eq_zero.mp h)
    have hsort : Rules.Sort sortFn p.Cp.Rules = some [] := by
      rw [hrules]
      rfl
    simp only [ControlPlane.tryLoad, hlen, if_false, hp, hsort, SortedRules.Validate,
      List.length_nil, if_true]
  · intro p sorted hraw hp hsort hregions
    have hlen : ¬ raw.length = 0 := fun h => hraw (List.length_eq_zero.mp h)
    simp only [ControlPlane.tryLoad, hlen, if_false, hp, hsort, hregions, Regions.Validate,
      List.length_nil, if_true]
    cases SortedRules.Validate sorted with
    | some err => exact ⟨err, rfl⟩
    | none => exact ⟨_, rfl⟩

/-- C23: a configuration that decodes to two nil rules and an empty region
map: `tryLoad` does not return an error, it panics in `Rules.Sort`, where
`Less` reads the weight of a nil rule. With one rule and an empty region map it
returns the error of `Regions.Validate` and keeps the snapshot. -/
theorem C23_tryLoad_nil_rules :
    nilRulesRaw ≠ [] ∧
    nilRulesConfig.Cp.Regions = [] ∧
    SortedRules.Less (nilRulesConfig.Cp.Rules.map Prod.snd) 1 0 = none ∧
    Rules.Sort insertionSortFn nilRulesConfig.Cp.Rules = none ∧
    (loadedControlPlane.tryLoad unmarshalNilRules insertionSortFn constHash
      nilRulesRaw).isNone = true ∧
    (loadedControlPlane.tryLoad unmarshalNoRegions insertionSortFn constHash
      nilRulesRaw).map LoadResult.err =
        some (some (str "Must have at least one region defined")) := by
  decide

/-! ### The AZ arbiter -/

/-- After `recoverAZ` the monitor is healthy, without failure and without lock
handle. -/
theorem recoverAZ_clears (s : StatusMonitor) (now : Int) (zk : Coordinator) :
    (s.recoverAZ now zk).1.IsHealthy = true ∧
    (s.recoverAZ now zk).1.FailureType = NoFailure ∧
    (s.recoverAZ now zk).1.lockHandle = [] ∧
    (s.recoverAZ now zk).1.LastChanged = now ∧
    (s.recoverAZ now zk).1.AZName = s.AZName := by
  unfold StatusMonitor.recoverAZ
  by_cases h : s.lockHandle = []
  · simp [h]
  · simp [h]

/-- `recoverAZ` calls `Delete` exactly when the monitor holds a lock handle,
and then on the handle. -/
theorem recoverAZ_deleted (s : StatusMonitor) (now : Int) (zk : Coordinator) :
    (s.recoverAZ now zk).2.deleted =
      if s.lockHandle ≠ [] then s.lockHandle :: zk.deleted else zk.deleted := by
  unfold StatusMonitor.recoverAZ
  by_cases h : s.lockHandle = []
  · simp [h]
  · simp only [ne_eq, h, not_false_eq_true, if_true]
    unfold unlock
    split <;> rfl

/-- C21: on the monitor of the tests and a coordinator without node, the
calls `interpretRavenStatus(false)`, `interpretRavenStatus(false)`,
`interpretRavenStatus(true)`: the first call creates the node, the second one
loses the lock handle, and the recovery calls no `Delete`, so that the node
that the instance created still names its AZ while the instance is healthy.
With a single `interpretRavenStatus(false)` before the recovery the node is
deleted. -/
theorem C21_recovery_without_delete :
    (interpretAll (testMonitor, emptyCoordinator) [.raven false 1]) =
      ({ testMonitor with
          IsHealthy := false, LastChanged := 1, FailureType := ConnectivityFailure,
          lockHandle := lockPath },
       { node := some (str "test"), deleted := [] }) ∧
    (interpretAll (testMonitor, emptyCoordinator) [.raven false 1, .raven false 2]) =
      ({ testMonitor with
          IsHealthy := false, LastChanged := 2, FailureType := ConnectivityFailure,
          lockHandle := [] },
       { node := some (str "test"), deleted := [] }) ∧
    (interpretAll (testMonitor, emptyCoordinator)
        [.raven false 1, .raven false 2, .raven true 3]) =
      ({ testMonitor with
          IsHealthy := true, LastChanged := 3, FailureType := NoFailure, lockHandle := [] },
       { node := some (str "test"), deleted := [] }) ∧
    (interpretAll (testMonitor, emptyCoordinator) [.raven false 1, .raven true 3]) =
      ({ testMonitor with
          IsHealthy := true, LastChanged := 3, FailureType := NoFailure, lockHandle := [] },
       { node := none, deleted := [lockPath] }) := by
  decide

/-- A failover step keeps the property that the node names the AZ of every
instance that is not healthy. -/
theorem failoverAZOn_spec (s : StatusMonitor) (failure : Failure) (now : Int)
    (zk : Coordinator) :
    (s.failoverAZOn failure now zk).1.AZName = s.AZName ∧
    ((s.failoverAZOn failure now zk).1.IsHealthy = false →
      (s.failoverAZOn failure now zk).2.node = some s.AZName ∨
        (s.IsHealthy = false ∧ (s.failoverAZOn failure now zk).2 = zk)) ∧
    (zk.node ≠ none → (s.failoverAZOn failure now zk).2 = zk) ∧
    (zk.node = none → (s.failoverAZOn failure now zk).2.node = some s.AZName) := by
  unfold StatusMonitor.failoverAZOn lock
  cases hn : zk.node with
  | none => simp [StatusMonitor.failoverAZ]
  | some d =>
    simp only [StatusMonitor.failoverAZ, readLock, hn]
    by_cases hd : d = s.AZName
    · simp [hd, hn]
    · simp [hd, hn]

/-- A failover step of an instance of the system. -/
theorem step_failover (c : Cluster) (i : Nat) (failure : Failure) (now : Int) :
    c.step (.failover i failure now) =
      match c.instances[i]? with
      | none => c
      | some s =>
        ⟨c.instances.set i (s.failoverAZOn failure now c.zk).1,
          (s.failoverAZOn failure now c.zk).2⟩ := rfl

/-- A recovery step of an instance of the system. -/
theorem step_recover (c : Cluster) (i : Nat) (now : Int) :
    c.step (.recover i now) =
      match c.instances[i]? with
      | none => c
      | some s =>
        ⟨c.instances.set i (s.recoverAZ now c.zk).1, (s.recoverAZ now c.zk).2⟩ := rfl

/-- An allowed step keeps the property that the node names the AZ of every
instance that is not healthy. -/
theorem step_nodeNamesFailed (c : Cluster) (st : ClusterStep) (hJ : c.NodeNamesFailed)
    (ha : c.Allowed st) : (c.step st).NodeNamesFailed := by
  cases st with
  | failover i failure now =>
    rw [step_failover]
    cases hi : c.instances[i]? with
    | none => exact hJ
    | some s =>
      simp only []
      have hs : s ∈ c.instances := List.mem_iff_getElem?.mpr ⟨i, hi⟩
      obtain ⟨haz, hun, hkeep, _⟩ := failoverAZOn_spec s failure now c.zk
      intro t ht hbad
      obtain ⟨j, hj⟩ := List.mem_iff_getElem?.mp ht
      simp only [List.getElem?_set] at hj
      by_cases hij : i = j
      · rw [if_pos hij] at hj
        split at hj
        · simp only [Option.some.injEq] at hj
          subst hj
          rw [haz]
          rcases hun hbad with h | ⟨h1, h2⟩
          · exact h
          · show (s.failoverAZOn failure now c.zk).2.node = some s.AZName
            rw [h2]
            exact hJ s hs h1
        · exact absurd hj (by simp)
      · rw [if_neg hij] at hj
        have htm : t ∈ c.instances := List.mem_iff_getElem?.mpr ⟨j, hj⟩
        have hnode := hJ t htm hbad
        show (s.failoverAZOn failure now c.zk).2.node = some t.AZName
        rw [hkeep (by rw [hnode]; simp)]
        exact hnode
  | recover i now =>
    rw [step_recover]
    cases hi : c.instances[i]? with
    | none => exact hJ
    | some s =>
      simp only []
      obtain ⟨hh, _, _, _, _⟩ := recoverAZ_clears s now c.zk
      intro t ht hbad
      obtain ⟨j, hj⟩ := List.mem_iff_getElem?.mp ht
      simp only [List.getElem?_set] at hj
      by_cases hij : i = j
      · rw [if_pos hij] at hj
        split at hj
        · simp only [Option.some.injEq] at hj
          subst hj
          rw [hh] at hbad
          exact absurd hbad (by simp)
        · exact absurd hj (by simp)
      · rw [if_neg hij] at hj
        have htm : t ∈ c.instances := List.mem_iff_getElem?.mpr ⟨j, hj⟩
        show (s.recoverAZ now c.zk).2.node = some t.AZName
        by_cases hheld : s.lockHandle = []
        · have hz : (s.recoverAZ now c.zk).2 = c.zk := by
            simp [StatusMonitor.recoverAZ, hheld]
          rw [hz]
          exact hJ t htm hbad
        · have hgood := ha s hi hheld t
            (List.mem_eraseIdx_iff_getElem?.mpr ⟨j, fun h => hij h.symm, hj⟩)
          rw [hgood] at hbad
          exact absurd hbad (by simp)

/-- Allowed steps keep the property that the node names the AZ of every
instance that is not healthy. -/
theorem run_nodeNamesFailed (steps : List ClusterStep) :
    ∀ c : Cluster, c.NodeNamesFailed → c.AllowedRun steps → (c.run steps).NodeNamesFailed := by
  induction steps with
  | nil => intro c hJ _; exact hJ
  | cons st rest ih =>
    intro c hJ hrun
    exact ih (c.step st) (step_nodeNamesFailed c st hJ hrun.1) hrun.2

/-- C22 (counterexample): two instances of the AZ `a` and one of the AZ `b`.
The first fails over and creates the node, the second one adopts the failover,
the first recovers and deletes the node, and the third fails over: an instance
of `a` and an instance of `b` are unhealthy at the same time. -/
theorem C22_counterexample :
    (threeInstances.run [.failover 0 MonitoringFailure 1, .failover 1 MonitoringFailure 2,
        .recover 0 3, .failover 2 MonitoringFailure 4]).instances.map
      (fun s => (s.IsHealthy, s.AZName)) =
        [(true, str "a"), (false, str "a"), (false, str "b")] ∧
    ¬ (threeInstances.run [.failover 0 MonitoringFailure 1, .failover 1 MonitoringFailure 2,
        .recover 0 3, .failover 2 MonitoringFailure 4]).OneAZFailed := by
  refine ⟨by decide, ?_⟩
  unfold Cluster.OneAZFailed
  decide

/-- C22 (amended): from a state in which every instance is healthy, after
every sequence of `failoverAZ` and `recoverAZ` steps in which an instance that
holds a lock handle recovers only when every other instance is healthy: every
instance that is not healthy has the AZ that the node of the coordinator
names, so all instances that are not healthy have the same AZ name. -/
theorem C22_one_az_failed (c : Cluster) (steps : List ClusterStep)
    (hinit : ∀ s ∈ c.instances, s.IsHealthy = true) (hrun : c.AllowedRun steps) :
    (c.run steps).NodeNamesFailed ∧ (c.run steps).OneAZFailed := by
  have hJ : (c.run steps).NodeNamesFailed :=
    run_nodeNamesFailed steps c
      (fun s hs hbad => absurd (hinit s hs) (by rw [hbad]; simp)) hrun
  refine ⟨hJ, ?_⟩
  intro s hs t ht hsb htb
  have h1 := hJ s hs hsb
  have h2 := hJ t ht htb
  rw [h1] at h2
  exact Option.some.inj h2

/-- C22 (witness): the three instances; the first two fail over, the third is
refused, and the second (which holds no handle) recovers: the instance that is
left unhealthy has the AZ `a` that the node names. -/
theorem C22_one_az_failed_witness :
    (threeInstances.run [.failover 0 MonitoringFailure 1, .failover 1 MonitoringFailure 2,
        .failover 2 MonitoringFailure 3, .recover 1 4]).instances.map
      (fun s => (s.IsHealthy, s.AZName)) =
        [(false, str "a"), (true, str "a"), (true, str "b")] ∧
    (threeInstances.run [.failover 0 MonitoringFailure 1, .failover 1 MonitoringFailure 2,
        .failover 2 MonitoringFailure 3, .recover 1 4]).NodeNamesFailed ∧
    (threeInstances.run [.failover 0 MonitoringFailure 1, .failover 1 MonitoringFailure 2,
        .failover 2 MonitoringFailure 3, .recover 1 4]).OneAZFailed :=
  ⟨by decide,
   C22_one_az_failed threeInstances
    [.failover 0 MonitoringFailure 1, .failover 1 MonitoringFailure 2,
      .failover 2 MonitoringFailure 3, .recover 1 4]
    (by decide)
    (by
      refine ⟨trivial, trivial, trivial, ?_, trivial⟩
      intro s hs hheld
      have hs2 : s.lockHandle = [] := by
        have : (Cluster.step (Cluster.step (Cluster.step threeInstances
            (.failover 0 MonitoringFailure 1)) (.failover 1 MonitoringFailure 2))
            (.failover 2 MonitoringFailure 3)).instances[1]?.map StatusMonitor.lockHandle
              = some [] := by decide
        rw [hs] at this
        exact Option.some.inj this
      exact absurd hs2 hheld)⟩

end controlplane
